import Mathlib

/-!
# dummy-http-server: response matching and request capture

A shallow embedding of the Go packages `engine` (responses.go) and `capture`
(capture.go) together with the parts of the Go standard library they call:
byte slices on a heap, `map[string]bool`, `io.Writer`, `regexp`,
`encoding/base64` and `time`.

Conventions of the embedding.
* A Go `string` is a Lean `String`. In package `engine` a `[]byte` is an optional
  slice header (`none` is the nil slice) pointing into an explicit heap of byte
  arrays, so that aliasing and defensive copies are visible; in package
  `capture`, where no slice is shared, it is the list of its bytes.
* A Go `int` is an `Int`; the code does no arithmetic on it.
* A pointer that may be nil is an `Option`.
* An `error` result is a value of the type `GoError`; `(T, error)` is
  `Except GoError T`.
* A call that can panic gives an `Outcome`: what it returns, or the value of the
  panic.
-/

set_option autoImplicit false

/-! ## Go runtime: errors, heap of byte arrays, slices, maps, writers -/

namespace golang

/-- The error values the modelled code can produce. -/
inductive GoError where
  /-- The `*syntax.Error` of `regexp.Compile`, with its error code. -/
  | regexpSyntaxError (code : String)
  /-- The `base64.CorruptInputError` of `DecodeString`. -/
  | corruptInputError
  /-- An error returned by an `io.Writer`. -/
  | writeError (msg : String)
  /-- The value `io.EOF`. -/
  | EOF
  /-- An error returned by an `io.Reader`. -/
  | readError (msg : String)
  /-- An error of `json.Marshal`. -/
  | marshalError (msg : String)
  /-- An error of package `os`. -/
  | pathError (msg : String)
  deriving DecidableEq, Repr

deriving instance DecidableEq for Except

/-- A non-nil slice header: backing array, offset and length. -/
structure Slice where
  arr : Nat
  off : Nat
  len : Nat
  deriving DecidableEq, Repr

/-- A `[]byte` value: `none` is the nil slice. -/
abbrev Bytes := Option Slice

/-- The heap of byte arrays; an array is addressed by its index. -/
structure Heap where
  arrays : List (List UInt8)
  deriving DecidableEq, Repr

namespace Heap

/-- Allocation of a fresh backing array holding `bs`; gives the slice over all of it. -/
def alloc (h : Heap) (bs : List UInt8) : Heap × Slice :=
  (⟨h.arrays ++ [bs]⟩, ⟨h.arrays.length, 0, bs.length⟩)

/-- The bytes a slice denotes in the heap. -/
def load (h : Heap) : Bytes → List UInt8
  | none => []
  | some s => ((h.arrays.getD s.arr []).drop s.off).take s.len

/-- The assignment `s[i] = v`; out of range it leaves the heap alone (Go panics there). -/
def store (h : Heap) (s : Slice) (i : Nat) (v : UInt8) : Heap :=
  if i < s.len then
    ⟨h.arrays.modify (fun a => a.set (s.off + i) v) s.arr⟩
  else h

/-- The slice lies inside an allocated array of the heap. -/
def valid (h : Heap) (s : Slice) : Prop :=
  s.arr < h.arrays.length ∧ s.off + s.len ≤ (h.arrays.getD s.arr []).length

/-- Heap `h2` comes from `h1` by changes that leave every array of `h1` whose
index is not in `mutable` as it was (the arrays in `mutable` may hold anything,
new arrays may have been allocated). -/
def frame (h1 h2 : Heap) (mutable : List Nat) : Prop :=
  h1.arrays.length ≤ h2.arrays.length ∧
    ∀ k, k < h1.arrays.length → k ∉ mutable → h2.arrays.getD k [] = h1.arrays.getD k []

instance (h : Heap) (s : Slice) : Decidable (valid h s) := by
  unfold valid
  infer_instance

instance (h1 h2 : Heap) (mutable : List Nat) : Decidable (frame h1 h2 mutable) := by
  unfold frame
  infer_instance

end Heap

/-- The backing array of a byte slice, if it has one. -/
def Bytes.arrays : Bytes → List Nat
  | none => []
  | some s => [s.arr]

/-- The Go expression `append([]byte(nil), src...)`: nil when `src` has no element,
otherwise a slice over a freshly allocated copy. -/
def appendToNil (h : Heap) (src : Bytes) : Heap × Bytes :=
  match src with
  | none => (h, none)
  | some s =>
    if s.len = 0 then (h, none)
    else
      let r := h.alloc (h.load (some s))
      (r.1, some r.2)

/-- A `map[string]bool`: the entries, each key at most once when built with `GoMap.set`. -/
abbrev GoMap := List (String × Bool)

namespace GoMap

/-- The lookup `v, found := m[k]`. -/
def lookup (m : GoMap) (k : String) : Option Bool :=
  match m with
  | [] => none
  | (k1, v) :: rest => if k1 = k then some v else lookup rest k

/-- The assignment `m[k] = v`. -/
def set (m : GoMap) (k : String) (v : Bool) : GoMap :=
  match m with
  | [] => [(k, v)]
  | (k1, v1) :: rest => if k1 = k then (k1, v) :: rest else (k1, v1) :: set rest k v

/-- The keys of the map. -/
def keys (m : GoMap) : List String := m.map Prod.fst

end GoMap

/-- An `io.Writer` over a state `σ`: `Write` gives the new state and the error. -/
structure Writer (σ : Type) where
  Write : σ → List UInt8 → σ × Option GoError

/-- The writer of a `bytes.Buffer`: appends and never fails. -/
def bufferWriter : Writer (List UInt8) :=
  ⟨fun buf p => (buf ++ p, none)⟩

/-- The conversion `[]byte(s)` of a string: its UTF-8 bytes. -/
def stringBytes (s : String) : List UInt8 := s.toList.flatMap String.utf8EncodeChar

/-- How a call ends that can panic: it returns, or it panics with a value and
what follows the call in the caller is not run. -/
inductive Outcome (α : Type) where
  | returns (a : α)
  | panics (value : String)
  deriving DecidableEq, Repr

/-- The outcome with the function applied to what the call returns. -/
def Outcome.map {α β : Type} (f : α → β) : Outcome α → Outcome β
  | .returns a => .returns (f a)
  | .panics v => .panics v

end golang

/-! ## Package `regexp`

A compiled `*regexp.Regexp` is modelled by the text it was compiled from and the
parsed expression. The expression type has one constructor for every operator of
`regexp/syntax` that survives simplification (counted repetition is expanded by
the library before compilation), so it can stand for any compiled pattern; the
matcher decides the boolean question `Regexp.Match` answers. The parser of the
library is a parameter of `Compile`; `fragmentParse` is a parser for a fragment
of the syntax, used for the worked examples.
-/

namespace regexp

open golang

/-- The operators of a parsed regular expression. -/
inductive Expr where
  | emptyMatch
  | noMatch
  | literal (c : Char)
  | charClass (negated : Bool) (ranges : List (Char × Char))
  | anyCharNotNL
  | anyChar
  | beginLine
  | endLine
  | beginText
  | endText
  | wordBoundary
  | noWordBoundary
  | capture (e : Expr)
  | star (e : Expr)
  | plus (e : Expr)
  | quest (e : Expr)
  | concat (e1 e2 : Expr)
  | alternate (e1 e2 : Expr)
  deriving DecidableEq, Repr

/-- Membership of a character in a list of inclusive ranges. -/
def inRanges (ranges : List (Char × Char)) (c : Char) : Bool :=
  ranges.any (fun r => decide (r.1 ≤ c) && decide (c ≤ r.2))

/-- The ASCII word characters of the assertion backslash-b. -/
def isWordChar (c : Char) : Bool :=
  c.isAlphanum || c = '_'

/-- Whether the position has a word character on the given side. -/
def wordAt (input : List Char) (i : Option Nat) : Bool :=
  match i with
  | none => false
  | some k => match input[k]? with
    | none => false
    | some c => isWordChar c

/-- The character before position `i`, when there is one. -/
def before (i : Nat) : Option Nat :=
  match i with
  | 0 => none
  | k + 1 => some k

/-- The end positions of one-character steps from `i` that satisfy `p`. -/
def stepChar (input : List Char) (p : Char → Bool) (i : Nat) : List Nat :=
  match input[i]? with
  | none => []
  | some c => if p c then [i + 1] else []

/-- An empty-width assertion at `i`. -/
def assertAt (b : Bool) (i : Nat) : List Nat :=
  if b then [i] else []

/-- The positions reachable from `i` by repeating `f` any number of times; an
iteration that does not advance adds nothing, so at most `fuel` advancing
iterations are followed. -/
def starEnds (f : Nat → List Nat) : Nat → Nat → List Nat
  | 0, i => [i]
  | fuel + 1, i => i :: ((f i).filter (fun j => decide (i < j))).flatMap (starEnds f fuel)

/-- The positions at which a match of `e` starting at `i` can end. -/
def ends (input : List Char) : Expr → Nat → List Nat
  | .emptyMatch, i => [i]
  | .noMatch, _ => []
  | .literal c, i => stepChar input (fun x => decide (x = c)) i
  | .charClass negated ranges, i => stepChar input (fun x => inRanges ranges x != negated) i
  | .anyCharNotNL, i => stepChar input (fun x => decide (x ≠ '\n')) i
  | .anyChar, i => stepChar input (fun _ => true) i
  | .beginLine, i => assertAt (decide (i = 0) || (before i).bind (fun k => input[k]?) == some '\n') i
  | .endLine, i => assertAt (decide (i = input.length) || input[i]? == some '\n') i
  | .beginText, i => assertAt (decide (i = 0)) i
  | .endText, i => assertAt (decide (i = input.length)) i
  | .wordBoundary, i => assertAt (wordAt input (before i) != wordAt input (some i)) i
  | .noWordBoundary, i => assertAt (wordAt input (before i) == wordAt input (some i)) i
  | .capture e, i => ends input e i
  | .star e, i => starEnds (ends input e) input.length i
  | .plus e, i => (ends input e i).flatMap (starEnds (ends input e) input.length)
  | .quest e, i => i :: ends input e i
  | .concat e1 e2, i => (ends input e1 i).flatMap (ends input e2)
  | .alternate e1 e2, i => ends input e1 i ++ ends input e2 i

/-- The unanchored search: is there a start position from which `e` matches? -/
def search (e : Expr) (input : List Char) : Bool :=
  (List.range (input.length + 1)).any (fun i => !(ends input e i).isEmpty)

/-- The meaning of the expressions, as a relation: `Matches input e i j` says
that `e` matches the piece of `input` from position `i` up to position `j`. The
assertions look at the whole input around the position. -/
inductive Matches (input : List Char) : Expr → Nat → Nat → Prop where
  | emptyMatch (i : Nat) : Matches input .emptyMatch i i
  | literal (c : Char) (i : Nat) : input[i]? = some c → Matches input (.literal c) i (i + 1)
  | charClass (negated : Bool) (ranges : List (Char × Char)) (c : Char) (i : Nat) :
      input[i]? = some c → (inRanges ranges c != negated) = true →
      Matches input (.charClass negated ranges) i (i + 1)
  | anyCharNotNL (c : Char) (i : Nat) : input[i]? = some c → c ≠ '\n' →
      Matches input .anyCharNotNL i (i + 1)
  | anyChar (c : Char) (i : Nat) : input[i]? = some c → Matches input .anyChar i (i + 1)
  | beginLineStart : Matches input .beginLine 0 0
  | beginLineAfterNL (k : Nat) : input[k]? = some '\n' → Matches input .beginLine (k + 1) (k + 1)
  | endLineEnd : Matches input .endLine input.length input.length
  | endLineBeforeNL (i : Nat) : input[i]? = some '\n' → Matches input .endLine i i
  | beginText : Matches input .beginText 0 0
  | endText : Matches input .endText input.length input.length
  | wordBoundary (i : Nat) : wordAt input (before i) ≠ wordAt input (some i) →
      Matches input .wordBoundary i i
  | noWordBoundary (i : Nat) : wordAt input (before i) = wordAt input (some i) →
      Matches input .noWordBoundary i i
  | capture (e : Expr) (i j : Nat) : Matches input e i j → Matches input (.capture e) i j
  | starNil (e : Expr) (i : Nat) : Matches input (.star e) i i
  | starCons (e : Expr) (i k j : Nat) : Matches input e i k → Matches input (.star e) k j →
      Matches input (.star e) i j
  | plus (e : Expr) (i k j : Nat) : Matches input e i k → Matches input (.star e) k j →
      Matches input (.plus e) i j
  | questNil (e : Expr) (i : Nat) : Matches input (.quest e) i i
  | questSome (e : Expr) (i j : Nat) : Matches input e i j → Matches input (.quest e) i j
  | concat (e1 e2 : Expr) (i k j : Nat) : Matches input e1 i k → Matches input e2 k j →
      Matches input (.concat e1 e2) i j
  | alternateLeft (e1 e2 : Expr) (i j : Nat) : Matches input e1 i j →
      Matches input (.alternate e1 e2) i j
  | alternateRight (e1 e2 : Expr) (i j : Nat) : Matches input e2 i j →
      Matches input (.alternate e1 e2) i j

/-- The pattern is found in the text: some piece of it, from `i` up to `j`,
matches the expression. -/
def FoundIn (e : Expr) (text : String) : Prop :=
  ∃ i j, i ≤ j ∧ j ≤ text.length ∧ Matches text.toList e i j

/-- A compiled regular expression: the source text and the parsed expression. -/
structure Regexp where
  expr : String
  prog : Expr
  deriving DecidableEq, Repr

/-- The method `Match`: whether the text contains any match of the expression.
The bytes handed over by `MatchPath` are those of a string, which the matcher
decodes into characters again, so the model passes the string. -/
def Regexp.Match (re : Regexp) (b : String) : Bool :=
  search re.prog b.toList

/-- The function `Compile`, over the parser of `regexp/syntax`: the compiled
value keeps the source text. -/
def Compile (syntaxParse : String → Except GoError Expr) (expr : String) :
    Except GoError Regexp :=
  match syntaxParse expr with
  | .error e => .error e
  | .ok prog => .ok ⟨expr, prog⟩

/-- The function `MustCompile`; `none` stands for its panic. -/
def MustCompile (syntaxParse : String → Except GoError Expr) (expr : String) : Option Regexp :=
  match Compile syntaxParse expr with
  | .error _ => none
  | .ok re => some re

/-- The method `String`: the source text used to compile the expression. -/
def Regexp.String (re : Regexp) := re.expr

/-! ### A parser for a fragment of the syntax

The fragment: literal characters, escaped punctuation, `.`, `^`, `$`, bracket
classes of characters and ranges, groups, `|`, and the repetitions `*`, `+`,
`?` with their non-greedy forms. On a pattern that uses anything else (counted
repetition, flags, escapes that are letters or digits, named classes) the
fragment parser answers `outsideFragment`, whatever the library would do. -/

/-- The repetition operators. -/
inductive RepOp where
  | star | plus | quest
  deriving DecidableEq, Repr

/-- The tokens of the fragment. -/
inductive Token where
  | atom (e : Expr)
  | lparen
  | rparen
  | bar
  | rep (op : RepOp)
  deriving DecidableEq, Repr

/-- The states of the lexer, which reads one character at a time: between
tokens, after a backslash, after an opening parenthesis, after an opening
bracket, inside a class, inside a class after a character `lo` that may start a
range, and after `lo` and a dash. -/
inductive LexMode where
  | top
  | esc
  | afterParen
  | clsOpen
  | cls (negated : Bool) (first : Bool) (acc : List (Char × Char))
  | clsLo (negated : Bool) (acc : List (Char × Char)) (lo : Char)
  | clsDash (negated : Bool) (acc : List (Char × Char)) (lo : Char)
  deriving DecidableEq, Repr

/-- The error of the fragment parser on patterns it does not cover. -/
def outsideFragment : GoError := .regexpSyntaxError "pattern outside the modelled fragment"

/-- Escaped punctuation stands for itself. -/
def isPunct (c : Char) : Bool :=
  decide (c.toNat < 128) && !c.isAlphanum

/-- The backslash. -/
def backslash : Char := Char.ofNat 92

/-- The token of a character read between tokens. -/
def topStep (c : Char) : Except GoError (List Token × LexMode) :=
  if c = backslash then .ok ([], .esc)
  else if c = '[' then .ok ([], .clsOpen)
  else if c = '(' then .ok ([.lparen], .afterParen)
  else if c = '{' then .error outsideFragment
  else if c = ')' then .ok ([.rparen], .top)
  else if c = '|' then .ok ([.bar], .top)
  else if c = '*' then .ok ([.rep .star], .top)
  else if c = '+' then .ok ([.rep .plus], .top)
  else if c = '?' then .ok ([.rep .quest], .top)
  else if c = '.' then .ok ([.atom .anyCharNotNL], .top)
  else if c = '^' then .ok ([.atom .beginText], .top)
  else if c = '$' then .ok ([.atom .endText], .top)
  else .ok ([.atom (.literal c)], .top)

/-- The step of a character read inside a class, where `first` tells whether it
is the first item of the class. -/
def clsStep (negated first : Bool) (acc : List (Char × Char)) (c : Char) :
    Except GoError (List Token × LexMode) :=
  if c = ']' ∧ first = false then .ok ([.atom (.charClass negated acc.reverse)], .top)
  else if c = backslash then .error outsideFragment
  else .ok ([], .clsLo negated acc c)

/-- One step of the lexer. -/
def lexStep : LexMode → Char → Except GoError (List Token × LexMode)
  | .top, c => topStep c
  | .esc, c => if isPunct c then .ok ([.atom (.literal c)], .top) else .error outsideFragment
  | .afterParen, c => if c = '?' then .error outsideFragment else topStep c
  | .clsOpen, c => if c = '^' then .ok ([], .cls true true []) else clsStep false true [] c
  | .cls negated first acc, c => clsStep negated first acc c
  | .clsLo negated acc lo, c =>
    if c = '-' then .ok ([], .clsDash negated acc lo)
    else if lo = '[' ∧ c = ':' then .error outsideFragment
    else clsStep negated false ((lo, lo) :: acc) c
  | .clsDash negated acc lo, c =>
    if c = ']' then clsStep negated false (('-', '-') :: (lo, lo) :: acc) c
    else if c = backslash then .error outsideFragment
    else if c < lo then .error (.regexpSyntaxError "invalid character class range")
    else .ok ([], .cls negated false ((lo, c) :: acc))

/-- The end of the pattern in each state of the lexer. -/
def lexEnd : LexMode → Except GoError (List Token)
  | .top => .ok []
  | .afterParen => .ok []
  | .esc => .error (.regexpSyntaxError "trailing backslash at end of expression")
  | _ => .error (.regexpSyntaxError "missing closing ]")

/-- The lexer of the fragment. -/
def lex : LexMode → List Char → Except GoError (List Token)
  | mode, [] => lexEnd mode
  | mode, c :: t =>
    match lexStep mode c with
    | .error e => .error e
    | .ok (toks, mode2) =>
      match lex mode2 t with
      | .error e => .error e
      | .ok ts => .ok (toks ++ ts)

/-- One nesting level of the parser: the finished alternatives and the
concatenation being read, both newest first. -/
structure Frame where
  alts : List Expr
  cur : List Expr
  deriving DecidableEq, Repr

/-- The concatenation of the items read (given newest first). -/
def concatOf : List Expr → Expr
  | [] => .emptyMatch
  | [e] => e
  | e :: rest => .concat (concatOf rest) e

/-- The alternation of the alternatives read (given newest first). -/
def alternateOf : List Expr → Expr
  | [] => .noMatch
  | [e] => e
  | e :: rest => .alternate (alternateOf rest) e

/-- The expression of a finished nesting level. -/
def Frame.close (f : Frame) : Expr :=
  alternateOf (concatOf f.cur :: f.alts)

/-- The application of a repetition operator. -/
def RepOp.apply : RepOp → Expr → Expr
  | .star, e => .star e
  | .plus, e => .plus e
  | .quest, e => .quest e

/-- What the parser read last: something that is no repetition, a repetition
operator, or a repetition operator with its non-greedy mark. -/
inductive Prev where
  | other
  | repeated
  | repeatedLazy
  deriving DecidableEq, Repr

/-- The parser of the fragment over the tokens; `stack` holds the enclosing
levels. A repetition operator needs an argument and may not follow another
one, except for the `?` that marks the operator before it as non-greedy. -/
def parseTokens : List Token → List Frame → Frame → Prev → Except GoError Expr
  | [], [], top, _ => .ok top.close
  | [], _ :: _, _, _ => .error (.regexpSyntaxError "missing closing )")
  | .atom e :: ts, stack, top, _ => parseTokens ts stack ⟨top.alts, e :: top.cur⟩ .other
  | .lparen :: ts, stack, top, _ => parseTokens ts (top :: stack) ⟨[], []⟩ .other
  | .rparen :: _, [], _, _ => .error (.regexpSyntaxError "unexpected )")
  | .rparen :: ts, f :: st, top, _ =>
    parseTokens ts st ⟨f.alts, .capture top.close :: f.cur⟩ .other
  | .bar :: ts, stack, top, _ => parseTokens ts stack ⟨concatOf top.cur :: top.alts, []⟩ .other
  | .rep op :: ts, stack, top, .other =>
    match top.cur with
    | [] => .error (.regexpSyntaxError "missing argument to repetition operator")
    | e :: es => parseTokens ts stack ⟨top.alts, op.apply e :: es⟩ .repeated
  | .rep .quest :: ts, stack, top, .repeated => parseTokens ts stack top .repeatedLazy
  | .rep _ :: _, _, _, _ => .error (.regexpSyntaxError "invalid nested repetition operator")

/-- The parser of the fragment. -/
def fragmentParse (pattern : String) : Except GoError Expr :=
  match lex .top pattern.toList with
  | .error e => .error e
  | .ok ts => parseTokens ts [] ⟨[], []⟩ .other

end regexp

/-! ## Package `encoding/base64`: `StdEncoding.DecodeString`

The standard alphabet with `=` padding, not strict: carriage returns and line
feeds are skipped wherever they stand, the input ends after a full group of
four or after a padded group, and the unused bits of a padded group are not
checked. -/

namespace base64

open golang

/-- The decode map of the standard alphabet. -/
def decodeMap (c : Char) : Option Nat :=
  let n := c.toNat
  if 65 ≤ n ∧ n ≤ 90 then some (n - 65)
  else if 97 ≤ n ∧ n ≤ 122 then some (n - 71)
  else if 48 ≤ n ∧ n ≤ 57 then some (n + 4)
  else if n = 43 then some 62
  else if n = 47 then some 63
  else none

/-- The 24-bit value of a group of up to four 6-bit digits (absent ones are 0). -/
def quantumValue (digits : List Nat) : Nat :=
  digits.getD 0 0 * 262144 + digits.getD 1 0 * 4096 + digits.getD 2 0 * 64 + digits.getD 3 0

/-- The first `n` of the three bytes of a group. -/
def quantumBytes (digits : List Nat) (n : Nat) : List UInt8 :=
  let v := quantumValue digits
  [UInt8.ofNat (v / 65536), UInt8.ofNat (v / 256), UInt8.ofNat v].take n

/-- The input after the carriage returns and line feeds at its head. -/
def skipNewlines : List Char → List Char
  | [] => []
  | c :: t => if c = '\n' ∨ c = '\r' then skipNewlines t else c :: t

/-- The decoding loop: `digits` are those read so far in the current group. -/
def decodeFrom : List Char → List Nat → Except GoError (List UInt8)
  | [], [] => .ok []
  | [], _ :: _ => .error .corruptInputError
  | c :: t, digits =>
    match decodeMap c with
    | some v =>
      if digits.length = 3 then
        match decodeFrom t [] with
        | .error e => .error e
        | .ok rest => .ok (quantumBytes (digits ++ [v]) 3 ++ rest)
      else decodeFrom t (digits ++ [v])
    | none =>
      if c = '\n' ∨ c = '\r' then decodeFrom t digits
      else if c ≠ '=' then .error .corruptInputError
      else if digits.length = 2 then
        match skipNewlines t with
        | [] => .error .corruptInputError
        | p :: t2 =>
          if p = '=' ∧ skipNewlines t2 = [] then .ok (quantumBytes digits 1)
          else .error .corruptInputError
      else if digits.length = 3 then
        if skipNewlines t = [] then .ok (quantumBytes digits 2)
        else .error .corruptInputError
      else .error .corruptInputError

/-- The bytes `StdEncoding.DecodeString` decodes, or its error. -/
def decode (s : String) : Except GoError (List UInt8) :=
  decodeFrom s.toList []

/-- The function `StdEncoding.DecodeString`: on success the result is a slice over
a freshly allocated buffer (the unused tail of the buffer is left out). -/
def DecodeString (h : Heap) (s : String) : Except GoError (Heap × Slice) :=
  match decode s with
  | .error e => .error e
  | .ok bs => .ok (h.alloc bs)

end base64

/-! ## Package `config` -/

namespace config

/-- The configuration of one response rule. -/
structure ResponseConfig where
  PathPattern : String
  Methods : List String
  ContentType : String
  Body : String
  SkipCapture : Bool
  ReturnCode : Int
  deriving DecidableEq, Repr

end config

/-! ## Package `engine`: responses.go -/

namespace engine

open golang regexp

/-- An empty JSON object. -/
def EMPTY_OBJECT : String := "\x7b\x7d"

/-- The default content type. -/
def DEFAULT_CONTENT_TYPE : String := "application/json"

/-- The response that uses a regular expression and a method set to decide
whether it matches a request. -/
structure responseImpl where
  pathPattern : Option Regexp
  methods : Option GoMap
  responseCode : Int
  contentType : String
  body : Bytes
  skipCapture : Bool
  deriving DecidableEq, Repr

/-- A new `responseImpl`: `methods` allocated but empty, `responseCode` 200. -/
def newResponseImpl : responseImpl :=
  { pathPattern := none, methods := some [], responseCode := 200, contentType := "",
    body := none, skipCapture := false }

namespace responseImpl

/-- The built-in `len` on the method map (0 for the nil map). -/
def methodsLen (r : responseImpl) : Nat :=
  match r.methods with
  | none => 0
  | some m => m.length

/-- Checks if the given path matches this response. -/
def MatchPath (r : responseImpl) (path : String) : Bool :=
  match r.pathPattern with
  | none => true
  | some p => p.Match path

/-- Checks if the given method matches this response. -/
def MatchMethods (r : responseImpl) (method : String) : Bool :=
  if r.methodsLen = 0 then true
  else
    match r.methods with
    | none => false
    | some m => (m.lookup method).isSome

/-- Checks method and path. -/
def Match (r : responseImpl) (method path : String) : Bool :=
  r.MatchMethods method && r.MatchPath path

/-- The response code. -/
def ResponseCode (r : responseImpl) : Int := r.responseCode

/-- The content type. -/
def ContentType (r : responseImpl) : String := r.contentType

/-- Writes the body, if there is one, with a single `Write`. -/
def WriteBody {σ : Type} (r : responseImpl) (h : Heap) (w : Writer σ) (s : σ) :
    σ × Option GoError :=
  match r.body with
  | none => (s, none)
  | some b => w.Write s (h.load (some b))

/-- The skip-capture flag. -/
def SkipCapture (r : responseImpl) : Bool := r.skipCapture

end responseImpl

/-- The interface `Response` with its two implementations. -/
inductive Response where
  | defaultResponse
  | impl (r : responseImpl)
  deriving DecidableEq, Repr

/-- The default response. -/
def DEFAULT_RESPONSE : Response := .defaultResponse

namespace Response

/-- The method `Match`: the default response always matches. -/
def Match : Response → String → String → Bool
  | .defaultResponse, _, _ => true
  | .impl r, method, path => r.Match method path

/-- The method `ResponseCode`: the default response always gives 200. -/
def ResponseCode : Response → Int
  | .defaultResponse => 200
  | .impl r => r.ResponseCode

/-- The method `ContentType`: the default response gives `DEFAULT_CONTENT_TYPE`. -/
def ContentType : Response → String
  | .defaultResponse => DEFAULT_CONTENT_TYPE
  | .impl r => r.ContentType

/-- The method `WriteBody`: the default response writes `EMPTY_OBJECT`. -/
def WriteBody {σ : Type} (resp : Response) (h : Heap) (w : Writer σ) (s : σ) :
    σ × Option GoError :=
  match resp with
  | .defaultResponse => w.Write s (stringBytes EMPTY_OBJECT)
  | .impl r => r.WriteBody h w s

/-- The method `SkipCapture`: the default response never skips the capture. -/
def SkipCapture : Response → Bool
  | .defaultResponse => false
  | .impl r => r.SkipCapture

end Response

/-- The builder of responses. -/
structure ResponseBuilder where
  pathPattern : Option Regexp
  methods : List String
  responseCode : Int
  contentType : String
  body : Bytes
  skipCapture : Bool
  deriving DecidableEq, Repr

namespace ResponseBuilder

/-- The zero value `ResponseBuilder{}`. -/
def zero : ResponseBuilder :=
  { pathPattern := none, methods := [], responseCode := 0, contentType := "",
    body := none, skipCapture := false }

/-- Sets the path pattern from a regex string; on an error the builder is unchanged. -/
def SetPathPatternStr (syntaxParse : String → Except GoError Expr) (b : ResponseBuilder)
    (pattern : String) : ResponseBuilder × Option GoError :=
  match Compile syntaxParse pattern with
  | .error err => (b, some err)
  | .ok p => ({ b with pathPattern := some p }, none)

/-- Sets the path pattern. -/
def SetPathPattern (b : ResponseBuilder) (pathPattern : Option Regexp) : ResponseBuilder :=
  { b with pathPattern := pathPattern }

/-- Adds methods to the builder. -/
def AddMethod (b : ResponseBuilder) (method : List String) : ResponseBuilder :=
  { b with methods := b.methods ++ method }

/-- Sets the response code. -/
def SetResponseCode (b : ResponseBuilder) (code : Int) : ResponseBuilder :=
  { b with responseCode := code }

/-- Sets the content type. -/
def SetContentType (b : ResponseBuilder) (contentType : String) : ResponseBuilder :=
  { b with contentType := contentType }

/-- Sets the body to a clone of the given bytes. -/
def SetBody (h : Heap) (b : ResponseBuilder) (body : Bytes) : Heap × ResponseBuilder :=
  let r := appendToNil h body
  (r.1, { b with body := r.2 })

/-- Sets the body to the given slice itself. -/
def SetBodyNoClone (b : ResponseBuilder) (body : Bytes) : ResponseBuilder :=
  { b with body := body }

/-- Sets the skip-capture flag. -/
def SkipCapture (b : ResponseBuilder) (skipCapture : Bool) : ResponseBuilder :=
  { b with skipCapture := skipCapture }

/-- The loop of `Build` that enters every method of the builder in the map. -/
def buildMethods (methods : List String) (m : GoMap) : GoMap :=
  methods.foldl (fun acc k => acc.set k true) m

/-- Builds a new response from the current builder state. -/
def Build (h : Heap) (b : ResponseBuilder) : Heap × Response :=
  let r := newResponseImpl
  let r := match b.pathPattern with
    | some p => { r with pathPattern := some p }
    | none => r
  let r := { r with methods := r.methods.map (buildMethods b.methods) }
  let r := if b.responseCode > 0 then { r with responseCode := b.responseCode } else r
  let r := { r with contentType := b.contentType }
  let hb := match b.body with
    | some s => appendToNil h (some s)
    | none => (h, r.body)
  let r := { r with body := hb.2 }
  let r := { r with skipCapture := b.skipCapture }
  (hb.1, .impl r)

end ResponseBuilder

/-- The response set: a list of responses in the order they were added. -/
structure ResponseSet where
  responses : List Response
  deriving DecidableEq, Repr

namespace ResponseSet

/-- The zero value `ResponseSet{}`. -/
def zero : ResponseSet := ⟨[]⟩

/-- Adds a response at the end of the list. -/
def AddResponse (s : ResponseSet) (response : Response) : ResponseSet :=
  ⟨s.responses ++ [response]⟩

/-- The loop of `Find` over the responses still to be tried. -/
def findLoop : List Response → String → String → Response
  | [], _, _ => DEFAULT_RESPONSE
  | r :: rest, method, path => if r.Match method path then r else findLoop rest method path

/-- Finds a response that matches the request, or `DEFAULT_RESPONSE`. -/
def Find (s : ResponseSet) (method path : String) : Response :=
  findLoop s.responses method path

end ResponseSet

/-- Creates a new response from the configuration. -/
def NewResponseFromConfig (syntaxParse : String → Except GoError Expr) (h : Heap)
    (cfg : config.ResponseConfig) : Except GoError (Heap × Response) :=
  let b := ResponseBuilder.zero
  let pat : Except GoError ResponseBuilder :=
    if cfg.PathPattern ≠ "" then
      match Compile syntaxParse cfg.PathPattern with
      | .error err => .error err
      | .ok p => .ok (b.SetPathPattern (some p))
    else .ok b
  match pat with
  | .error err => .error err
  | .ok b =>
    let b := if cfg.Methods.length > 0 then b.AddMethod cfg.Methods else b
    let b := b.SetContentType cfg.ContentType
    let bod : Except GoError (Heap × ResponseBuilder) :=
      if cfg.Body ≠ "" then
        match base64.DecodeString h cfg.Body with
        | .error err => .error err
        | .ok (h1, body) => .ok (b.SetBody h1 (some body))
      else .ok (h, b)
    match bod with
    | .error err => .error err
    | .ok (h2, b) =>
      let b := b.SkipCapture cfg.SkipCapture
      let b := if cfg.ReturnCode ≠ 0 then b.SetResponseCode cfg.ReturnCode else b
      .ok (b.Build h2)

end engine

/-! ## Package `time`

An instant is its Unix time in seconds and nanoseconds plus a location; the
location is a zone of fixed offset, which is all `UTC()` and a formatting of a
UTC time need. Integers are unbounded: the 64-bit limits of the library, hundreds
of billions of years away from the epoch, are not modelled. -/

namespace time

/-- A location: a name and the offset east of UTC in seconds. -/
structure Location where
  name : String
  offset : Int
  deriving DecidableEq, Repr

/-- The location `time.UTC`. -/
def UTC : Location := ⟨"UTC", 0⟩

/-- An instant with nanosecond precision. -/
structure Time where
  sec : Int
  nsec : Nat
  nsec_lt : nsec < 1000000000
  loc : Location
  deriving DecidableEq, Repr

/-- The method `UTC`: the same instant with the location set to UTC. -/
def Time.UTC (t : Time) : Time := { t with loc := time.UTC }

/-- The method `Nanosecond`: the nanosecond offset within the second. -/
def Time.Nanosecond (t : Time) : Int := t.nsec

/-- The function `UnixMilli`: the instant `msec` milliseconds after the epoch; the
result carries the local zone of the process, passed here as `loc`. -/
def UnixMilli (loc : Location) (msec : Int) : Time :=
  { sec := msec / 1000, nsec := (msec % 1000).toNat * 1000000,
    nsec_lt := by omega, loc := loc }

/-- The leap years of the Gregorian calendar. -/
def isLeap (year : Int) : Bool :=
  decide (year % 4 = 0) && (decide (year % 100 ≠ 0) || decide (year % 400 = 0))

/-- The table `daysBefore`: the days of a year that is not leap before the month
with the 0-based index `m` (365 for `m = 12`). -/
def daysBefore (m : Int) : Int :=
  if m ≤ 0 then 0 else if m = 1 then 31 else if m = 2 then 59 else if m = 3 then 90
  else if m = 4 then 120 else if m = 5 then 151 else if m = 6 then 181 else if m = 7 then 212
  else if m = 8 then 243 else if m = 9 then 273 else if m = 10 then 304 else if m = 11 then 334
  else 365

/-- The year and the 0-based day of the year of the day `z` days after
1970-01-01: the day count from 0001-01-01 is cut into cycles of 400, 100, 4 and
1 years, where the last cycle of 100 and the last cycle of 1 year are a day
longer and are cut back from 4 to 3. -/
def yearDay (z : Int) : Int × Int :=
  let d0 := z + 719162
  let n400 := d0 / 146097
  let d1 := d0 % 146097
  let n100 := d1 / 36524 - d1 / 36524 / 4
  let d2 := d1 - 36524 * n100
  let n4 := d2 / 1461
  let d3 := d2 - 1461 * n4
  let n1 := d3 / 365 - d3 / 365 / 4
  (400 * n400 + 100 * n100 + 4 * n4 + n1 + 1, d3 - 365 * n1)

/-- The month and the day of the month of the 0-based day `yday` of a year: the
leap day is taken out, the month is estimated as if each had 31 days, and the
estimate, too low by one month at most, is adjusted. -/
def monthDay (leap : Bool) (yday : Int) : Int × Int :=
  if leap ∧ yday = 59 then (2, 29)
  else
    let day := if leap ∧ yday > 59 then yday - 1 else yday
    let month := day / 31
    let stop := daysBefore (month + 1)
    if day ≥ stop then (month + 2, day - stop + 1)
    else (month + 1, day - daysBefore month + 1)

/-- The date (year, month, day) of the day `z` days after 1970-01-01. -/
def absDate (z : Int) : Int × Int × Int :=
  let yd := yearDay z
  let md := monthDay (isLeap yd.1) yd.2
  (yd.1, md.1, md.2)

/-! The Gregorian calendar itself, to state what a date is: the days before a
year, the length of a month, and the number of a day counted from 1970-01-01. -/

/-- The days from 0001-01-01 to the first day of year `y`. -/
def daysBeforeYear (y : Int) : Int :=
  365 * (y - 1) + (y - 1) / 4 - (y - 1) / 100 + (y - 1) / 400

/-- The length of month `m` of year `y`. -/
def daysInMonth (y m : Int) : Int :=
  if m = 2 then (if isLeap y then 29 else 28)
  else if m = 4 ∨ m = 6 ∨ m = 9 ∨ m = 11 then 30 else 31

/-- The days of year `y` before its month `m`. -/
def daysBeforeMonth (y m : Int) : Int :=
  ((List.range (m.toNat - 1)).map (fun k => daysInMonth y (k + 1))).sum

/-- The number of the day `y-m-d`, counted from 1970-01-01. -/
def dayNumber (y m d : Int) : Int :=
  daysBeforeYear y + daysBeforeMonth y m + (d - 1) - daysBeforeYear 1970

/-- The seconds since the epoch on the wall clock of the location. -/
def Time.wallSeconds (t : Time) : Int := t.sec + t.loc.offset

/-- The method `Date`: year, month and day in the location of the time. -/
def Time.Date (t : Time) : Int × Int × Int :=
  absDate (t.wallSeconds / 86400)

/-- The method `Clock`: hour, minute and second in the location of the time. -/
def Time.Clock (t : Time) : Int × Int × Int :=
  let s := t.wallSeconds % 86400
  (s / 3600, s % 3600 / 60, s % 60)

/-- The decimal digit of a number below ten. -/
def digitChar (n : Nat) : Char := Char.ofNat (48 + n % 10)

/-- The last `width` decimal digits of `n`, most significant first. -/
def fixedDigits : Nat → Nat → List Char
  | 0, _ => []
  | width + 1, n => fixedDigits width (n / 10) ++ [digitChar n]

/-- The number of decimal digits of `n` (1 for 0); `fuel` bounds the loop. -/
def digitCount : Nat → Nat → Nat
  | 0, _ => 1
  | fuel + 1, n => if n < 10 then 1 else digitCount fuel (n / 10) + 1

/-- The decimal digits of `n`, padded with zeros on the left to `width`. -/
def zeroPad (width n : Nat) : List Char :=
  if n < 10 ^ width then fixedDigits width n else fixedDigits (digitCount n n) n

/-- The function `appendInt` of the formatter: sign, then the zero-padded magnitude. -/
def appendInt (x : Int) (width : Nat) : List Char :=
  (if x < 0 then ['-'] else []) ++ zeroPad width x.natAbs

/-- The pieces of a layout that the formatter tells apart. -/
inductive Chunk where
  | text (s : String)
  | stdLongYear
  | stdZeroMonth
  | stdZeroDay
  | stdHour
  | stdZeroMinute
  | stdZeroSecond
  deriving DecidableEq, Repr

/-- The text the formatter writes for one piece of the layout. -/
def Time.formatChunk (t : Time) : Chunk → List Char
  | .text s => s.toList
  | .stdLongYear => appendInt t.Date.1 4
  | .stdZeroMonth => appendInt t.Date.2.1 2
  | .stdZeroDay => appendInt t.Date.2.2 2
  | .stdHour => appendInt t.Clock.1 2
  | .stdZeroMinute => appendInt t.Clock.2.1 2
  | .stdZeroSecond => appendInt t.Clock.2.2 2

/-- The method `Format`, over the layout already cut into its pieces. -/
def Time.Format (t : Time) (layout : List Chunk) : String :=
  String.mk (layout.flatMap t.formatChunk)

/-- The verb `%09d` of `fmt.Sprintf` on a number that is not negative. -/
def sprintf09d (x : Int) : String :=
  String.mk (zeroPad 9 x.toNat)

end time

/-! ## Package `capture`: capture.go -/

namespace capture

open time

/-- A captured request. The headers are `none` for the nil map that the zero
value has. -/
structure CapturedRequest where
  Host : String
  Remote : String
  URL : String
  Method : String
  Timestamp : Time
  Headers : Option (List (String × List String))
  Body : List UInt8
  deriving DecidableEq, Repr

/-- The layout `"2006-01-02T150405"` as the formatter reads it: the long year,
the zero-padded month and day of the month, the letter T, the hour on the
24-hour clock, the zero-padded minute and second. -/
def fileTitleLayout : List Chunk :=
  [.stdLongYear, .text "-", .stdZeroMonth, .text "-", .stdZeroDay, .text "T",
   .stdHour, .stdZeroMinute, .stdZeroSecond]

/-- Returns the file title for this instance. -/
def CapturedRequest.GetFileTitle (r : CapturedRequest) : String :=
  let ts := r.Timestamp.UTC.Format fileTitleLayout
  let ms := sprintf09d r.Timestamp.Nanosecond
  ts ++ "." ++ ms ++ "." ++ r.Method

end capture


/-! ## Package `time`: the JSON form of a time -/

namespace time

open golang

/-- The zero value `time.Time{}`: 0001-01-01 00:00:00 UTC. -/
def Time.zero : Time :=
  { sec := -62135596800, nsec := 0, nsec_lt := by decide, loc := time.UTC }

/-- The digits without the zeros at their end. -/
def trimZeros (digits : List Char) : List Char :=
  (digits.reverse.dropWhile (fun c => c = '0')).reverse

/-- The fraction of a second in the layout `.999999999`: nothing when the
nanosecond is 0, otherwise a dot and the nine digits without the zeros at their
end. -/
def appendNano (nsec : Nat) : List Char :=
  if nsec = 0 then [] else '.' :: trimZeros (zeroPad 9 nsec)

/-- The zone in the layout `Z07:00`: `Z` for the offset 0, otherwise the sign,
the hours and the minutes of the offset. -/
def zoneText (offset : Int) : List Char :=
  if offset = 0 then ['Z']
  else
    let zone := Int.tdiv offset 60
    (if zone < 0 then ['-'] else ['+']) ++
      appendInt (zone.natAbs / 60 : Nat) 2 ++ [':'] ++ appendInt (zone.natAbs % 60 : Nat) 2

/-- The time in the layout `RFC3339Nano`, in the location of the time. -/
def Time.formatRFC3339Nano (t : Time) : List Char :=
  appendInt t.Date.1 4 ++ ['-'] ++ appendInt t.Date.2.1 2 ++ ['-'] ++ appendInt t.Date.2.2 2 ++
    ['T'] ++ appendInt t.Clock.1 2 ++ [':'] ++ appendInt t.Clock.2.1 2 ++ [':'] ++
    appendInt t.Clock.2.2 2 ++ appendNano t.nsec ++ zoneText t.loc.offset

/-- The method `MarshalJSON`, without the quotes around the text: the time in the
layout `RFC3339Nano`, and an error for a year outside 0 to 9999 or a zone of 24
hours or more. -/
def Time.MarshalJSON (t : Time) : Except GoError String :=
  if t.Date.1 < 0 ∨ 9999 < t.Date.1 then
    .error (.marshalError "Time.MarshalJSON: year outside of range [0,9999]")
  else if 24 ≤ (Int.tdiv t.loc.offset 60).natAbs / 60 then
    .error (.marshalError "Time.MarshalJSON: timezone hour outside of range [0,23]")
  else .ok (String.mk t.formatRFC3339Nano)

end time

namespace base64

open golang

/-- The character of a 6-bit digit in the standard alphabet. -/
def encodeChar (v : Nat) : Char :=
  if v < 26 then Char.ofNat (65 + v)
  else if v < 52 then Char.ofNat (71 + v)
  else if v < 62 then Char.ofNat (v - 4)
  else if v = 62 then '+'
  else '/'

/-- The characters `StdEncoding.EncodeToString` gives: four for every three
bytes, and a last group padded with `=` for one or two bytes left over. -/
def encode : List UInt8 → List Char
  | [] => []
  | [a] =>
    [encodeChar (a.toNat / 4), encodeChar (a.toNat % 4 * 16), '=', '=']
  | [a, b] =>
    [encodeChar (a.toNat / 4), encodeChar (a.toNat % 4 * 16 + b.toNat / 16),
      encodeChar (b.toNat % 16 * 4), '=']
  | a :: b :: c :: rest =>
    encodeChar (a.toNat / 4) :: encodeChar (a.toNat % 4 * 16 + b.toNat / 16) ::
      encodeChar (b.toNat % 16 * 4 + c.toNat / 64) :: encodeChar (c.toNat % 64) :: encode rest

/-- The function `StdEncoding.EncodeToString`. -/
def EncodeToString (src : List UInt8) : String := String.mk (encode src)

end base64

/-! ## Package `encoding/json`: values and their indented text -/

namespace json

open golang

/-- A JSON value as the encoder builds it. A `string` is escaped when it is
written; a `text` comes from a marshaler or from base64 and is written between
quotes as it is. -/
inductive Value where
  | null
  | string (s : String)
  | text (s : String)
  | array (items : List Value)
  | object (fields : List (String × Value))

/-- The double quote. -/
def quoteChar : Char := Char.ofNat 34

/-- The hexadecimal digit of a number below 16. -/
def hexDigit (n : Nat) : Char :=
  if n % 16 < 10 then Char.ofNat (48 + n % 16) else Char.ofNat (87 + n % 16)

/-- The escape of the form backslash-u with four hexadecimal digits. -/
def unicodeEscape (n : Nat) : List Char :=
  [regexp.backslash, 'u', hexDigit (n / 4096), hexDigit (n / 256), hexDigit (n / 16), hexDigit n]

/-- The text of one character inside a JSON string, with the escaping of HTML
characters that `Marshal` has on. -/
def escapeChar (c : Char) : List Char :=
  if c = quoteChar ∨ c = regexp.backslash then [regexp.backslash, c]
  else if c.toNat = 8 then [regexp.backslash, 'b']
  else if c.toNat = 12 then [regexp.backslash, 'f']
  else if c.toNat = 10 then [regexp.backslash, 'n']
  else if c.toNat = 13 then [regexp.backslash, 'r']
  else if c.toNat = 9 then [regexp.backslash, 't']
  else if c.toNat < 32 ∨ c = '<' ∨ c = '>' ∨ c = '&' then unicodeEscape c.toNat
  else if c.toNat = 8232 ∨ c.toNat = 8233 then unicodeEscape c.toNat
  else [c]

/-- A JSON string: the escaped characters between quotes. -/
def quote (s : String) : List Char :=
  quoteChar :: s.toList.flatMap escapeChar ++ [quoteChar]

/-- The start of a line at depth `d`: a line feed, the prefix, and the indent `d`
times. -/
def newline (pre ind : String) (d : Nat) : List Char :=
  '\n' :: pre.toList ++ (List.replicate d ind.toList).flatten

mutual

/-- The indented text of a value at depth `d`, as `Indent` lays it out: each
item of an array and each field of an object on a line of its own, a space
after the colon, and nothing inside an empty array or object. -/
def render (pre ind : String) (d : Nat) : Value → List Char
  | .null => "null".toList
  | .string s => quote s
  | .text s => quoteChar :: s.toList ++ [quoteChar]
  | .array [] => ['[', ']']
  | .array (x :: xs) =>
    '[' :: newline pre ind (d + 1) ++ render pre ind (d + 1) x ++ renderItems pre ind (d + 1) xs ++
      newline pre ind d ++ [']']
  | .object [] => [Char.ofNat 123, Char.ofNat 125]
  | .object (f :: fs) =>
    Char.ofNat 123 :: newline pre ind (d + 1) ++ quote f.1 ++ [':', ' '] ++
      render pre ind (d + 1) f.2 ++ renderFields pre ind (d + 1) fs ++
      newline pre ind d ++ [Char.ofNat 125]

/-- The items of an array after the first. -/
def renderItems (pre ind : String) (d : Nat) : List Value → List Char
  | [] => []
  | x :: xs => ',' :: newline pre ind d ++ render pre ind d x ++ renderItems pre ind d xs

/-- The fields of an object after the first. -/
def renderFields (pre ind : String) (d : Nat) : List (String × Value) → List Char
  | [] => []
  | f :: fs =>
    ',' :: newline pre ind d ++ quote f.1 ++ [':', ' '] ++ render pre ind d f.2 ++
      renderFields pre ind d fs

end

/-- The order of strings the encoder sorts the keys of a map by. -/
def keyLt : List Char → List Char → Bool
  | [], [] => false
  | [], _ :: _ => true
  | _ :: _, [] => false
  | a :: as, b :: bs => if a.toNat < b.toNat then true else if b.toNat < a.toNat then false
    else keyLt as bs

/-- The insertion of an entry into entries sorted by key. -/
def insertSorted {α : Type} (e : String × α) : List (String × α) → List (String × α)
  | [] => [e]
  | x :: xs => if keyLt x.1.toList e.1.toList then x :: insertSorted e xs else e :: x :: xs

/-- The entries of a map sorted by key. -/
def sortKeys {α : Type} : List (String × α) → List (String × α)
  | [] => []
  | e :: rest => insertSorted e (sortKeys rest)

/-- The value of a `[]string` that is not nil. -/
def strings (xs : List String) : Value := .array (xs.map .string)

/-- The value of a `map[string][]string`: `null` for the nil map, otherwise the
object of its entries sorted by key. -/
def stringsMap : Option (List (String × List String)) → Value
  | none => .null
  | some m => .object ((sortKeys m).map (fun e => (e.1, strings e.2)))

end json

/-! ## Package `go.uber.org/zap`: the log as the list of its entries -/

namespace zap

open golang

/-- The levels the code logs at. -/
inductive Level where
  | info
  | error
  deriving DecidableEq, Repr

/-- The fields the code attaches to an entry. -/
inductive Field where
  | int (key : String) (val : Int)
  | string (key : String) (val : String)
  | error (err : GoError)
  deriving DecidableEq, Repr

/-- One entry of the log. -/
structure Entry where
  level : Level
  msg : String
  fields : List Field
  deriving DecidableEq, Repr

/-- A logger, as the entries it has written, oldest first. The logger is taken to
be there: a nil `*zap.Logger` is not modelled. -/
abbrev Logger := List Entry

/-- The method `Error`. -/
def Logger.Error (l : Logger) (msg : String) (fields : List Field) : Logger :=
  l ++ [⟨.error, msg, fields⟩]

/-- The method `Info`. -/
def Logger.Info (l : Logger) (msg : String) (fields : List Field) : Logger :=
  l ++ [⟨.info, msg, fields⟩]

end zap

/-! ## Package `net/http`: the response writer and the request -/

namespace http

open golang

/-- The interface `http.ResponseWriter` over a state `σ`: `Header().Add`,
`WriteHeader` and `Write`. `WriteHeader` can panic: the response writers of the
library do so for a code that has not three digits. -/
structure ResponseWriter (σ : Type) where
  HeaderAdd : σ → String → String → σ
  WriteHeader : σ → Int → Outcome σ
  Write : σ → List UInt8 → σ × Option GoError

/-- A response writer is an `io.Writer`. -/
def ResponseWriter.toWriter {σ : Type} (rw : ResponseWriter σ) : Writer σ :=
  ⟨rw.Write⟩

/-- The state of an `httptest.ResponseRecorder`. -/
structure Recorder where
  Code : Int
  wroteHeader : Bool
  HeaderMap : List (String × List String)
  Body : List UInt8
  deriving DecidableEq, Repr

/-- The function `httptest.NewRecorder`. -/
def NewRecorder : Recorder :=
  { Code := 200, wroteHeader := false, HeaderMap := [], Body := [] }

/-- The method `Add` of a header, for a key in canonical form such as
`Content-Type`: the value is appended to those of the key. -/
def headerAdd (hd : List (String × List String)) (key val : String) :
    List (String × List String) :=
  match hd with
  | [] => [(key, [val])]
  | (k, vs) :: rest => if k = key then (k, vs ++ [val]) :: rest else (k, vs) :: headerAdd rest key val

/-- The method `Get` of a header, for a key in canonical form: the first value
of the key, or the empty string. -/
def headerGet (hd : List (String × List String)) (key : String) : String :=
  match hd with
  | [] => ""
  | (k, vs) :: rest => if k = key then vs.headD "" else headerGet rest key

/-- The method `Set` of a header, for a key in canonical form: the value
replaces those of the key. -/
def headerSet (hd : List (String × List String)) (key val : String) :
    List (String × List String) :=
  match hd with
  | [] => [(key, [val])]
  | (k, vs) :: rest => if k = key then (k, [val]) :: rest else (k, vs) :: headerSet rest key val

/-- The function `checkWriteHeaderCode`: whether the code has three digits; the
library panics when it has not. -/
def checkWriteHeaderCode (code : Int) : Bool :=
  !(decide (code < 100) || decide (code > 999))

/-- The value of the panic of `checkWriteHeaderCode`. -/
def invalidWriteHeaderCode (code : Int) : String :=
  "invalid WriteHeader code " ++ String.mk (time.appendInt code 1)

/-- The method `WriteHeader` of the recorder: nothing after the header was
written; otherwise a panic for a code below 100 or above 999, and for the other
codes the code is set. -/
def Recorder.WriteHeader (r : Recorder) (code : Int) : Outcome Recorder :=
  if r.wroteHeader then .returns r
  else if !checkWriteHeaderCode code then .panics (invalidWriteHeaderCode code)
  else .returns { r with Code := code, wroteHeader := true }

/-- The method `Write` of the recorder. When the header was not written it is
written first, with the code 200, and with the content type that
`http.DetectContentType` finds in the bytes if the header has no `Content-Type`
and no `Transfer-Encoding`; `detect` stands for `http.DetectContentType`. Then
the bytes are appended to the body. -/
def Recorder.Write (detect : List UInt8 → String) (r : Recorder) (p : List UInt8) :
    Recorder × Option GoError :=
  let r : Recorder :=
    if r.wroteHeader then r
    else
      let hd :=
        if (r.HeaderMap.lookup "Content-Type").isNone ∧
            headerGet r.HeaderMap "Transfer-Encoding" = "" then
          headerSet r.HeaderMap "Content-Type" (detect p)
        else r.HeaderMap
      { r with HeaderMap := hd, Code := 200, wroteHeader := true }
  ({ r with Body := r.Body ++ p }, none)

/-- The recorder as a response writer; `detect` stands for
`http.DetectContentType`. -/
def recorder (detect : List UInt8 → String) : ResponseWriter Recorder :=
  { HeaderAdd := fun r k v => { r with HeaderMap := headerAdd r.HeaderMap k v },
    WriteHeader := Recorder.WriteHeader,
    Write := Recorder.Write detect }

end http

namespace config

/-- The configuration of the server. -/
structure Config where
  Address : String
  CaptureDir : String
  ReadTimeout : Int
  WriteTimeout : Int
  MaxRequestSize : Int
  Responses : List ResponseConfig
  deriving DecidableEq, Repr

end config

namespace engine

open golang regexp

/-- Writes a response to a response writer. When `WriteHeader` panics the body
is not written. -/
def WriteResponse {σ : Type} (resp : Response) (h : Heap) (response : http.ResponseWriter σ)
    (s : σ) : Outcome (σ × Option GoError) :=
  let s := if resp.ContentType ≠ "" then response.HeaderAdd s "Content-Type" resp.ContentType
    else s
  match response.WriteHeader s resp.ResponseCode with
  | .panics v => .panics v
  | .returns s => .returns (resp.WriteBody h response.toWriter s)

/-- The engine: its responses and its configuration. Its logger is the log of
the state the methods run in. -/
structure Engine where
  Responses : ResponseSet
  Config : config.Config
  deriving DecidableEq, Repr

/-- The loop of `initResponses` over the rules from index `i` on. -/
def initResponsesLoop (syntaxParse : String → Except GoError Expr) :
    List config.ResponseConfig → Nat → ResponseSet → Heap → zap.Logger →
      ResponseSet × Heap × zap.Logger
  | [], _, rs, h, log => (rs, h, log)
  | cfg :: rest, i, rs, h, log =>
    match NewResponseFromConfig syntaxParse h cfg with
    | .error err =>
      initResponsesLoop syntaxParse rest (i + 1) rs h
        (log.Error "Bad response definition." [.int "index" i, .error err])
    | .ok (h2, r) => initResponsesLoop syntaxParse rest (i + 1) (rs.AddResponse r) h2 log

/-- The method `initResponses`: the engine with the responses of the rules, the
heap, the log, and the error it returns, which is always nil. -/
def Engine.initResponses (syntaxParse : String → Except GoError Expr) (e : Engine) (h : Heap)
    (log : zap.Logger) : Engine × Heap × zap.Logger × Option GoError :=
  let r := initResponsesLoop syntaxParse e.Config.Responses 0 e.Responses h log
  ({ e with Responses := r.1 }, r.2.1, r.2.2, none)

end engine

/-! ## Package `io`: readers, `LimitReader` and `ReadAll` -/

namespace io

open golang

/-- An `io.Reader`, as what its calls of `Read` will deliver: the chunks of
bytes, one for each call that returns without error, and then `final`, which is
`io.EOF` or the error of the reader, on every call after them. The chunks are
those the calls return, whatever the sizes of the buffers they were given. -/
structure Reader where
  chunks : List (List UInt8)
  final : GoError
  deriving DecidableEq, Repr

/-- The reader of a `bytes.Reader` over `b`, read with buffers that hold it all. -/
def bytesReader (b : List UInt8) : Reader :=
  { chunks := if b = [] then [] else [b], final := .EOF }

/-- The type `io.LimitedReader`: the reader below and the bytes `N` still allowed. -/
structure LimitedReader where
  R : Reader
  N : Int
  deriving DecidableEq, Repr

/-- The function `LimitReader`. -/
def LimitReader (r : Reader) (n : Int) : LimitedReader := ⟨r, n⟩

/-- The method `Read` of a limited reader: `io.EOF` once `N` is used up, otherwise
a read below with the buffer cut to `N`; what the cut leaves of a chunk stays in
the reader below. -/
def LimitedReader.Read (l : LimitedReader) : List UInt8 × Option GoError × LimitedReader :=
  if l.N ≤ 0 then ([], some .EOF, l)
  else
    match l.R.chunks with
    | [] => ([], some l.R.final, l)
    | c :: rest =>
      if (c.length : Int) ≤ l.N then (c, none, ⟨⟨rest, l.R.final⟩, l.N - c.length⟩)
      else (c.take l.N.toNat, none, ⟨⟨c.drop l.N.toNat :: rest, l.R.final⟩, 0⟩)

/-- The loop of `ReadAll`: `b` is what was read so far; the loop ends at the first
error of `Read`, and `io.EOF` counts as no error. A read that returns no error
uses up a chunk of the reader below or the whole of `N`, so one round more than
there are chunks is enough, and `fuel` counts the rounds. -/
def readAllLoop : Nat → LimitedReader → List UInt8 → List UInt8 × Option GoError
  | 0, _, b => (b, none)
  | fuel + 1, l, b =>
    match l.Read with
    | (data, some err, _) => (b ++ data, if err = .EOF then none else some err)
    | (data, none, l2) => readAllLoop fuel l2 (b ++ data)

/-- The function `ReadAll` on a limited reader. -/
def ReadAll (l : LimitedReader) : List UInt8 × Option GoError :=
  readAllLoop (l.R.chunks.length + 1) l []

end io

namespace http

open golang

/-- The type `url.URL`: the path, and the text the method `String` gives. -/
structure URL where
  Path : String
  text : String
  deriving DecidableEq, Repr

/-- The method `String` of a URL. -/
def URL.String (u : URL) := u.text

/-- The fields of an `http.Request` the code reads. The values of a header are
slices that are not nil, as the server makes them. -/
structure Request where
  Method : String
  URL : URL
  Host : String
  RemoteAddr : String
  Header : Option (List (String × List String))
  Body : io.Reader
  deriving DecidableEq, Repr

end http

/-! ## Package `os`: files -/

namespace os

open golang

/-- The files of the machine: the content of each file by its path, and the
paths on which `Create`, a write or `Close` fails, with the error. -/
structure Disk where
  files : List (String × List UInt8)
  createErrors : List (String × GoError)
  writeErrors : List (String × GoError)
  closeErrors : List (String × GoError)
  deriving DecidableEq, Repr

/-- The files with the content of `name` set to `content`. -/
def setFile (files : List (String × List UInt8)) (name : String) (content : List UInt8) :
    List (String × List UInt8) :=
  match files with
  | [] => [(name, content)]
  | (n, c) :: rest => if n = name then (n, content) :: rest else (n, c) :: setFile rest name content

/-- The function `Create`: the file is created, or truncated if it is there, and
the open file is known by its path. -/
def Create (d : Disk) (name : String) : Disk × Except GoError String :=
  match d.createErrors.lookup name with
  | some err => (d, .error err)
  | none => ({ d with files := setFile d.files name [] }, .ok name)

/-- The method `Write` of the open file `name`, as an `io.Writer` on the disk. -/
def fileWriter (name : String) : Writer Disk :=
  ⟨fun d p =>
    match d.writeErrors.lookup name with
    | some err => (d, some err)
    | none => ({ d with files := setFile d.files name ((d.files.lookup name).getD [] ++ p) }, none)⟩

/-- The method `Close` of the open file `name`. -/
def Close (d : Disk) (name : String) : Option GoError :=
  d.closeErrors.lookup name

end os

/-! ## Package `path` -/

namespace path

/-- The elements of a path: what stands between its slashes. -/
def elements : List Char → List (List Char)
  | [] => [[]]
  | c :: rest =>
    if c = '/' then [] :: elements rest
    else
      match elements rest with
      | [] => [[c]]
      | e :: es => (c :: e) :: es

/-- The backtracking of `Clean` at a `..` element: `out` holds the characters
written, last first; the last character goes, and then every character down to
a slash, which goes too, or down to `dotdot` characters. -/
def backtrack (dotdot : Nat) : List Char → List Char
  | [] => []
  | c :: rest => if rest.length > dotdot ∧ c ≠ '/' then backtrack dotdot rest else rest

/-- The loop of `Clean`. Each round of the loop in the source consumes a slash
or a whole element, so the rounds are taken over the elements of the path: an
empty element and `.` are skipped, `..` removes the last element written or,
when there is none and the path is not rooted, is written itself, and any other
element is written after a slash if one is needed. `out` holds the characters
written, last first. -/
def cleanLoop (rooted : Bool) : List (List Char) → List Char → Nat → List Char
  | [], out, _ => out
  | e :: es, out, dotdot =>
    if e = [] ∨ e = ['.'] then cleanLoop rooted es out dotdot
    else if e = ['.', '.'] then
      if out.length > dotdot then cleanLoop rooted es (backtrack dotdot out) dotdot
      else if !rooted then
        let out := if out.length > 0 then '/' :: out else out
        cleanLoop rooted es ('.' :: '.' :: out) (out.length + 2)
      else cleanLoop rooted es out dotdot
    else
      let out :=
        if (rooted = true ∧ out.length ≠ 1) ∨ (rooted = false ∧ out.length ≠ 0) then '/' :: out
        else out
      cleanLoop rooted es (e.reverse ++ out) dotdot

/-- The function `Clean`: the shortest path that names the same file, by the
rules on slashes, `.` and `..` alone. A slash and a dot are single bytes that
are part of no other character, so the characters are treated as the source
treats the bytes. -/
def Clean (p : String) : String :=
  if p = "" then "."
  else
    let rooted := decide (p.toList.head? = some '/')
    let out := cleanLoop rooted (elements p.toList) (if rooted then ['/'] else [])
      (if rooted then 1 else 0)
    if out.length = 0 then "." else String.mk out.reverse

/-- The function `Join` on two elements: the empty path when both are empty,
otherwise the elements from the first that is not empty on, with a slash
between them, cleaned. -/
def Join (dir name : String) : String :=
  if dir = "" ∧ name = "" then ""
  else Clean (if dir ≠ "" then dir ++ "/" ++ name else name)

end path

/-! ## Package `capture`: capturing and saving -/

namespace capture

open golang time

/-- The zero value `CapturedRequest{}`. -/
def CapturedRequest.zero : CapturedRequest :=
  { Host := "", Remote := "", URL := "", Method := "", Timestamp := Time.zero,
    Headers := none, Body := [] }

/-- The assignment `headers[k] = v` on a header map. -/
def headerSet (m : List (String × List String)) (k : String) (v : List String) :
    List (String × List String) :=
  match m with
  | [] => [(k, v)]
  | (k1, v1) :: rest => if k1 = k then (k1, v) :: rest else (k1, v1) :: headerSet rest k v

/-- Creates a new `CapturedRequest` from the given request; `now` is what
`time.Now()` gives. -/
def NewFromRequest (now : Time) (request : http.Request) (maxBody : Int) :
    CapturedRequest × Option GoError :=
  let r := io.ReadAll (io.LimitReader request.Body maxBody)
  if r.2 ≠ none then (CapturedRequest.zero, none)
  else
    let headers := (request.Header.getD []).foldl (fun m kv => headerSet m kv.1 kv.2) []
    ({ Host := request.Host, Remote := request.RemoteAddr, URL := request.URL.String,
       Method := request.Method, Timestamp := now.UTC, Headers := some headers,
       Body := r.1 }, none)

/-- The fields `json.Marshal` writes for a captured request, in the order of the
struct: a field tagged `omitempty` is left out when it is empty, the time is
what `MarshalJSON` gives, and the body is written in base64. -/
def CapturedRequest.jsonFields (r : CapturedRequest) (timestamp : String) :
    List (String × json.Value) :=
  (if r.Host = "" then [] else [("host", .string r.Host)]) ++
  (if r.Remote = "" then [] else [("remote", .string r.Remote)]) ++
  [("url", .string r.URL), ("Method", .string r.Method), ("timestamp", .text timestamp),
   ("headers", json.stringsMap r.Headers)] ++
  (if r.Body.length = 0 then [] else [("body", .text (base64.EncodeToString r.Body))])

/-- The function `json.MarshalIndent` on a captured request. -/
def CapturedRequest.MarshalIndent (r : CapturedRequest) (pre ind : String) :
    Except GoError String :=
  match r.Timestamp.MarshalJSON with
  | .error err => .error err
  | .ok ts => .ok (String.mk (json.render pre ind 0 (.object (r.jsonFields ts))))

/-- Saves this request into a writer. -/
def CapturedRequest.Save {σ : Type} (r : CapturedRequest) (writer : Writer σ) (s : σ) :
    σ × Option GoError :=
  match r.MarshalIndent " " " " with
  | .error err => (s, some err)
  | .ok data => writer.Write s (stringBytes data)

/-- Saves this request into a file of the directory. -/
def CapturedRequest.SaveTo (r : CapturedRequest) (parentDir : String) (d : os.Disk) :
    os.Disk × Option GoError :=
  match os.Create d (path.Join parentDir r.GetFileTitle) with
  | (d, .error err) => (d, some err)
  | (d, .ok writer) =>
    match r.Save (os.fileWriter writer) d with
    | (d, some err) => (d, some err)
    | (d, none) => (d, os.Close d writer)

end capture

/-! ## Package `engine`: engine.go -/

namespace engine

open golang regexp

/-- What the handling of a request reads and changes outside the engine: the heap
the bodies of the responses lie on, the disk, the log of the engine, and the time
`time.Now()` gives. -/
structure World where
  heap : Heap
  disk : os.Disk
  log : zap.Logger
  now : time.Time
  deriving DecidableEq, Repr

/-- The method `ServeHTTP`: the response is selected, the request is captured
unless the response skips the capture, and the response is sent. The result is
the world after the call and how the call ends for the response writer: its state
when `ServeHTTP` returns, or the panic of `WriteResponse`, which `ServeHTTP` does
not recover. -/
def Engine.ServeHTTP {σ : Type} (e : Engine) (w : World) (response : http.ResponseWriter σ)
    (s : σ) (request : http.Request) : World × Outcome σ :=
  let method := request.Method
  let path := request.URL.Path
  let resp := e.Responses.Find method path
  let w : World :=
    match capture.NewFromRequest w.now request e.Config.MaxRequestSize with
    | (_, some err) =>
      { w with log := (w.log.Error "Unable to capture the request." [.error err]) }
    | (cap, none) =>
      if !resp.SkipCapture then
        match cap.SaveTo e.Config.CaptureDir w.disk with
        | (d, some err) =>
          { w with disk := d,
                   log := (w.log.Error "Unable to save the captured request." [.error err]) }
        | (d, none) => { w with disk := d }
      else
        { w with log := (w.log.Info "Capture skipped."
            [.string "URL" request.URL.String, .string "host" request.Host,
             .string "remote" request.RemoteAddr]) }
  match WriteResponse resp w.heap response s with
  | .panics v => (w, .panics v)
  | .returns (s, some err) =>
    ({ w with log := (w.log.Error "Unable to send the response." [.error err]) }, .returns s)
  | .returns (s, none) => (w, .returns s)

end engine
/-! # Theorems -/

/-! ## The response set -/

namespace engine

open golang regexp

theorem foldl_AddResponse (rs : List Response) (s : ResponseSet) :
    (rs.foldl ResponseSet.AddResponse s).responses = s.responses ++ rs := by
  induction rs generalizing s with
  | nil => simp
  | cons r rest ih => simp [List.foldl_cons, ih, ResponseSet.AddResponse]

theorem findLoop_first (rs : List Response) (method path : String) (i : Nat) (r : Response)
    (hi : rs[i]? = some r) (hm : r.Match method path = true)
    (hlt : ∀ (j : Nat) (q : Response), j < i → rs[j]? = some q → q.Match method path = false) :
    ResponseSet.findLoop rs method path = r := by
  induction rs generalizing i with
  | nil => simp at hi
  | cons a rest ih =>
    cases i with
    | zero =>
      simp at hi
      subst hi
      simp [ResponseSet.findLoop, hm]
    | succ k =>
      have ha : a.Match method path = false := hlt 0 a (Nat.succ_pos k) (by simp)
      simp only [ResponseSet.findLoop, ha]
      simp only [List.getElem?_cons_succ] at hi
      exact ih k hi (fun j q hj hq => hlt (j + 1) q (Nat.succ_lt_succ hj) (by simpa using hq))

theorem findLoop_none (rs : List Response) (method path : String)
    (hno : ∀ r ∈ rs, r.Match method path = false) :
    ResponseSet.findLoop rs method path = DEFAULT_RESPONSE := by
  induction rs with
  | nil => rfl
  | cons a rest ih =>
    have ha : a.Match method path = false := hno a (by simp)
    simp only [ResponseSet.findLoop, ha]
    exact ih (fun r hr => hno r (by simp [hr]))

/-- C1: in the set built by adding `r1..rn` to the empty set, `Find` returns the
response of the smallest index that matches the method and path, and the default
response when none matches, in particular on the empty set. -/
theorem Find_first_match_or_default (rs : List Response) (method path : String) :
    (∀ (i : Nat) (r : Response), rs[i]? = some r → r.Match method path = true →
      (∀ (j : Nat) (q : Response), j < i → rs[j]? = some q → q.Match method path = false) →
      (rs.foldl ResponseSet.AddResponse ResponseSet.zero).Find method path = r) ∧
    ((∀ r ∈ rs, r.Match method path = false) →
      (rs.foldl ResponseSet.AddResponse ResponseSet.zero).Find method path = DEFAULT_RESPONSE) ∧
    ResponseSet.zero.Find method path = DEFAULT_RESPONSE := by
  have hs : (rs.foldl ResponseSet.AddResponse ResponseSet.zero).responses = rs := by
    simp [foldl_AddResponse, ResponseSet.zero]
  refine ⟨?_, ?_, rfl⟩
  · intro i r hi hm hlt
    simp only [ResponseSet.Find, hs]
    exact findLoop_first rs method path i r hi hm hlt
  · intro hno
    simp only [ResponseSet.Find, hs]
    exact findLoop_none rs method path hno

end engine

/-! ## The matcher of the regular expressions -/

namespace regexp

theorem mem_stepChar (input : List Char) (p : Char → Bool) (i j : Nat) :
    j ∈ stepChar input p i ↔ ∃ c, input[i]? = some c ∧ p c = true ∧ j = i + 1 := by
  unfold stepChar
  cases hg : input[i]? with
  | none => simp
  | some c =>
    by_cases hp : p c = true
    · simp [hp]
    · simp [hp]

theorem mem_assertAt (b : Bool) (i j : Nat) : j ∈ assertAt b i ↔ b = true ∧ j = i := by
  unfold assertAt
  cases b <;> simp

theorem self_mem_starEnds (f : Nat → List Nat) (fuel i : Nat) : i ∈ starEnds f fuel i := by
  cases fuel <;> simp [starEnds]

theorem mem_starEnds_succ (f : Nat → List Nat) (fuel i j : Nat) :
    j ∈ starEnds f (fuel + 1) i ↔ j = i ∨ ∃ k, k ∈ f i ∧ i < k ∧ j ∈ starEnds f fuel k := by
  simp only [starEnds, List.mem_cons, List.mem_flatMap, List.mem_filter, decide_eq_true_eq]
  constructor
  · rintro (h | ⟨k, ⟨hk, hlt⟩, hj⟩)
    · exact Or.inl h
    · exact Or.inr ⟨k, hk, hlt, hj⟩
  · rintro (h | ⟨k, hk, hlt, hj⟩)
    · exact Or.inl h
    · exact Or.inr ⟨k, ⟨hk, hlt⟩, hj⟩

theorem starEnds_sound (input : List Char) (e : Expr)
    (ih : ∀ i j, j ∈ ends input e i → Matches input e i j) :
    ∀ fuel i j, j ∈ starEnds (ends input e) fuel i → Matches input (.star e) i j := by
  intro fuel
  induction fuel with
  | zero =>
    intro i j hj
    simp only [starEnds, List.mem_singleton] at hj
    subst hj
    exact Matches.starNil e j
  | succ fuel ihf =>
    intro i j hj
    rcases (mem_starEnds_succ _ fuel i j).1 hj with h | ⟨k, hk, _, hkj⟩
    · subst h
      exact Matches.starNil e j
    · exact Matches.starCons e i k j (ih i k hk) (ihf k j hkj)

theorem ends_sound (input : List Char) (e : Expr) :
    ∀ i j, j ∈ ends input e i → Matches input e i j := by
  induction e with
  | emptyMatch =>
    intro i j h
    simp only [ends, List.mem_singleton] at h
    subst h
    exact Matches.emptyMatch j
  | noMatch => intro i j h; simp [ends] at h
  | literal c =>
    intro i j h
    obtain ⟨x, hx, hp, rfl⟩ := (mem_stepChar _ _ _ _).1 h
    have hxc : x = c := by simpa using hp
    subst hxc
    exact Matches.literal x i hx
  | charClass negated ranges =>
    intro i j h
    obtain ⟨x, hx, hp, rfl⟩ := (mem_stepChar _ _ _ _).1 h
    exact Matches.charClass negated ranges x i hx hp
  | anyCharNotNL =>
    intro i j h
    obtain ⟨x, hx, hp, rfl⟩ := (mem_stepChar _ _ _ _).1 h
    exact Matches.anyCharNotNL x i hx (by simpa using hp)
  | anyChar =>
    intro i j h
    obtain ⟨x, hx, _, rfl⟩ := (mem_stepChar _ _ _ _).1 h
    exact Matches.anyChar x i hx
  | beginLine =>
    intro i j h
    obtain ⟨hb, rfl⟩ := (mem_assertAt _ _ _).1 h
    cases j with
    | zero => exact Matches.beginLineStart
    | succ k =>
      have hk : input[k]? = some '\n' := by simpa [before] using hb
      exact Matches.beginLineAfterNL k hk
  | endLine =>
    intro i j h
    obtain ⟨hb, rfl⟩ := (mem_assertAt _ _ _).1 h
    simp only [Bool.or_eq_true, decide_eq_true_eq, beq_iff_eq] at hb
    rcases hb with hb | hb
    · subst hb
      exact Matches.endLineEnd
    · exact Matches.endLineBeforeNL j hb
  | beginText =>
    intro i j h
    obtain ⟨hb, rfl⟩ := (mem_assertAt _ _ _).1 h
    have h0 : j = 0 := by simpa using hb
    subst h0
    exact Matches.beginText
  | endText =>
    intro i j h
    obtain ⟨hb, rfl⟩ := (mem_assertAt _ _ _).1 h
    have h0 : j = input.length := by simpa using hb
    subst h0
    exact Matches.endText
  | wordBoundary =>
    intro i j h
    obtain ⟨hb, rfl⟩ := (mem_assertAt _ _ _).1 h
    exact Matches.wordBoundary j (by simpa using hb)
  | noWordBoundary =>
    intro i j h
    obtain ⟨hb, rfl⟩ := (mem_assertAt _ _ _).1 h
    exact Matches.noWordBoundary j (by simpa using hb)
  | capture e ih =>
    intro i j h
    exact Matches.capture e i j (ih i j h)
  | star e ih =>
    intro i j h
    exact starEnds_sound input e ih input.length i j h
  | plus e ih =>
    intro i j h
    simp only [ends, List.mem_flatMap] at h
    obtain ⟨k, hk, hj⟩ := h
    exact Matches.plus e i k j (ih i k hk) (starEnds_sound input e ih input.length k j hj)
  | quest e ih =>
    intro i j h
    simp only [ends, List.mem_cons] at h
    rcases h with h | h
    · subst h
      exact Matches.questNil e j
    · exact Matches.questSome e i j (ih i j h)
  | concat e1 e2 ih1 ih2 =>
    intro i j h
    simp only [ends, List.mem_flatMap] at h
    obtain ⟨k, hk, hj⟩ := h
    exact Matches.concat e1 e2 i k j (ih1 i k hk) (ih2 k j hj)
  | alternate e1 e2 ih1 ih2 =>
    intro i j h
    simp only [ends, List.mem_append] at h
    rcases h with h | h
    · exact Matches.alternateLeft e1 e2 i j (ih1 i j h)
    · exact Matches.alternateRight e1 e2 i j (ih2 i j h)

theorem lt_length_of_getElem (input : List Char) (i : Nat) (c : Char) (h : input[i]? = some c) :
    i < input.length := by
  by_contra hn
  have hnone : input[i]? = none := List.getElem?_eq_none (Nat.le_of_not_lt hn)
  rw [hnone] at h
  exact Option.noConfusion h

/-- A match never ends before its start, and ends inside the input unless it is
an empty match beyond the end. -/
theorem Matches_bounds (input : List Char) (e : Expr) (i j : Nat) (h : Matches input e i j) :
    i ≤ j ∧ (j ≤ input.length ∨ j = i) := by
  induction h with
  | emptyMatch i => exact ⟨Nat.le_refl _, Or.inr rfl⟩
  | literal c i hc => exact ⟨Nat.le_succ _, Or.inl (lt_length_of_getElem input i c hc)⟩
  | charClass negated ranges c i hc _ => exact ⟨Nat.le_succ _, Or.inl (lt_length_of_getElem input i c hc)⟩
  | anyCharNotNL c i hc _ => exact ⟨Nat.le_succ _, Or.inl (lt_length_of_getElem input i c hc)⟩
  | anyChar c i hc => exact ⟨Nat.le_succ _, Or.inl (lt_length_of_getElem input i c hc)⟩
  | beginLineStart => exact ⟨Nat.le_refl _, Or.inr rfl⟩
  | beginLineAfterNL k _ => exact ⟨Nat.le_refl _, Or.inr rfl⟩
  | endLineEnd => exact ⟨Nat.le_refl _, Or.inr rfl⟩
  | endLineBeforeNL i _ => exact ⟨Nat.le_refl _, Or.inr rfl⟩
  | beginText => exact ⟨Nat.le_refl _, Or.inr rfl⟩
  | endText => exact ⟨Nat.le_refl _, Or.inr rfl⟩
  | wordBoundary i _ => exact ⟨Nat.le_refl _, Or.inr rfl⟩
  | noWordBoundary i _ => exact ⟨Nat.le_refl _, Or.inr rfl⟩
  | capture e i j _ ih => exact ih
  | starNil e i => exact ⟨Nat.le_refl _, Or.inr rfl⟩
  | starCons e i k j _ _ ih1 ih2 => omega
  | plus e i k j _ _ ih1 ih2 => omega
  | questNil e i => exact ⟨Nat.le_refl _, Or.inr rfl⟩
  | questSome e i j _ ih => exact ih
  | concat e1 e2 i k j _ _ ih1 ih2 => omega
  | alternateLeft e1 e2 i j _ ih => exact ih
  | alternateRight e1 e2 i j _ ih => exact ih

theorem starEnds_fuel (n : Nat) (f : Nat → List Nat)
    (hf : ∀ a b, b ∈ f a → a ≤ b ∧ (b ≤ n ∨ b = a)) :
    ∀ fuel k j, j ∈ starEnds f fuel k → ∀ fuel2, n - k ≤ fuel2 → j ∈ starEnds f fuel2 k := by
  intro fuel
  induction fuel with
  | zero =>
    intro k j hj fuel2 _
    simp only [starEnds, List.mem_singleton] at hj
    subst hj
    exact self_mem_starEnds f fuel2 j
  | succ fuel ih =>
    intro k j hj fuel2 hfuel
    rcases (mem_starEnds_succ f fuel k j).1 hj with h | ⟨m, hm, hlt, hmj⟩
    · subst h
      exact self_mem_starEnds f fuel2 j
    · have hb := hf k m hm
      have hmn : m ≤ n := by omega
      cases fuel2 with
      | zero => omega
      | succ fuel3 =>
        exact (mem_starEnds_succ f fuel3 k j).2
          (Or.inr ⟨m, hm, hlt, ih m j hmj fuel3 (by omega)⟩)

theorem ends_complete (input : List Char) (e : Expr) (i j : Nat) (h : Matches input e i j) :
    j ∈ ends input e i := by
  induction h with
  | emptyMatch i => simp [ends]
  | literal c i hc => exact (mem_stepChar _ _ _ _).2 ⟨c, hc, by simp, rfl⟩
  | charClass negated ranges c i hc hp => exact (mem_stepChar _ _ _ _).2 ⟨c, hc, hp, rfl⟩
  | anyCharNotNL c i hc hn => exact (mem_stepChar _ _ _ _).2 ⟨c, hc, by simpa using hn, rfl⟩
  | anyChar c i hc => exact (mem_stepChar _ _ _ _).2 ⟨c, hc, rfl, rfl⟩
  | beginLineStart => exact (mem_assertAt _ _ _).2 ⟨by simp, rfl⟩
  | beginLineAfterNL k hk => exact (mem_assertAt _ _ _).2 ⟨by simp [before, hk], rfl⟩
  | endLineEnd => exact (mem_assertAt _ _ _).2 ⟨by simp, rfl⟩
  | endLineBeforeNL i hi => exact (mem_assertAt _ _ _).2 ⟨by simp [hi], rfl⟩
  | beginText => exact (mem_assertAt _ _ _).2 ⟨by simp, rfl⟩
  | endText => exact (mem_assertAt _ _ _).2 ⟨by simp, rfl⟩
  | wordBoundary i hw => exact (mem_assertAt _ _ _).2 ⟨by simpa using hw, rfl⟩
  | noWordBoundary i hw => exact (mem_assertAt _ _ _).2 ⟨by simpa using hw, rfl⟩
  | capture e i j _ ih => exact ih
  | starNil e i => exact self_mem_starEnds _ _ _
  | starCons e i k j h1 _ ih1 ih2 =>
    have hik := (Matches_bounds input e i k h1)
    by_cases hk : k = i
    · subst hk
      exact ih2
    · have hf : ∀ a b, b ∈ ends input e a → a ≤ b ∧ (b ≤ input.length ∨ b = a) :=
        fun a b hab => Matches_bounds input e a b (ends_sound input e a b hab)
      have hlt : i < k := by omega
      have hkn : k ≤ input.length := by omega
      simp only [ends] at ih2 ⊢
      cases hn : input.length with
      | zero => omega
      | succ m =>
        rw [hn] at ih2
        exact (mem_starEnds_succ _ m i j).2
          (Or.inr ⟨k, ih1, hlt, starEnds_fuel input.length _ hf _ k j ih2 m (by omega)⟩)
  | plus e i k j _ _ ih1 ih2 =>
    simp only [ends, List.mem_flatMap]
    exact ⟨k, ih1, ih2⟩
  | questNil e i => simp [ends]
  | questSome e i j _ ih => simp [ends, ih]
  | concat e1 e2 i k j _ _ ih1 ih2 =>
    simp only [ends, List.mem_flatMap]
    exact ⟨k, ih1, ih2⟩
  | alternateLeft e1 e2 i j _ ih => simp [ends, ih]
  | alternateRight e1 e2 i j _ ih => simp [ends, ih]

/-- The matcher computes the relation: `j` is among the computed end positions
from `i` exactly when the expression matches the input from `i` up to `j`. -/
theorem mem_ends_iff (input : List Char) (e : Expr) (i j : Nat) :
    j ∈ ends input e i ↔ Matches input e i j :=
  ⟨ends_sound input e i j, ends_complete input e i j⟩

/-- The search succeeds exactly when the pattern is found in the text. -/
theorem search_iff_FoundIn (e : Expr) (text : String) :
    search e text.toList = true ↔ FoundIn e text := by
  unfold search FoundIn
  simp only [List.any_eq_true, List.mem_range, Bool.not_eq_true', List.isEmpty_eq_false]
  constructor
  · rintro ⟨i, hi, hne⟩
    obtain ⟨j, hj⟩ := List.exists_mem_of_ne_nil _ hne
    have hm := ends_sound text.toList e i j hj
    have hb := Matches_bounds text.toList e i j hm
    refine ⟨i, j, hb.1, ?_, hm⟩
    have hlen : text.toList.length = text.length := rfl
    omega
  · rintro ⟨i, j, hij, hj, hm⟩
    have hlen : text.toList.length = text.length := rfl
    refine ⟨i, by omega, ?_⟩
    exact List.ne_nil_of_mem (ends_complete text.toList e i j hm)

end regexp

/-! ## Matching of the pattern variant -/

namespace engine

open golang regexp

theorem lookup_isSome_iff (m : GoMap) (k : String) :
    (GoMap.lookup m k).isSome = true ↔ ∃ v, (k, v) ∈ m := by
  induction m with
  | nil => simp [GoMap.lookup]
  | cons e rest ih =>
    obtain ⟨k1, v1⟩ := e
    by_cases hk : k1 = k
    · subst hk
      simp only [GoMap.lookup, if_true, Option.isSome_some, true_iff]
      exact ⟨v1, by simp⟩
    · simp only [GoMap.lookup, hk, if_false, ih, List.mem_cons, Prod.mk.injEq]
      constructor
      · rintro ⟨v, hv⟩
        exact ⟨v, Or.inr hv⟩
      · rintro ⟨v, h | h⟩
        · exact absurd h.1.symm hk
        · exact ⟨v, h⟩

theorem FoundIn_slash_a (path : String) :
    FoundIn (.concat (.literal '/') (.literal 'a')) path ↔
      ∃ i, path.toList[i]? = some '/' ∧ path.toList[i + 1]? = some 'a' := by
  constructor
  · rintro ⟨i, j, _, _, hm⟩
    cases hm with
    | concat _ _ _ k _ h1 h2 =>
      cases h1 with
      | literal _ _ hc1 =>
        cases h2 with
        | literal _ _ hc2 => exact ⟨i, hc1, hc2⟩
  · rintro ⟨i, h1, h2⟩
    have hlt := lt_length_of_getElem path.toList (i + 1) 'a' h2
    have hlen : path.toList.length = path.length := rfl
    exact ⟨i, i + 1 + 1, by omega, by omega,
      Matches.concat _ _ i (i + 1) (i + 1 + 1) (Matches.literal '/' i h1)
        (Matches.literal 'a' (i + 1) h2)⟩

theorem FoundIn_anchored_slash_a (path : String) :
    FoundIn (.concat (.concat (.concat .beginText (.literal '/')) (.literal 'a')) .endText) path ↔
      path = "/a" := by
  constructor
  · rintro ⟨i, j, _, _, hm⟩
    have hmem := (mem_ends_iff _ _ _ _).2 hm
    simp only [ends, List.mem_flatMap, mem_stepChar, mem_assertAt, decide_eq_true_eq] at hmem
    obtain ⟨k, ⟨k2, ⟨k3, ⟨h0, rfl⟩, c1, hc1, hp1, rfl⟩, c2, hc2, hp2, rfl⟩, hend, rfl⟩ := hmem
    subst h0 hp1 hp2
    apply String.ext
    have hd : path.data = path.toList := rfl
    rw [hd]
    match hp : path.toList, hend, hc1, hc2 with
    | [a, b], _, hc1, hc2 =>
      simp at hc1 hc2
      subst hc1 hc2
      rfl
  · rintro rfl
    exact (search_iff_FoundIn _ _).1 (by decide)

/-- C2: `MatchPath` is true when no pattern is attached, and otherwise exactly
when the pattern is found somewhere in the path (a search, not a match of the
whole path): with the pattern `/a` a path matches exactly when it has `/a`
somewhere in it, so `/a` and `/ab` match and the empty path and `/ba` do not;
with the pattern `^/a$` only `/a` matches. -/
theorem MatchPath_is_unanchored_search (r : responseImpl) (path : String) :
    (r.pathPattern = none → r.MatchPath path = true) ∧
    (∀ p : Regexp, r.pathPattern = some p →
      (r.MatchPath path = true ↔ FoundIn p.prog path)) ∧
    (∀ q : responseImpl, q.pathPattern = MustCompile fragmentParse "/a" →
      q.pathPattern ≠ none ∧
      (q.MatchPath path = true ↔
        ∃ i, path.toList[i]? = some '/' ∧ path.toList[i + 1]? = some 'a') ∧
      q.MatchPath "/a" = true ∧ q.MatchPath "/ab" = true ∧
      q.MatchPath "" = false ∧ q.MatchPath "/ba" = false) ∧
    (∀ q : responseImpl, q.pathPattern = MustCompile fragmentParse "^/a$" →
      q.pathPattern ≠ none ∧
      (q.MatchPath path = true ↔ path = "/a") ∧
      q.MatchPath "/a" = true ∧ q.MatchPath "/ab" = false ∧
      q.MatchPath "" = false ∧ q.MatchPath "/ba" = false) := by
  refine ⟨?_, ?_, ?_, ?_⟩
  · intro h
    simp [responseImpl.MatchPath, h]
  · intro p h
    simp only [responseImpl.MatchPath, h, Regexp.Match]
    exact search_iff_FoundIn p.prog path
  · intro q hq
    have hp : MustCompile fragmentParse "/a" =
        some ⟨"/a", .concat (.literal '/') (.literal 'a')⟩ := by decide
    rw [hp] at hq
    refine ⟨by simp [hq], ?_, ?_, ?_, ?_, ?_⟩
    · simp only [responseImpl.MatchPath, hq, Regexp.Match]
      exact (search_iff_FoundIn _ path).trans (FoundIn_slash_a path)
    · simp only [responseImpl.MatchPath, hq]; decide
    · simp only [responseImpl.MatchPath, hq]; decide
    · simp only [responseImpl.MatchPath, hq]; decide
    · simp only [responseImpl.MatchPath, hq]; decide
  · intro q hq
    have hp : MustCompile fragmentParse "^/a$" =
        some ⟨"^/a$", .concat (.concat (.concat .beginText (.literal '/')) (.literal 'a'))
          .endText⟩ := by decide
    rw [hp] at hq
    refine ⟨by simp [hq], ?_, ?_, ?_, ?_, ?_⟩
    · simp only [responseImpl.MatchPath, hq, Regexp.Match]
      exact (search_iff_FoundIn _ path).trans (FoundIn_anchored_slash_a path)
    · simp only [responseImpl.MatchPath, hq]; decide
    · simp only [responseImpl.MatchPath, hq]; decide
    · simp only [responseImpl.MatchPath, hq]; decide
    · simp only [responseImpl.MatchPath, hq]; decide

/-- C3: `MatchMethods` is true when the method map is empty or absent, and
otherwise exactly when the method is a key of the map, compared as a string with
its case, whatever boolean is stored under the key. -/
theorem MatchMethods_is_key_membership (r : responseImpl) (method : String) :
    (r.methods = none → r.MatchMethods method = true) ∧
    (r.methods = some [] → r.MatchMethods method = true) ∧
    (∀ m : GoMap, r.methods = some m → m ≠ [] →
      (r.MatchMethods method = true ↔ ∃ v, (method, v) ∈ m)) ∧
    (∀ q : responseImpl, q.methods = some [("POST", false)] →
      q.MatchMethods "POST" = true ∧ q.MatchMethods "post" = false ∧
      q.MatchMethods "" = false ∧ q.MatchMethods "123123" = false) := by
  refine ⟨?_, ?_, ?_, ?_⟩
  · intro h
    simp [responseImpl.MatchMethods, responseImpl.methodsLen, h]
  · intro h
    simp [responseImpl.MatchMethods, responseImpl.methodsLen, h]
  · intro m h hne
    have hlen : m.length ≠ 0 := by
      intro h0
      exact hne (List.length_eq_zero.1 h0)
    simp only [responseImpl.MatchMethods, responseImpl.methodsLen, h, hlen, if_false]
    exact lookup_isSome_iff m method
  · intro q hq
    simp only [responseImpl.MatchMethods, responseImpl.methodsLen, hq]
    decide

end engine

/-! ## The builder -/

namespace engine

open golang regexp

theorem Build_eq (h : Heap) (b : ResponseBuilder) :
    b.Build h = ((appendToNil h b.body).1, Response.impl
      { pathPattern := b.pathPattern,
        methods := some (ResponseBuilder.buildMethods b.methods []),
        responseCode := if 0 < b.responseCode then b.responseCode else 200,
        contentType := b.contentType,
        body := (appendToNil h b.body).2,
        skipCapture := b.skipCapture }) := by
  rcases b with ⟨pp, ms, code, ct, body, sc⟩
  cases pp <;> cases body <;> by_cases hc : 0 < code <;>
    simp [ResponseBuilder.Build, newResponseImpl, appendToNil, hc]

/-- C4: the response that `Build` returns has the configured code as its
response code when that code is strictly positive, and 200 when the code was
never set, is 0 or is negative: after `SetResponseCode(-1)` it is 200, after
`SetResponseCode(123)` it is 123. -/
theorem Build_ResponseCode (h : Heap) (b : ResponseBuilder) (code : Int) :
    (b.Build h).2.ResponseCode = (if 0 < b.responseCode then b.responseCode else 200) ∧
    ((b.SetResponseCode code).Build h).2.ResponseCode = (if 0 < code then code else 200) ∧
    (ResponseBuilder.zero.Build h).2.ResponseCode = 200 ∧
    ((b.SetResponseCode 0).Build h).2.ResponseCode = 200 ∧
    ((b.SetResponseCode (-1)).Build h).2.ResponseCode = 200 ∧
    ((b.SetResponseCode 123).Build h).2.ResponseCode = 123 := by
  have key : ∀ (b1 : ResponseBuilder),
      (b1.Build h).2.ResponseCode = (if 0 < b1.responseCode then b1.responseCode else 200) := by
    intro b1
    rw [Build_eq]
    rfl
  refine ⟨key b, ?_, ?_, ?_, ?_, ?_⟩
  · rw [key]; rfl
  · rw [key]; rfl
  · rw [key]; rfl
  · rw [key]; rfl
  · rw [key]; rfl

theorem keys_set (m : GoMap) (k : String) (v : Bool) :
    GoMap.keys (GoMap.set m k v) =
      if k ∈ GoMap.keys m then GoMap.keys m else GoMap.keys m ++ [k] := by
  induction m with
  | nil => simp [GoMap.set, GoMap.keys]
  | cons e rest ih =>
    obtain ⟨k1, v1⟩ := e
    by_cases hk : k1 = k
    · subst hk
      simp [GoMap.set, GoMap.keys]
    · have hk2 : ¬ k = k1 := fun h => hk h.symm
      simp only [GoMap.keys] at ih
      by_cases hin : k ∈ List.map Prod.fst rest
      · simp [GoMap.set, GoMap.keys, hk, hk2, ih, hin]
      · simp [GoMap.set, GoMap.keys, hk, hk2, ih, hin]

theorem values_set_true (m : GoMap) (k : String)
    (hm : ∀ k1 v1, (k1, v1) ∈ m → v1 = true) :
    ∀ k1 v1, (k1, v1) ∈ GoMap.set m k true → v1 = true := by
  induction m with
  | nil =>
    intro k1 v1 h
    simp [GoMap.set] at h
    exact h.2
  | cons e rest ih =>
    obtain ⟨k2, v2⟩ := e
    intro k1 v1 h
    by_cases hk : k2 = k
    · simp only [GoMap.set, hk, if_true, List.mem_cons, Prod.mk.injEq] at h
      rcases h with h | h
      · exact h.2
      · exact hm k1 v1 (by simp [h])
    · simp only [GoMap.set, hk, if_false, List.mem_cons, Prod.mk.injEq] at h
      rcases h with h | h
      · exact hm k1 v1 (by simp [h.1, h.2])
      · exact ih (fun a b hab => hm a b (by simp [hab])) k1 v1 h

theorem buildMethods_spec (ms : List String) (m : GoMap)
    (hnd : (GoMap.keys m).Nodup) (hv : ∀ k v, (k, v) ∈ m → v = true) :
    (∀ k, k ∈ GoMap.keys (ResponseBuilder.buildMethods ms m) ↔ k ∈ GoMap.keys m ∨ k ∈ ms) ∧
    (GoMap.keys (ResponseBuilder.buildMethods ms m)).Nodup ∧
    (∀ k v, (k, v) ∈ ResponseBuilder.buildMethods ms m → v = true) := by
  induction ms generalizing m with
  | nil => exact ⟨by simp [ResponseBuilder.buildMethods], hnd, hv⟩
  | cons a rest ih =>
    have hnd2 : (GoMap.keys (GoMap.set m a true)).Nodup := by
      rw [keys_set]
      by_cases ha : a ∈ GoMap.keys m
      · simp [ha, hnd]
      · simp only [ha, if_false]
        exact List.Nodup.append hnd (by simp) (by simpa using ha)
    obtain ⟨h1, h2, h3⟩ := ih (GoMap.set m a true) hnd2 (values_set_true m a hv)
    refine ⟨?_, h2, h3⟩
    intro k
    have hstep : ResponseBuilder.buildMethods (a :: rest) m =
        ResponseBuilder.buildMethods rest (GoMap.set m a true) := rfl
    rw [hstep, h1, keys_set]
    by_cases ha : a ∈ GoMap.keys m
    · simp only [ha, if_true, List.mem_cons]
      constructor
      · rintro (h | h)
        · exact Or.inl h
        · exact Or.inr (Or.inr h)
      · rintro (h | h | h)
        · exact Or.inl h
        · exact Or.inl (h ▸ ha)
        · exact Or.inr h
    · simp only [ha, if_false, List.mem_append, List.mem_singleton, List.mem_cons]
      tauto

theorem foldl_AddMethod (calls : List (List String)) (b : ResponseBuilder) :
    (calls.foldl ResponseBuilder.AddMethod b) = { b with methods := b.methods ++ calls.flatten } := by
  induction calls generalizing b with
  | nil => simp
  | cons c rest ih => simp [List.foldl_cons, ih, ResponseBuilder.AddMethod]

theorem mem_keys_iff (m : GoMap) (k : String) : k ∈ GoMap.keys m ↔ ∃ v, (k, v) ∈ m := by
  simp [GoMap.keys]

theorem MatchMethods_buildMethods (ms : List String) (imp : responseImpl)
    (himp : imp.methods = some (ResponseBuilder.buildMethods ms [])) (method : String) :
    imp.MatchMethods method = true ↔ (ms = [] ∨ method ∈ ms) := by
  obtain ⟨h1, _, _⟩ := buildMethods_spec ms [] (by simp [GoMap.keys]) (by simp)
  have hmem := h1 method
  simp only [GoMap.keys, List.map_nil, List.not_mem_nil, false_or] at hmem
  by_cases hnil : ms = []
  · simp [responseImpl.MatchMethods, responseImpl.methodsLen, himp, hnil,
      ResponseBuilder.buildMethods]
  · have hne : ResponseBuilder.buildMethods ms [] ≠ [] := by
      intro h0
      obtain ⟨x, hx⟩ := List.exists_mem_of_ne_nil _ hnil
      have hx2 := (h1 x).2 (Or.inr hx)
      rw [h0] at hx2
      simp [GoMap.keys] at hx2
    have hlen : (ResponseBuilder.buildMethods ms []).length ≠ 0 :=
      fun h0 => hne (List.length_eq_zero.1 h0)
    simp only [responseImpl.MatchMethods, responseImpl.methodsLen, himp, hlen, if_false, hnil,
      false_or]
    rw [lookup_isSome_iff, ← mem_keys_iff]
    exact hmem

/-- C5: after any sequence of `AddMethod` calls the method map of the built
response has a method as a key exactly when the method occurs in the
concatenated arguments; each key is there once, so the size of the map is the
number of distinct methods (PUT, POST, PUT gives 2); the built response matches
a method exactly when no method was added or the method was added. -/
theorem Build_method_set (h : Heap) (b : ResponseBuilder) (calls : List (List String)) :
    (∃ (imp : responseImpl) (m : GoMap),
      ((calls.foldl ResponseBuilder.AddMethod b).Build h).2 = .impl imp ∧
      imp.methods = some m ∧
      (∀ k, (∃ v, (k, v) ∈ m) ↔ k ∈ b.methods ++ calls.flatten) ∧
      (∀ k v, (k, v) ∈ m → v = true) ∧
      (GoMap.keys m).Nodup ∧
      m.length = (b.methods ++ calls.flatten).dedup.length ∧
      (∀ method, imp.MatchMethods method = true ↔
        (b.methods ++ calls.flatten = [] ∨ method ∈ b.methods ++ calls.flatten))) ∧
    (∃ (imp : responseImpl) (m : GoMap),
      ((ResponseBuilder.zero.AddMethod ["PUT", "POST", "PUT"]).Build h).2 = .impl imp ∧
      imp.methods = some m ∧ m.length = 2 ∧
      imp.MatchMethods "PUT" = true ∧ imp.MatchMethods "POST" = true ∧
      imp.MatchMethods "GET" = false) := by
  constructor
  · rw [foldl_AddMethod, Build_eq]
    obtain ⟨h1, h2, h3⟩ := buildMethods_spec (b.methods ++ calls.flatten) []
      (by simp [GoMap.keys]) (by simp)
    refine ⟨_, _, rfl, rfl, ?_, h3, h2, ?_, ?_⟩
    · intro k
      rw [← mem_keys_iff, h1]
      simp [GoMap.keys]
    · have hperm : List.Perm
          (GoMap.keys (ResponseBuilder.buildMethods (b.methods ++ calls.flatten) []))
          (b.methods ++ calls.flatten).dedup :=
        (List.perm_ext_iff_of_nodup h2 (List.nodup_dedup _)).2
          (fun a => by rw [h1]; simp [GoMap.keys])
      have hlen := hperm.length_eq
      simpa [GoMap.keys] using hlen
    · intro method
      exact MatchMethods_buildMethods _ _ rfl method
  · rw [Build_eq]
    exact ⟨_, _, rfl, rfl, by decide, rfl, rfl, rfl⟩

end engine

/-! ## The body of a built response -/

namespace engine

open golang regexp

theorem getD_alloc_new (arrays : List (List UInt8)) (bs : List UInt8) :
    (arrays ++ [bs]).getD arrays.length [] = bs := by
  simp [List.getD_eq_getElem?_getD]

theorem getD_alloc_old (arrays : List (List UInt8)) (bs : List UInt8) (k : Nat)
    (hk : k < arrays.length) : (arrays ++ [bs]).getD k [] = arrays.getD k [] := by
  simp [List.getD_eq_getElem?_getD, List.getElem?_append_left hk]

theorem load_length (h : Heap) (s : Slice) (hv : h.valid s) :
    (h.load (some s)).length = s.len := by
  have h2 := hv.2
  simp only [Heap.load, List.length_take, List.length_drop]
  omega

theorem load_whole (arrays : List (List UInt8)) (k : Nat) (bs : List UInt8)
    (hk : arrays.getD k [] = bs) :
    Heap.load ⟨arrays⟩ (some ⟨k, 0, bs.length⟩) = bs := by
  simp only [Heap.load, List.drop_zero]
  rw [hk]
  exact List.take_length bs

/-- An assignment through a slice changes the backing array of the slice only. -/
theorem store_frame (h : Heap) (s : Slice) (i : Nat) (v : UInt8) :
    Heap.frame h (h.store s i v) [s.arr] := by
  unfold Heap.store Heap.frame
  split
  · refine ⟨by simp, fun k _ hk => ?_⟩
    have hne : s.arr ≠ k := by
      intro he
      exact hk (by simp [he])
    simp [List.getD_eq_getElem?_getD, List.getElem?_modify_ne _ _ hne]
  · exact ⟨Nat.le_refl _, fun _ _ _ => rfl⟩

theorem WriteBody_after_SetBody {σ : Type} (h : Heap) (b : ResponseBuilder) (body : Bytes)
    (hv : ∀ s, body = some s → h.valid s)
    (h2 : Heap) (hf1 : Heap.frame (b.SetBody h body).1 h2 (Bytes.arrays body))
    (b2 : ResponseBuilder) (hb2 : b2.body = (b.SetBody h body).2.body)
    (h4 : Heap)
    (hf2 : Heap.frame (b2.Build h2).1 h4 (Bytes.arrays body ++ Bytes.arrays b2.body))
    (w : Writer σ) (s : σ) (buf : List UInt8) :
    (b2.Build h2).2.WriteBody h4 w s =
        (if h.load body = [] then (s, none) else w.Write s (h.load body)) ∧
    (b2.Build h2).2.WriteBody h4 bufferWriter buf = (buf ++ h.load body, none) := by
  rw [Build_eq] at hf2 ⊢
  simp only [Response.WriteBody, responseImpl.WriteBody]
  cases body with
  | none =>
    have hb : b2.body = none := by simpa [ResponseBuilder.SetBody, appendToNil] using hb2
    simp [hb, appendToNil, Heap.load]
  | some sl =>
    have hval := hv sl rfl
    have hlen := load_length h sl hval
    by_cases h0 : sl.len = 0
    · have hb : b2.body = none := by simpa [ResponseBuilder.SetBody, appendToNil, h0] using hb2
      have hnil : h.load (some sl) = [] := List.length_eq_zero.1 (by omega)
      simp [hb, appendToNil, hnil]
    · have hne : h.load (some sl) ≠ [] := fun hn => h0 (by rw [← hlen, hn]; rfl)
      have hb : b2.body = some ⟨h.arrays.length, 0, (h.load (some sl)).length⟩ := by
        simpa [ResponseBuilder.SetBody, appendToNil, h0, Heap.alloc] using hb2
      have hlen1 : (b.SetBody h (some sl)).1.arrays = h.arrays ++ [h.load (some sl)] := by
        simp [ResponseBuilder.SetBody, appendToNil, h0, Heap.alloc]
      obtain ⟨hle1, hkeep1⟩ := hf1
      rw [hlen1] at hle1 hkeep1
      simp only [List.length_append, List.length_singleton] at hle1 hkeep1
      have harr : sl.arr < h.arrays.length := hval.1
      have hk1 : h2.arrays.getD h.arrays.length [] = h.load (some sl) := by
        rw [hkeep1 h.arrays.length (by omega) (by simp [Bytes.arrays]; omega)]
        exact getD_alloc_new _ _
      have hload2 : h2.load (some ⟨h.arrays.length, 0, (h.load (some sl)).length⟩) =
          h.load (some sl) := load_whole h2.arrays _ _ hk1
      have hlen0 : (h.load (some sl)).length ≠ 0 := by omega
      have hap : appendToNil h2 b2.body =
          (⟨h2.arrays ++ [h.load (some sl)]⟩,
            some ⟨h2.arrays.length, 0, (h.load (some sl)).length⟩) := by
        rw [hb]
        simp only [appendToNil, hlen0, if_false, Heap.alloc, hload2]
      rw [hap] at hf2 ⊢
      obtain ⟨_, hkeep2⟩ := hf2
      simp only [List.length_append, List.length_singleton] at hkeep2
      have hk2 : h4.arrays.getD h2.arrays.length [] = h.load (some sl) := by
        rw [hkeep2 h2.arrays.length (by omega)
          (by simp [Bytes.arrays, hb]; omega)]
        exact getD_alloc_new _ _
      have hload4 : h4.load (some ⟨h2.arrays.length, 0, (h.load (some sl)).length⟩) =
          h.load (some sl) := load_whole h4.arrays _ _ hk2
      simp only [hload4, hne, if_false, bufferWriter, and_self]

/-- C6: what the built response writes is the content the byte sequence had when
`SetBody` was called. The caller may change its buffer after `SetBody` (heap
`h2`), other fields of the builder may be set, and after `Build` the buffer of
the caller and the body of the builder may change again (heap `h4`): `WriteBody`
still writes the original bytes, with one `Write`, or nothing when there were
none. -/
theorem SetBody_defensive_copy {σ : Type} (h : Heap) (b : ResponseBuilder) (body : Bytes)
    (hv : ∀ s, body = some s → h.valid s)
    (h2 : Heap) (hf1 : Heap.frame (b.SetBody h body).1 h2 (Bytes.arrays body))
    (b2 : ResponseBuilder) (hb2 : b2.body = (b.SetBody h body).2.body)
    (h4 : Heap)
    (hf2 : Heap.frame (b2.Build h2).1 h4 (Bytes.arrays body ++ Bytes.arrays b2.body))
    (w : Writer σ) (s : σ) (buf : List UInt8) :
    (b2.Build h2).2.WriteBody h4 w s =
        (if h.load body = [] then (s, none) else w.Write s (h.load body)) ∧
    (b2.Build h2).2.WriteBody h4 bufferWriter buf = (buf ++ h.load body, none) :=
  WriteBody_after_SetBody h b body hv h2 hf1 b2 hb2 h4 hf2 w s buf

/-- The witness of C6: the buffer of the caller holds 1, 2, 3 when `SetBody` is
called; the caller overwrites it after `SetBody`, the buffer and the copy of the
builder are overwritten after `Build`, and the response still writes 1, 2, 3. -/
theorem SetBody_defensive_copy_witness :
    Heap.valid ⟨[[1, 2, 3]]⟩ ⟨0, 0, 3⟩ ∧
    Heap.frame (ResponseBuilder.zero.SetBody ⟨[[1, 2, 3]]⟩ (some ⟨0, 0, 3⟩)).1
      ⟨[[9, 2, 3], [1, 2, 3]]⟩ [0] ∧
    Heap.frame ((ResponseBuilder.zero.SetBody ⟨[[1, 2, 3]]⟩ (some ⟨0, 0, 3⟩)).2.Build
      ⟨[[9, 2, 3], [1, 2, 3]]⟩).1 ⟨[[9, 7, 3], [8, 2, 3], [1, 2, 3]]⟩ [0, 1] ∧
    ((ResponseBuilder.zero.SetBody ⟨[[1, 2, 3]]⟩ (some ⟨0, 0, 3⟩)).2.Build
        ⟨[[9, 2, 3], [1, 2, 3]]⟩).2.WriteBody
      ⟨[[9, 7, 3], [8, 2, 3], [1, 2, 3]]⟩ bufferWriter [] = ([1, 2, 3], none) :=
  ⟨by decide, by decide, by decide,
   (SetBody_defensive_copy ⟨[[1, 2, 3]]⟩ ResponseBuilder.zero (some ⟨0, 0, 3⟩)
    (by intro s hs; cases hs; decide)
    ⟨[[9, 2, 3], [1, 2, 3]]⟩ (by decide)
    (ResponseBuilder.zero.SetBody ⟨[[1, 2, 3]]⟩ (some ⟨0, 0, 3⟩)).2 rfl
    ⟨[[9, 7, 3], [8, 2, 3], [1, 2, 3]]⟩ (by decide) bufferWriter [] []).2⟩

/-- By contrast `SetBodyNoClone` shares the buffer of the caller: a change of the
buffer before `Build` shows in what the response writes. -/
theorem SetBodyNoClone_shares_buffer :
    ((ResponseBuilder.zero.SetBodyNoClone (some ⟨0, 0, 3⟩)).Build
        (Heap.store ⟨[[1, 2, 3]]⟩ ⟨0, 0, 3⟩ 0 9)).2.WriteBody
      ((ResponseBuilder.zero.SetBodyNoClone (some ⟨0, 0, 3⟩)).Build
        (Heap.store ⟨[[1, 2, 3]]⟩ ⟨0, 0, 3⟩ 0 9)).1
      bufferWriter [] = ([9, 2, 3], none) := by
  decide

end engine

/-! ## Responses from the configuration -/

namespace engine

open golang regexp

theorem frame_refl (h : Heap) (mutable : List Nat) : Heap.frame h h mutable :=
  ⟨Nat.le_refl _, fun _ _ _ => rfl⟩

theorem AddMethod_if (b : ResponseBuilder) (ms : List String) :
    (if ms.length > 0 then b.AddMethod ms else b) = { b with methods := b.methods ++ ms } := by
  cases ms with
  | nil => simp
  | cons a rest => simp [ResponseBuilder.AddMethod]

theorem SetResponseCode_if (b : ResponseBuilder) (rc : Int) (hb : b.responseCode = 0) :
    (if rc ≠ 0 then b.SetResponseCode rc else b) = { b with responseCode := rc } := by
  by_cases hr : rc = 0
  · subst hr
    rcases b with ⟨pp, ms, code, ct, body, sc⟩
    simp only at hb
    simp [hb]
  · simp [hr, ResponseBuilder.SetResponseCode]

theorem NewResponseFromConfig_eq (syntaxParse : String → Except GoError Expr) (h : Heap)
    (cfg : config.ResponseConfig) :
    NewResponseFromConfig syntaxParse h cfg =
      match (if cfg.PathPattern ≠ "" then
          match syntaxParse cfg.PathPattern with
          | .error e => .error e
          | .ok prog => .ok (some ⟨cfg.PathPattern, prog⟩)
        else .ok none : Except GoError (Option Regexp)) with
      | .error e => .error e
      | .ok pat =>
        match (if cfg.Body ≠ "" then
            match base64.decode cfg.Body with
            | .error e => .error e
            | .ok bs => .ok (appendToNil (h.alloc bs).1 (some (h.alloc bs).2))
          else .ok (h, none) : Except GoError (Heap × Bytes)) with
        | .error e => .error e
        | .ok hb => .ok (ResponseBuilder.Build hb.1
            { pathPattern := pat, methods := cfg.Methods, responseCode := cfg.ReturnCode,
              contentType := cfg.ContentType, body := hb.2, skipCapture := cfg.SkipCapture }) := by
  unfold NewResponseFromConfig
  by_cases hp : cfg.PathPattern = ""
  · by_cases hb : cfg.Body = ""
    · simp only [hp, hb, ne_eq, not_true_eq_false, if_false, AddMethod_if]
      rw [SetResponseCode_if _ _ rfl]
      rfl
    · simp only [hp, hb, ne_eq, not_true_eq_false, not_false_eq_true, if_false, if_true,
        AddMethod_if, base64.DecodeString]
      cases hd : base64.decode cfg.Body with
      | error e => rfl
      | ok bs =>
        simp only []
        rw [SetResponseCode_if _ _ rfl]
        rfl
  · cases hc : syntaxParse cfg.PathPattern with
    | error e => simp [hp, Compile, hc]
    | ok prog =>
      by_cases hb : cfg.Body = ""
      · simp only [hp, hb, ne_eq, not_true_eq_false, not_false_eq_true, if_false, if_true,
          AddMethod_if, Compile, hc]
        rw [SetResponseCode_if _ _ rfl]
        rfl
      · simp only [hp, hb, ne_eq, not_false_eq_true, if_true,
          AddMethod_if, base64.DecodeString, Compile, hc]
        cases hd : base64.decode cfg.Body with
        | error e => rfl
        | ok bs =>
          simp only []
          rw [SetResponseCode_if _ _ rfl]
          rfl

/-- C7 (as stated, refuted): with the valid pattern `/a` and the body `!`, which
is no base64 text, `NewResponseFromConfig` fails although the pattern compiles. -/
theorem NewResponseFromConfig_fails_on_valid_pattern :
    ¬ ((∃ e, NewResponseFromConfig fragmentParse ⟨[]⟩ ⟨"/a", [], "", "!", false, 0⟩ = .error e) ↔
      (∃ e, Compile fragmentParse "/a" = .error e)) := by
  intro hiff
  have hfail : NewResponseFromConfig fragmentParse ⟨[]⟩ ⟨"/a", [], "", "!", false, 0⟩ =
      .error .corruptInputError := by decide
  have hcomp : Compile fragmentParse "/a" =
      .ok ⟨"/a", .concat (.literal '/') (.literal 'a')⟩ := by decide
  obtain ⟨e, he⟩ := hiff.1 ⟨_, hfail⟩
  rw [hcomp] at he
  exact Except.noConfusion he

/-- C7 (amended): `NewResponseFromConfig` fails exactly when the path pattern is
not empty and does not parse as a regular expression, or the body is not empty
and is not valid base64; the methods, the content type, the skip-capture flag
and the status code have no part in it. -/
theorem NewResponseFromConfig_fails_iff (syntaxParse : String → Except GoError Expr) (h : Heap)
    (cfg : config.ResponseConfig) :
    (∃ e, NewResponseFromConfig syntaxParse h cfg = .error e) ↔
      ((cfg.PathPattern ≠ "" ∧ ∃ e, syntaxParse cfg.PathPattern = .error e) ∨
        (cfg.Body ≠ "" ∧ ∃ e, base64.decode cfg.Body = .error e)) := by
  rw [NewResponseFromConfig_eq]
  by_cases hp : cfg.PathPattern = ""
  · by_cases hb : cfg.Body = ""
    · simp [hp, hb]
    · cases hd : base64.decode cfg.Body with
      | error e => simp [hp, hb, hd]
      | ok bs => simp [hp, hb, hd]
  · cases hc : syntaxParse cfg.PathPattern with
    | error e => simp [hp, hc]
    | ok prog =>
      by_cases hb : cfg.Body = ""
      · simp [hp, hb, hc]
      · cases hd : base64.decode cfg.Body with
        | error e => simp [hp, hb, hc, hd]
        | ok bs => simp [hp, hb, hc, hd]

theorem alloc_valid (h : Heap) (bs : List UInt8) : (h.alloc bs).1.valid (h.alloc bs).2 := by
  simp [Heap.alloc, Heap.valid, List.getD_eq_getElem?_getD]

theorem alloc_load (h : Heap) (bs : List UInt8) :
    (h.alloc bs).1.load (some (h.alloc bs).2) = bs :=
  load_whole _ _ _ (getD_alloc_new h.arrays bs)

/-- C8: a response that `NewResponseFromConfig` returns is the one `Build` gives
for a builder holding the fields of the rule: it matches a method and path
exactly when the methods are empty or hold the method, and the pattern is empty
or is found in the path; its status is the return code when that is positive and
200 otherwise; the content type and the skip-capture flag are those of the rule;
and it writes the base64 decoding of the body, nothing when the body is empty. -/
theorem NewResponseFromConfig_response {σ : Type}
    (syntaxParse : String → Except GoError Expr) (h : Heap)
    (cfg : config.ResponseConfig) (h2 : Heap) (resp : Response)
    (hok : NewResponseFromConfig syntaxParse h cfg = .ok (h2, resp))
    (w : Writer σ) (s : σ) (buf : List UInt8) :
    (∃ (b : ResponseBuilder) (h1 : Heap), (h2, resp) = b.Build h1 ∧
      b.methods = cfg.Methods ∧ b.responseCode = cfg.ReturnCode ∧
      b.contentType = cfg.ContentType ∧ b.skipCapture = cfg.SkipCapture ∧
      (cfg.PathPattern = "" → b.pathPattern = none) ∧
      (cfg.PathPattern ≠ "" →
        ∃ prog, syntaxParse cfg.PathPattern = .ok prog ∧
          b.pathPattern = some ⟨cfg.PathPattern, prog⟩)) ∧
    (∀ method path, resp.Match method path = true ↔
      ((cfg.Methods = [] ∨ method ∈ cfg.Methods) ∧
        (cfg.PathPattern = "" ∨
          ∃ prog, syntaxParse cfg.PathPattern = .ok prog ∧ FoundIn prog path))) ∧
    resp.ResponseCode = (if 0 < cfg.ReturnCode then cfg.ReturnCode else 200) ∧
    resp.ContentType = cfg.ContentType ∧
    resp.SkipCapture = cfg.SkipCapture ∧
    (∃ bs : List UInt8, (if cfg.Body = "" then bs = [] else base64.decode cfg.Body = .ok bs) ∧
      resp.WriteBody h2 w s = (if bs = [] then (s, none) else w.Write s bs) ∧
      resp.WriteBody h2 bufferWriter buf = (buf ++ bs, none)) := by
  rw [NewResponseFromConfig_eq] at hok
  -- the pattern step
  have hpat : ∃ pat : Option Regexp,
      (if cfg.PathPattern ≠ "" then
          match syntaxParse cfg.PathPattern with
          | .error e => .error e
          | .ok prog => .ok (some ⟨cfg.PathPattern, prog⟩)
        else .ok none : Except GoError (Option Regexp)) = .ok pat ∧
      (cfg.PathPattern = "" → pat = none) ∧
      (cfg.PathPattern ≠ "" →
        ∃ prog, syntaxParse cfg.PathPattern = .ok prog ∧ pat = some ⟨cfg.PathPattern, prog⟩) := by
    by_cases hp : cfg.PathPattern = ""
    · exact ⟨none, by simp [hp], fun _ => rfl, fun hn => absurd hp hn⟩
    · cases hc : syntaxParse cfg.PathPattern with
      | error e => simp [hp, hc] at hok
      | ok prog =>
        exact ⟨some ⟨cfg.PathPattern, prog⟩, by simp [hp], fun he => absurd he hp,
          fun _ => ⟨prog, rfl, rfl⟩⟩
  obtain ⟨pat, hpeq, hpat1, hpat2⟩ := hpat
  rw [hpeq] at hok
  simp only [] at hok
  -- the body step
  have hbody : ∃ (hb : Heap × Bytes) (bs : List UInt8),
      (if cfg.Body ≠ "" then
            match base64.decode cfg.Body with
            | .error e => .error e
            | .ok bs => .ok (appendToNil (h.alloc bs).1 (some (h.alloc bs).2))
          else .ok (h, none) : Except GoError (Heap × Bytes)) = .ok hb ∧
      (if cfg.Body = "" then bs = [] else base64.decode cfg.Body = .ok bs) ∧
      ∀ (b2 : ResponseBuilder), b2.body = hb.2 →
        (b2.Build hb.1).2.WriteBody (b2.Build hb.1).1 w s =
            (if bs = [] then (s, none) else w.Write s bs) ∧
        (b2.Build hb.1).2.WriteBody (b2.Build hb.1).1 bufferWriter buf = (buf ++ bs, none) := by
    by_cases hb0 : cfg.Body = ""
    · refine ⟨(h, none), [], by simp [hb0], by simp [hb0], ?_⟩
      intro b2 hb2
      simp only at hb2
      rw [Build_eq]
      simp [Response.WriteBody, responseImpl.WriteBody, hb2, appendToNil]
    · cases hd : base64.decode cfg.Body with
      | error e => simp [hb0, hd] at hok
      | ok bs =>
        refine ⟨appendToNil (h.alloc bs).1 (some (h.alloc bs).2), bs, by simp [hb0],
          by simp [hb0], ?_⟩
        intro b2 hb2
        have hcore := WriteBody_after_SetBody (h.alloc bs).1 ResponseBuilder.zero
          (some (h.alloc bs).2) (by intro sl hsl; cases hsl; exact alloc_valid h bs)
          (appendToNil (h.alloc bs).1 (some (h.alloc bs).2)).1 (frame_refl _ _)
          b2 hb2 (b2.Build (appendToNil (h.alloc bs).1 (some (h.alloc bs).2)).1).1
          (frame_refl _ _) w s buf
        rw [alloc_load] at hcore
        exact hcore
  obtain ⟨hb, bs, hbeq, hbs, hwrite⟩ := hbody
  rw [hbeq] at hok
  simp only [] at hok
  injection hok with hok
  have hw := hwrite ⟨pat, cfg.Methods, cfg.ReturnCode, cfg.ContentType, hb.2, cfg.SkipCapture⟩ rfl
  rw [hok] at hw
  simp only at hw
  refine ⟨⟨_, hb.1, hok.symm, rfl, rfl, rfl, rfl, hpat1, hpat2⟩, ?_, ?_, ?_, ?_, ⟨bs, hbs, hw⟩⟩
  · intro method path
    rw [Build_eq] at hok
    have hr := (Prod.mk.inj hok).2
    rw [← hr]
    simp only [Response.Match, responseImpl.Match, Bool.and_eq_true]
    rw [MatchMethods_buildMethods cfg.Methods _ rfl method]
    apply and_congr Iff.rfl
    by_cases hp : cfg.PathPattern = ""
    · simp [responseImpl.MatchPath, hpat1 hp, hp]
    · obtain ⟨prog, hprog, hpp⟩ := hpat2 hp
      simp only [responseImpl.MatchPath, hpp, Regexp.Match, hp, false_or, hprog]
      rw [search_iff_FoundIn]
      constructor
      · intro hf
        exact ⟨prog, rfl, hf⟩
      · rintro ⟨prog2, he, hf⟩
        injection he with he
        rw [he]
        exact hf
  · rw [Build_eq] at hok
    rw [← (Prod.mk.inj hok).2]
    rfl
  · rw [Build_eq] at hok
    rw [← (Prod.mk.inj hok).2]
    rfl
  · rw [Build_eq] at hok
    rw [← (Prod.mk.inj hok).2]
    rfl

/-- The witness of C8: the rule with pattern `^/a$`, method GET, body `AAAA` and
status 201 is accepted, and the response it gives writes three zero bytes. -/
theorem NewResponseFromConfig_response_witness :
    NewResponseFromConfig fragmentParse ⟨[]⟩ ⟨"^/a$", ["GET"], "text/plain", "AAAA", false, 201⟩ =
      .ok (⟨[[0, 0, 0], [0, 0, 0], [0, 0, 0]]⟩,
        .impl
          { pathPattern := some ⟨"^/a$",
              .concat (.concat (.concat .beginText (.literal '/')) (.literal 'a')) .endText⟩,
            methods := some [("GET", true)], responseCode := 201, contentType := "text/plain",
            body := some ⟨2, 0, 3⟩, skipCapture := false }) ∧
    Response.ResponseCode (.impl
          { pathPattern := some ⟨"^/a$",
              .concat (.concat (.concat .beginText (.literal '/')) (.literal 'a')) .endText⟩,
            methods := some [("GET", true)], responseCode := 201, contentType := "text/plain",
            body := some ⟨2, 0, 3⟩, skipCapture := false }) =
      (if (0 : Int) < 201 then 201 else 200) :=
  ⟨by decide,
   (NewResponseFromConfig_response fragmentParse ⟨[]⟩
      ⟨"^/a$", ["GET"], "text/plain", "AAAA", false, 201⟩
      ⟨[[0, 0, 0], [0, 0, 0], [0, 0, 0]]⟩
      (.impl
          { pathPattern := some ⟨"^/a$",
              .concat (.concat (.concat .beginText (.literal '/')) (.literal 'a')) .endText⟩,
            methods := some [("GET", true)], responseCode := 201, contentType := "text/plain",
            body := some ⟨2, 0, 3⟩, skipCapture := false })
      (by decide) bufferWriter [] []).2.2.1⟩

/-- C9: the default response matches every method and path, has the response
code 200 and the content type `application/json`, writes the two bytes of an
empty JSON object with one `Write` whose result it returns, and never skips the
capture. -/
theorem DEFAULT_RESPONSE_is_fixed {σ : Type} (method path : String) (h : Heap) (w : Writer σ)
    (s : σ) (buf : List UInt8) :
    DEFAULT_RESPONSE.Match method path = true ∧
    DEFAULT_RESPONSE.ResponseCode = 200 ∧
    DEFAULT_RESPONSE.ContentType = "application/json" ∧
    DEFAULT_RESPONSE.WriteBody h w s = w.Write s [123, 125] ∧
    ([123, 125] : List UInt8) = stringBytes "\x7b\x7d" ∧
    DEFAULT_RESPONSE.WriteBody h bufferWriter buf = (buf ++ [123, 125], none) ∧
    DEFAULT_RESPONSE.SkipCapture = false := by
  have hbytes : stringBytes EMPTY_OBJECT = [123, 125] := by decide
  refine ⟨rfl, rfl, rfl, ?_, by decide, ?_, rfl⟩
  · simp only [DEFAULT_RESPONSE, Response.WriteBody, hbytes]
  · simp only [DEFAULT_RESPONSE, Response.WriteBody, hbytes, bufferWriter]

end engine

/-! ## The calendar -/

namespace time

theorem cycles (d0 n400 d1 q100 n100 d2 n4 d3 q1 n1 : Int)
    (e1 : n400 = d0 / 146097) (e2 : d1 = d0 % 146097) (e3 : q100 = d1 / 36524)
    (e4 : n100 = q100 - q100 / 4) (e5 : d2 = d1 - 36524 * n100) (e6 : n4 = d2 / 1461)
    (e7 : d3 = d2 - 1461 * n4) (e8 : q1 = d3 / 365) (e9 : n1 = q1 - q1 / 4) :
    daysBeforeYear (400 * n400 + 100 * n100 + 4 * n4 + n1 + 1) + (d3 - 365 * n1) = d0 ∧
    0 ≤ d3 - 365 * n1 ∧
    d3 - 365 * n1 <
      (if isLeap (400 * n400 + 100 * n100 + 4 * n4 + n1 + 1) = true then 366 else 365) := by
  have h1 : 0 ≤ d1 ∧ d1 < 146097 ∧ d0 = 146097 * n400 + d1 := by omega
  have h2 : 0 ≤ q100 ∧ q100 ≤ 4 ∧ 36524 * q100 ≤ d1 ∧ d1 < 36524 * q100 + 36524 := by omega
  have h3 : 0 ≤ n100 ∧ n100 ≤ 3 ∧ 36524 * n100 ≤ d1 ∧
      (n100 < 3 → d1 < 36524 * n100 + 36524) := by omega
  have h4 : 0 ≤ n4 ∧ n4 ≤ 24 ∧ 1461 * n4 ≤ d2 ∧ d2 < 1461 * n4 + 1461 := by omega
  have h5 : 0 ≤ q1 ∧ q1 ≤ 4 ∧ 365 * q1 ≤ d3 ∧ d3 < 365 * q1 + 365 := by omega
  have h6 : 0 ≤ n1 ∧ n1 ≤ 3 ∧ 365 * n1 ≤ d3 ∧ (n1 < 3 → d3 < 365 * n1 + 365) := by omega
  have hy4 : (400 * n400 + 100 * n100 + 4 * n4 + n1 + 1 - 1) / 4 = 100 * n400 + 25 * n100 + n4 := by
    omega
  have hy100 : (400 * n400 + 100 * n100 + 4 * n4 + n1 + 1 - 1) / 100 = 4 * n400 + n100 := by
    omega
  have hy400 : (400 * n400 + 100 * n100 + 4 * n4 + n1 + 1 - 1) / 400 = n400 := by
    omega
  simp only [daysBeforeYear, isLeap]
  rw [hy4, hy100, hy400]
  refine ⟨by omega, by omega, ?_⟩
  by_cases hl4 : (400 * n400 + 100 * n100 + 4 * n4 + n1 + 1) % 4 = 0
  · by_cases hl100 : (400 * n400 + 100 * n100 + 4 * n4 + n1 + 1) % 100 = 0
    · by_cases hl400 : (400 * n400 + 100 * n100 + 4 * n4 + n1 + 1) % 400 = 0
      · simp [hl4, hl100, hl400]
        omega
      · simp [hl4, hl100, hl400]
        omega
    · simp [hl4, hl100]
      omega
  · simp [hl4]
    omega

theorem yearDay_spec (z : Int) :
    daysBeforeYear (yearDay z).1 + (yearDay z).2 - daysBeforeYear 1970 = z ∧
    0 ≤ (yearDay z).2 ∧
    (yearDay z).2 < (if isLeap (yearDay z).1 = true then 366 else 365) := by
  have hc := cycles (z + 719162) _ _ _ _ _ _ _ _ _ rfl rfl rfl rfl rfl rfl rfl rfl rfl
  have h70 : daysBeforeYear 1970 = 719162 := by decide
  refine ⟨?_, hc.2.1, hc.2.2⟩
  have h1 := hc.1
  rw [h70]
  simp only [yearDay]
  omega

theorem daysBeforeMonth_values (y : Int) :
    daysBeforeMonth y 1 = 0 ∧
    daysBeforeMonth y 2 = 31 ∧
    daysBeforeMonth y 3 = 31 + daysInMonth y 2 ∧
    daysBeforeMonth y 4 = 62 + daysInMonth y 2 ∧
    daysBeforeMonth y 5 = 92 + daysInMonth y 2 ∧
    daysBeforeMonth y 6 = 123 + daysInMonth y 2 ∧
    daysBeforeMonth y 7 = 153 + daysInMonth y 2 ∧
    daysBeforeMonth y 8 = 184 + daysInMonth y 2 ∧
    daysBeforeMonth y 9 = 215 + daysInMonth y 2 ∧
    daysBeforeMonth y 10 = 245 + daysInMonth y 2 ∧
    daysBeforeMonth y 11 = 276 + daysInMonth y 2 ∧
    daysBeforeMonth y 12 = 306 + daysInMonth y 2 := by
  refine ⟨?_, ?_, ?_, ?_, ?_, ?_, ?_, ?_, ?_, ?_, ?_, ?_⟩ <;>
    simp [daysBeforeMonth, List.range_succ, daysInMonth] <;> omega

theorem monthDay_spec (y yday : Int) (h0 : 0 ≤ yday)
    (h1 : yday < (if isLeap y = true then 366 else 365)) :
    1 ≤ (monthDay (isLeap y) yday).1 ∧ (monthDay (isLeap y) yday).1 ≤ 12 ∧
    1 ≤ (monthDay (isLeap y) yday).2 ∧
    (monthDay (isLeap y) yday).2 ≤ daysInMonth y (monthDay (isLeap y) yday).1 ∧
    daysBeforeMonth y (monthDay (isLeap y) yday).1 + ((monthDay (isLeap y) yday).2 - 1) = yday := by
  obtain ⟨v1, v2, v3, v4, v5, v6, v7, v8, v9, v10, v11, v12⟩ := daysBeforeMonth_values y
  have hfeb : daysInMonth y 2 = if isLeap y = true then 29 else 28 := by simp [daysInMonth]
  cases hl : isLeap y
  · simp only [hl, Bool.false_eq_true, if_false, false_and] at h1 hfeb ⊢
    unfold monthDay
    simp only [Bool.false_eq_true, false_and, if_false]
    generalize hm : yday / 31 = month
    have hmb : 0 ≤ month ∧ month ≤ 11 := by omega
    obtain ⟨hm0, hm11⟩ := hmb
    interval_cases month <;> simp only [daysBefore] <;> norm_num <;>
      split <;> simp [daysInMonth, hl, v1, v2, v3, v4, v5, v6, v7, v8, v9, v10, v11, v12, hfeb] <;>
      omega
  · simp only [hl, if_true] at h1 hfeb ⊢
    unfold monthDay
    by_cases h59 : yday = 59
    · subst h59
      simp [daysInMonth, hl, v2]
    · simp only [true_and, h59, if_false]
      generalize hday : (if yday > 59 then yday - 1 else yday) = day
      have hdb : 0 ≤ day ∧ day < 365 ∧ (yday < 59 → day = yday) ∧ (59 < yday → day = yday - 1) := by
        split at hday <;> omega
      generalize hm : day / 31 = month
      have hmb : 0 ≤ month ∧ month ≤ 11 := by omega
      obtain ⟨hm0, hm11⟩ := hmb
      interval_cases month <;> simp only [daysBefore] <;> norm_num <;>
        split <;>
        simp [daysInMonth, hl, v1, v2, v3, v4, v5, v6, v7, v8, v9, v10, v11, v12, hfeb] <;>
        omega

end time

/-! ## The file title of a captured request -/

namespace time

theorem absDate_spec (z : Int) :
    1 ≤ (absDate z).2.1 ∧ (absDate z).2.1 ≤ 12 ∧ 1 ≤ (absDate z).2.2 ∧
    (absDate z).2.2 ≤ daysInMonth (absDate z).1 (absDate z).2.1 ∧
    dayNumber (absDate z).1 (absDate z).2.1 (absDate z).2.2 = z := by
  obtain ⟨hy, h0, h1⟩ := yearDay_spec z
  obtain ⟨m1, m2, m3, m4, m5⟩ := monthDay_spec (yearDay z).1 (yearDay z).2 h0 h1
  refine ⟨m1, m2, m3, m4, ?_⟩
  simp only [absDate, dayNumber] at m5 ⊢
  omega

theorem fixedDigits_length (width n : Nat) : (fixedDigits width n).length = width := by
  induction width generalizing n with
  | zero => rfl
  | succ w ih => simp [fixedDigits, ih]

theorem digitChar_isDigit (n : Nat) : (digitChar n).isDigit = true := by
  have h : n % 10 < 10 := Nat.mod_lt n (by decide)
  unfold digitChar
  generalize n % 10 = k at h
  interval_cases k <;> decide

theorem fixedDigits_isDigit (width n : Nat) : ∀ c ∈ fixedDigits width n, c.isDigit = true := by
  induction width generalizing n with
  | zero => simp [fixedDigits]
  | succ w ih =>
    intro c hc
    simp only [fixedDigits, List.mem_append, List.mem_singleton] at hc
    rcases hc with hc | hc
    · exact ih (n / 10) c hc
    · rw [hc]
      exact digitChar_isDigit n

theorem appendInt_of_nonneg (x : Int) (width : Nat) (h0 : 0 ≤ x) (h1 : x < 10 ^ width) :
    appendInt x width = fixedDigits width x.toNat := by
  have hneg : ¬ x < 0 := by omega
  have hnat : x.natAbs = x.toNat := by omega
  have hlt : x.toNat < 10 ^ width := by
    have h2 : (x.toNat : Int) < ((10 ^ width : Nat) : Int) := by
      rw [Int.toNat_of_nonneg h0]
      exact_mod_cast h1
    exact_mod_cast h2
  simp [appendInt, hneg, hnat, zeroPad, hlt]

end time

namespace capture

open time

theorem GetFileTitle_congr (r q : CapturedRequest) (hm : q.Method = r.Method)
    (hs : q.Timestamp.sec = r.Timestamp.sec) (hn : q.Timestamp.nsec = r.Timestamp.nsec) :
    q.GetFileTitle = r.GetFileTitle := by
  have hutc : q.Timestamp.UTC = r.Timestamp.UTC := by
    rcases r with ⟨_, _, _, _, ⟨s1, n1, p1, l1⟩, _, _⟩
    rcases q with ⟨_, _, _, _, ⟨s2, n2, p2, l2⟩, _, _⟩
    simp only at hs hn
    subst hs hn
    rfl
  simp only [CapturedRequest.GetFileTitle, hutc, hm, Time.Nanosecond, hn]

/-- C10: the file title is the UTC date of the timestamp as YYYY-MM-DD (the year
zero-padded to four digits, which are all its digits for the years 0 to 9999,
the month and the day zero-padded to two), then `T`, the UTC time as HHMMSS, a
dot, the nanosecond within the second as exactly nine zero-padded digits, a dot,
and the method unchanged. Only the instant and the method matter. At 12344310923
ms after the epoch with method `M123` it is `1970-05-23T205830.923000000.M123`. -/
theorem GetFileTitle_layout (r : CapturedRequest) :
    (∃ year month day hour minute second : Int,
      (1 ≤ month ∧ month ≤ 12 ∧ 1 ≤ day ∧ day ≤ daysInMonth year month ∧
        0 ≤ hour ∧ hour < 24 ∧ 0 ≤ minute ∧ minute < 60 ∧ 0 ≤ second ∧ second < 60 ∧
        dayNumber year month day * 86400 + hour * 3600 + minute * 60 + second =
          r.Timestamp.sec) ∧
      r.GetFileTitle = String.mk (appendInt year 4 ++ '-' :: fixedDigits 2 month.toNat ++
        '-' :: fixedDigits 2 day.toNat ++ 'T' :: fixedDigits 2 hour.toNat ++
        fixedDigits 2 minute.toNat ++ fixedDigits 2 second.toNat ++
        '.' :: fixedDigits 9 r.Timestamp.nsec ++ '.' :: r.Method.toList) ∧
      (0 ≤ year → year < 10000 → appendInt year 4 = fixedDigits 4 year.toNat)) ∧
    (∀ (width n : Nat), (fixedDigits width n).length = width ∧
      ∀ c ∈ fixedDigits width n, c.isDigit = true) ∧
    (∀ q : CapturedRequest, q.Method = r.Method → q.Timestamp.sec = r.Timestamp.sec →
      q.Timestamp.nsec = r.Timestamp.nsec → q.GetFileTitle = r.GetFileTitle) ∧
    (∀ (loc : Location) (host remote url : String) (headers : Option (List (String × List String)))
      (body : List UInt8),
      CapturedRequest.GetFileTitle
        ⟨host, remote, url, "M123", UnixMilli loc 12344310923, headers, body⟩ =
        "1970-05-23T205830.923000000.M123") := by
  refine ⟨?_, fun w n => ⟨fixedDigits_length w n, fixedDigits_isDigit w n⟩,
    fun q hm hs hn => GetFileTitle_congr r q hm hs hn, ?_⟩
  · obtain ⟨m1, m2, d1, d2, hnum⟩ := absDate_spec (r.Timestamp.sec / 86400)
    generalize hdate : absDate (r.Timestamp.sec / 86400) = date at m1 m2 d1 d2 hnum
    obtain ⟨year, month, day⟩ := date
    simp only at m1 m2 d1 d2 hnum
    have hd31 : day ≤ 31 := by
      have : daysInMonth year month ≤ 31 := by
        unfold daysInMonth
        split
        · split <;> omega
        · split <;> omega
      omega
    refine ⟨year, month, day, r.Timestamp.sec % 86400 / 3600,
      r.Timestamp.sec % 86400 % 3600 / 60, r.Timestamp.sec % 86400 % 60,
      ⟨m1, m2, d1, d2, by omega, by omega, by omega, by omega, by omega, by omega, ?_⟩, ?_,
      fun h0 h1 => appendInt_of_nonneg year 4 h0 (by norm_num; omega)⟩
    · rw [hnum]
      omega
    · have hwall : r.Timestamp.UTC.wallSeconds = r.Timestamp.sec := by
        simp [Time.wallSeconds, Time.UTC, time.UTC]
      have hnsec : zeroPad 9 r.Timestamp.nsec = fixedDigits 9 r.Timestamp.nsec := by
        have hlt := r.Timestamp.nsec_lt
        simp [zeroPad, hlt]
      simp only [CapturedRequest.GetFileTitle, Time.Format, fileTitleLayout, List.flatMap_cons,
        List.flatMap_nil, Time.formatChunk, Time.Date, Time.Clock, hwall, hdate,
        sprintf09d, Time.Nanosecond, Int.toNat_ofNat, hnsec]
      rw [appendInt_of_nonneg month 2 (by omega) (by norm_num; omega),
        appendInt_of_nonneg day 2 (by omega) (by norm_num; omega),
        appendInt_of_nonneg _ 2 (by omega) (by norm_num; omega),
        appendInt_of_nonneg _ 2 (by omega) (by norm_num; omega),
        appendInt_of_nonneg _ 2 (by omega) (by norm_num; omega)]
      apply String.ext
      simp [String.append, List.append_assoc]
  · intro loc host remote url headers body
    have hc := GetFileTitle_congr
      ⟨"", "", "", "M123", UnixMilli time.UTC 12344310923, none, []⟩
      ⟨host, remote, url, "M123", UnixMilli loc 12344310923, headers, body⟩ rfl rfl rfl
    rw [hc]
    decide

end capture

/-! ## Scenarios of the test suite, evaluated on the embedding -/

namespace engine

open golang regexp

/-- The scenario of `TestResponseSet_Find`: three rules, the first with the
pattern `^/a$` and the methods PUT, POST, PUT, the second with the pattern
`^/b$`, the third with the pattern `^/a$` and the method WHATEVER. -/
theorem TestResponseSet_Find_scenario :
    (((ResponseSet.zero.AddResponse
        (((ResponseBuilder.zero.SetPathPattern (MustCompile fragmentParse "^/a$")).AddMethod
          ["PUT", "POST", "PUT"]).Build ⟨[]⟩).2).AddResponse
        ((ResponseBuilder.zero.SetPathPattern (MustCompile fragmentParse "^/b$")).Build ⟨[]⟩).2).AddResponse
        (((ResponseBuilder.zero.SetPathPattern (MustCompile fragmentParse "^/a$")).AddMethod
          ["WHATEVER"]).Build ⟨[]⟩).2).Find "" "" = DEFAULT_RESPONSE ∧
    (((ResponseSet.zero.AddResponse
        (((ResponseBuilder.zero.SetPathPattern (MustCompile fragmentParse "^/a$")).AddMethod
          ["PUT", "POST", "PUT"]).Build ⟨[]⟩).2).AddResponse
        ((ResponseBuilder.zero.SetPathPattern (MustCompile fragmentParse "^/b$")).Build ⟨[]⟩).2).AddResponse
        (((ResponseBuilder.zero.SetPathPattern (MustCompile fragmentParse "^/a$")).AddMethod
          ["WHATEVER"]).Build ⟨[]⟩).2).Find "" "/a" = DEFAULT_RESPONSE ∧
    (((ResponseSet.zero.AddResponse
        (((ResponseBuilder.zero.SetPathPattern (MustCompile fragmentParse "^/a$")).AddMethod
          ["PUT", "POST", "PUT"]).Build ⟨[]⟩).2).AddResponse
        ((ResponseBuilder.zero.SetPathPattern (MustCompile fragmentParse "^/b$")).Build ⟨[]⟩).2).AddResponse
        (((ResponseBuilder.zero.SetPathPattern (MustCompile fragmentParse "^/a$")).AddMethod
          ["WHATEVER"]).Build ⟨[]⟩).2).Find "PUT" "/a" =
      (((ResponseBuilder.zero.SetPathPattern (MustCompile fragmentParse "^/a$")).AddMethod
          ["PUT", "POST", "PUT"]).Build ⟨[]⟩).2 ∧
    (((ResponseSet.zero.AddResponse
        (((ResponseBuilder.zero.SetPathPattern (MustCompile fragmentParse "^/a$")).AddMethod
          ["PUT", "POST", "PUT"]).Build ⟨[]⟩).2).AddResponse
        ((ResponseBuilder.zero.SetPathPattern (MustCompile fragmentParse "^/b$")).Build ⟨[]⟩).2).AddResponse
        (((ResponseBuilder.zero.SetPathPattern (MustCompile fragmentParse "^/a$")).AddMethod
          ["WHATEVER"]).Build ⟨[]⟩).2).Find "PUT" "/b" =
      ((ResponseBuilder.zero.SetPathPattern (MustCompile fragmentParse "^/b$")).Build ⟨[]⟩).2 ∧
    (((ResponseSet.zero.AddResponse
        (((ResponseBuilder.zero.SetPathPattern (MustCompile fragmentParse "^/a$")).AddMethod
          ["PUT", "POST", "PUT"]).Build ⟨[]⟩).2).AddResponse
        ((ResponseBuilder.zero.SetPathPattern (MustCompile fragmentParse "^/b$")).Build ⟨[]⟩).2).AddResponse
        (((ResponseBuilder.zero.SetPathPattern (MustCompile fragmentParse "^/a$")).AddMethod
          ["WHATEVER"]).Build ⟨[]⟩).2).Find "WHATEVER" "/a" =
      (((ResponseBuilder.zero.SetPathPattern (MustCompile fragmentParse "^/a$")).AddMethod
          ["WHATEVER"]).Build ⟨[]⟩).2 := by
  decide

/-- The scenario of `TestResponseBuilder_Build`: pattern `a`, methods PUT, POST,
PUT, code 123, content type `type1` and the body `12345`. -/
theorem TestResponseBuilder_Build_scenario :
    ((((((ResponseBuilder.zero.SetPathPattern (MustCompile fragmentParse "a")).AddMethod
        ["PUT", "POST", "PUT"]).SetResponseCode 123).SetContentType "type1").SetBody
        ⟨[[49, 50, 51, 52, 53]]⟩ (some ⟨0, 0, 5⟩)).2.Build
      ((((((ResponseBuilder.zero.SetPathPattern (MustCompile fragmentParse "a")).AddMethod
        ["PUT", "POST", "PUT"]).SetResponseCode 123).SetContentType "type1").SetBody
        ⟨[[49, 50, 51, 52, 53]]⟩ (some ⟨0, 0, 5⟩)).1)) =
      (⟨[[49, 50, 51, 52, 53], [49, 50, 51, 52, 53], [49, 50, 51, 52, 53]]⟩,
        .impl
          { pathPattern := some ⟨"a", .literal 'a'⟩,
            methods := some [("PUT", true), ("POST", true)],
            responseCode := 123, contentType := "type1", body := some ⟨2, 0, 5⟩,
            skipCapture := false }) := by
  decide

/-- The decoding of base64 on the bodies of the tests, and what it rejects. -/
theorem base64_decode_examples :
    base64.decode "AAAA" = .ok [0, 0, 0] ∧
    base64.decode "MTIzNDU=" = .ok [49, 50, 51, 52, 53] ∧
    base64.decode "MQ==" = .ok [49] ∧
    base64.decode "" = .ok [] ∧
    base64.decode "MTIzNDU" = .error .corruptInputError ∧
    base64.decode "MQ=" = .error .corruptInputError ∧
    base64.decode "!" = .error .corruptInputError := by
  decide

/-- What the fragment parser accepts and rejects on the patterns of the tests. -/
theorem fragmentParse_examples :
    fragmentParse "a" = .ok (.literal 'a') ∧
    fragmentParse "^/a$" =
      .ok (.concat (.concat (.concat .beginText (.literal '/')) (.literal 'a')) .endText) ∧
    fragmentParse "[" = .error (.regexpSyntaxError "missing closing ]") ∧
    fragmentParse "a**" = .error (.regexpSyntaxError "invalid nested repetition operator") ∧
    fragmentParse "*" = .error (.regexpSyntaxError "missing argument to repetition operator") ∧
    fragmentParse "(a" = .error (.regexpSyntaxError "missing closing )") ∧
    fragmentParse "a)" = .error (.regexpSyntaxError "unexpected )") := by
  decide

end engine

namespace time

/-- The fuel of `digitCount` is enough: the digits counted hold the number. -/
theorem digitCount_enough (fuel n : Nat) (h : n ≤ fuel) : n < 10 ^ digitCount fuel n := by
  induction fuel generalizing n with
  | zero =>
    have h0 : n = 0 := Nat.le_zero.1 h
    subst h0
    decide
  | succ f ih =>
    unfold digitCount
    by_cases h10 : n < 10
    · simp only [h10, if_true]
      omega
    · simp only [h10, if_false]
      have hq : n / 10 ≤ f := by omega
      have hlt := ih (n / 10) hq
      rw [Nat.pow_succ]
      omega

end time

/-! ## Writing a response -/

namespace engine

open golang regexp

/-- What `WriteBody` writes into a recorder whose header is written: the bytes
it writes into a buffer, appended to the body, and no error. -/
theorem WriteBody_recorder (detect : List UInt8 → String) (resp : Response) (h : Heap)
    (r : http.Recorder) (hw : r.wroteHeader = true) :
    resp.WriteBody h (http.recorder detect).toWriter r =
      ({ r with Body := r.Body ++ (resp.WriteBody h bufferWriter []).1 }, none) := by
  cases resp with
  | defaultResponse =>
    simp [Response.WriteBody, http.recorder, http.ResponseWriter.toWriter, http.Recorder.Write,
      hw, bufferWriter]
  | impl imp =>
    cases hb : imp.body with
    | none =>
      simp [Response.WriteBody, responseImpl.WriteBody, hb]
    | some b =>
      simp [Response.WriteBody, responseImpl.WriteBody, hb, http.recorder,
        http.ResponseWriter.toWriter, http.Recorder.Write, hw, bufferWriter]

/-- C18 refuted: `Build` keeps the code 99, and so does a rule with the return
code 99; for this response the `WriteHeader` of the recorder panics, as that of
the server does, so `WriteResponse` does not return: no status is sent and the
body `12345` of the rule is not written. -/
theorem WriteResponse_panics_on_code_99 :
    ((ResponseBuilder.zero.SetResponseCode 99).Build ⟨[]⟩).2.ResponseCode = 99 ∧
    WriteResponse ((ResponseBuilder.zero.SetResponseCode 99).Build ⟨[]⟩).2 ⟨[]⟩
        (http.recorder (fun _ => "")) http.NewRecorder =
      .panics "invalid WriteHeader code 99" ∧
    (match NewResponseFromConfig fragmentParse ⟨[]⟩ ⟨"", [], "", "MTIzNDU=", false, 99⟩ with
      | .error _ => none
      | .ok (h2, resp) =>
        some (resp.ResponseCode, (resp.WriteBody h2 bufferWriter []).1,
          WriteResponse resp h2 (http.recorder (fun _ => "")) http.NewRecorder)) =
      some (99, stringBytes "12345", .panics "invalid WriteHeader code 99") := by
  refine ⟨by decide, by decide, by decide⟩

/-- C18, as the code has it: `WriteResponse` adds the header `Content-Type`
exactly when the content type is not empty and then calls `WriteHeader` with the
status code; if that call panics `WriteResponse` panics and writes no body, and
otherwise it writes the body through `WriteBody` and returns its error. The
recorder of the library, like the response writer of the server, panics exactly
for a code below 100 or above 999: for a code from 100 to 999 a new recorder
ends with that code, with `Content-Type` alone in its header if the content type
is not empty and with an empty header otherwise, with the bytes of the body, and
no error is returned. The default response shows 200, `application/json` and the
two bytes of an empty object; a response built with the code 123 and nothing
else shows 123, no content type and no body. -/
theorem WriteResponse_calls {σ : Type} (resp : Response) (h : Heap)
    (rw : http.ResponseWriter σ) (s : σ) (detect : List UInt8 → String) :
    (resp.ContentType ≠ "" →
      WriteResponse resp h rw s =
        (rw.WriteHeader (rw.HeaderAdd s "Content-Type" resp.ContentType) resp.ResponseCode).map
          (fun s2 => resp.WriteBody h rw.toWriter s2)) ∧
    (resp.ContentType = "" →
      WriteResponse resp h rw s =
        (rw.WriteHeader s resp.ResponseCode).map (fun s2 => resp.WriteBody h rw.toWriter s2)) ∧
    (100 ≤ resp.ResponseCode ∧ resp.ResponseCode ≤ 999 →
      WriteResponse resp h (http.recorder detect) http.NewRecorder =
        .returns
          (⟨resp.ResponseCode, true,
            if resp.ContentType ≠ "" then [("Content-Type", [resp.ContentType])] else [],
            (resp.WriteBody h bufferWriter []).1⟩, none)) ∧
    (resp.ResponseCode < 100 ∨ 999 < resp.ResponseCode →
      WriteResponse resp h (http.recorder detect) http.NewRecorder =
        .panics (http.invalidWriteHeaderCode resp.ResponseCode)) ∧
    (WriteResponse DEFAULT_RESPONSE h (http.recorder detect) http.NewRecorder =
      .returns (⟨200, true, [("Content-Type", ["application/json"])],
        stringBytes "\x7b\x7d"⟩, none)) ∧
    (WriteResponse ((ResponseBuilder.zero.SetResponseCode 123).Build h).2
        ((ResponseBuilder.zero.SetResponseCode 123).Build h).1 (http.recorder detect)
        http.NewRecorder =
      .returns (⟨123, true, [], []⟩, none)) := by
  have hrec : ∀ (r : Response) (hp : Heap), 100 ≤ r.ResponseCode ∧ r.ResponseCode ≤ 999 →
      WriteResponse r hp (http.recorder detect) http.NewRecorder =
        .returns
          (⟨r.ResponseCode, true,
            if r.ContentType ≠ "" then [("Content-Type", [r.ContentType])] else [],
            (r.WriteBody hp bufferWriter []).1⟩, none) := by
    intro r hp hcode
    have hchk : http.checkWriteHeaderCode r.ResponseCode = true := by
      simp only [http.checkWriteHeaderCode, Bool.not_eq_true', Bool.or_eq_false_iff,
        decide_eq_false_iff_not]
      omega
    by_cases hct : r.ContentType = ""
    · simp only [WriteResponse, hct, ne_eq, not_true_eq_false, if_false, http.recorder,
        http.Recorder.WriteHeader, http.NewRecorder, hchk, Bool.not_true, Bool.false_eq_true]
      have hb := WriteBody_recorder detect r hp ⟨r.ResponseCode, true, [], []⟩ rfl
      simp only [http.recorder] at hb
      rw [hb]
      simp
    · simp only [WriteResponse, hct, ne_eq, not_false_eq_true, if_true, http.recorder,
        http.Recorder.WriteHeader, http.NewRecorder, hchk, Bool.not_true, Bool.false_eq_true,
        if_false, http.headerAdd]
      have hb := WriteBody_recorder detect r hp
        ⟨r.ResponseCode, true, [("Content-Type", [r.ContentType])], []⟩ rfl
      simp only [http.recorder] at hb
      rw [hb]
      simp
  refine ⟨?_, ?_, hrec resp h, ?_, ?_, ?_⟩
  · intro hct
    simp only [WriteResponse, hct, ne_eq, not_false_eq_true, if_true]
    cases rw.WriteHeader (rw.HeaderAdd s "Content-Type" resp.ContentType) resp.ResponseCode <;> rfl
  · intro hct
    simp only [WriteResponse, hct, ne_eq, not_true_eq_false, if_false]
    cases rw.WriteHeader s resp.ResponseCode <;> rfl
  · intro hcode
    have hchk : http.checkWriteHeaderCode resp.ResponseCode = false := by
      simp only [http.checkWriteHeaderCode, Bool.not_eq_false', Bool.or_eq_true,
        decide_eq_true_eq]
      omega
    by_cases hct : resp.ContentType = "" <;>
      simp [WriteResponse, hct, http.recorder, http.Recorder.WriteHeader, http.NewRecorder, hchk]
  · have hd := hrec DEFAULT_RESPONSE h (by decide)
    rw [hd]
    rfl
  · have h123 : ((ResponseBuilder.zero.SetResponseCode 123).Build h).2.ResponseCode = 123 := by
      rw [Build_eq]
      rfl
    have hd := hrec ((ResponseBuilder.zero.SetResponseCode 123).Build h).2
      ((ResponseBuilder.zero.SetResponseCode 123).Build h).1
      (by rw [h123]; decide)
    rw [hd, Build_eq]
    rfl

end engine
/-! ## Setting the pattern from a string -/

namespace engine

open golang regexp

/-- C20: `SetPathPatternStr` returns no error and stores the compiled pattern,
whose source text is the given string, when the string parses as a regular
expression; otherwise it returns the error and leaves the builder as it was.
The string `a` is stored; `[` is rejected and the pattern of a fresh builder
stays unset. -/
theorem SetPathPatternStr_result (syntaxParse : String → Except GoError Expr)
    (b : ResponseBuilder) (pattern : String) :
    (∀ prog, syntaxParse pattern = .ok prog →
      b.SetPathPatternStr syntaxParse pattern =
        ({ b with pathPattern := some ⟨pattern, prog⟩ }, none) ∧
      (Regexp.String ⟨pattern, prog⟩ = pattern)) ∧
    (∀ err, syntaxParse pattern = .error err →
      b.SetPathPatternStr syntaxParse pattern = (b, some err)) ∧
    ((ResponseBuilder.zero.SetPathPatternStr fragmentParse "a").2 = none ∧
      (ResponseBuilder.zero.SetPathPatternStr fragmentParse "a").1.pathPattern.map Regexp.String =
        some "a") ∧
    ((ResponseBuilder.zero.SetPathPatternStr fragmentParse "[").2 ≠ none ∧
      (ResponseBuilder.zero.SetPathPatternStr fragmentParse "[").1.pathPattern = none) := by
  refine ⟨?_, ?_, ?_, ?_⟩
  · intro prog hp
    simp [ResponseBuilder.SetPathPatternStr, Compile, hp, Regexp.String]
  · intro err hp
    simp [ResponseBuilder.SetPathPatternStr, Compile, hp]
  · decide
  · decide

end engine

/-! ## Reading the body of a request -/

namespace io

open golang

theorem readAllLoop_eq (final : GoError) (chunks : List (List UInt8)) :
    ∀ (n : Int) (b : List UInt8) (fuel : Nat), chunks.length < fuel →
      readAllLoop fuel ⟨⟨chunks, final⟩, n⟩ b =
        (b ++ chunks.flatten.take n.toNat,
          if (chunks.flatten.length : Int) < n ∧ final ≠ .EOF then some final else none) := by
  induction chunks with
  | nil =>
    intro n b fuel hf
    cases fuel with
    | zero => omega
    | succ f =>
      by_cases hn : n ≤ 0
      · have h2 : ¬ (0 : Int) < n := by omega
        simp [readAllLoop, LimitedReader.Read, hn, h2]
      · have h2 : (0 : Int) < n := by omega
        by_cases he : final = .EOF
        · simp [readAllLoop, LimitedReader.Read, hn, h2, he]
        · simp [readAllLoop, LimitedReader.Read, hn, h2, he]
  | cons c rest ih =>
    intro n b fuel hf
    cases fuel with
    | zero => omega
    | succ f =>
      simp only [List.length_cons] at hf
      have hfl : ((c :: rest).flatten.length : Int) = c.length + rest.flatten.length := by
        rw [List.flatten_cons, List.length_append, Nat.cast_add]
      by_cases hn : n ≤ 0
      · have h0 : n.toNat = 0 := by omega
        have h2 : ¬ (((c :: rest).flatten.length : Int) < n) := by omega
        simp only [readAllLoop, LimitedReader.Read, hn, if_true, h0, List.take_zero,
          List.append_nil, h2, false_and, if_false]
      · by_cases hc : (c.length : Int) ≤ n
        · have hstep : readAllLoop (f + 1) ⟨⟨c :: rest, final⟩, n⟩ b =
              readAllLoop f ⟨⟨rest, final⟩, n - c.length⟩ (b ++ c) := by
            simp only [readAllLoop, LimitedReader.Read, hn, if_false, hc, if_true]
          rw [hstep, ih (n - c.length) (b ++ c) f (by omega)]
          have hlen : c.length ≤ n.toNat := by omega
          have htake : (c :: rest).flatten.take n.toNat =
              c ++ rest.flatten.take (n - (c.length : Int)).toNat := by
            rw [List.flatten_cons, List.take_append_eq_append_take, List.take_of_length_le hlen]
            congr 2
            omega
          rw [htake, List.append_assoc]
          by_cases hx : ((rest.flatten.length : Int) < n - c.length)
          · have hy : (((c :: rest).flatten.length : Int) < n) := by omega
            simp only [hx, hy, true_and]
          · have hy : ¬ (((c :: rest).flatten.length : Int) < n) := by omega
            simp only [hx, hy, false_and]
        · cases f with
          | zero => omega
          | succ g =>
            have hlt : n.toNat < c.length := by omega
            have htake : (c :: rest).flatten.take n.toNat = c.take n.toNat := by
              rw [List.flatten_cons, List.take_append_of_le_length (Nat.le_of_lt hlt)]
            have hcond : ¬ (((c :: rest).flatten.length : Int) < n) := by omega
            have h00 : (0 : Int) ≤ 0 := Int.le_refl 0
            simp only [readAllLoop, LimitedReader.Read, hn, if_false, hc, h00, if_true, htake,
              hcond, false_and, List.append_nil]

/-- What `ReadAll` gives on a limited reader: the first `n` bytes of the chunks
put together, and the error of the reader below only when the chunks end before
`n` bytes. -/
theorem ReadAll_LimitReader (r : Reader) (n : Int) :
    ReadAll (LimitReader r n) =
      (r.chunks.flatten.take n.toNat,
        if (r.chunks.flatten.length : Int) < n ∧ r.final ≠ .EOF then some r.final else none) := by
  have h := readAllLoop_eq r.final r.chunks n [] (r.chunks.length + 1) (Nat.lt_succ_self _)
  simpa [ReadAll, LimitReader] using h

end io

namespace capture

open golang time

theorem NewFromRequest_no_error (now : Time) (request : http.Request) (maxBody : Int) :
    (NewFromRequest now request maxBody).2 = none := by
  by_cases h : (io.ReadAll (io.LimitReader request.Body maxBody)).2 = none <;>
    simp [NewFromRequest, h]

theorem NewFromRequest_readable (now : Time) (request : http.Request) (maxBody : Int)
    (hread : request.Body.final = .EOF) :
    (NewFromRequest now request maxBody).1.Body =
      request.Body.chunks.flatten.take maxBody.toNat := by
  have hr : io.ReadAll (io.LimitReader request.Body maxBody) =
      (request.Body.chunks.flatten.take maxBody.toNat, none) := by
    rw [io.ReadAll_LimitReader]
    simp [hread]
  simp [NewFromRequest, hr]

/-- C14: for a body that can be read to its end, whatever chunks the reads
deliver it in, and a cap that is not negative, `NewFromRequest` returns no error
and a capture whose body is the first min(length, cap) bytes of the body, so not
longer than the cap. The body `12345` gives `12` with the cap 2 and `12345` with
the cap 10000. -/
theorem NewFromRequest_body (now : Time) (request : http.Request) (maxBody : Int)
    (hread : request.Body.final = .EOF) (hmax : 0 ≤ maxBody) :
    (NewFromRequest now request maxBody).2 = none ∧
    (NewFromRequest now request maxBody).1.Body =
      request.Body.chunks.flatten.take maxBody.toNat ∧
    (NewFromRequest now request maxBody).1.Body.length =
      min request.Body.chunks.flatten.length maxBody.toNat ∧
    ((NewFromRequest now request maxBody).1.Body.length : Int) ≤ maxBody ∧
    (NewFromRequest now { request with Body := io.bytesReader [49, 50, 51, 52, 53] } 2).1.Body =
      [49, 50] ∧
    (NewFromRequest now { request with Body := io.bytesReader [49, 50, 51, 52, 53] } 10000).1.Body =
      [49, 50, 51, 52, 53] ∧
    (NewFromRequest now { request with Body := ⟨[[49, 50], [], [51, 52, 53]], .EOF⟩ } 4).1.Body =
      [49, 50, 51, 52] := by
  have hbody := NewFromRequest_readable now request maxBody hread
  refine ⟨NewFromRequest_no_error now request maxBody, hbody, ?_, ?_, ?_, ?_, ?_⟩
  · rw [hbody, List.length_take, Nat.min_comm]
  · rw [hbody, List.length_take]
    omega
  · rw [NewFromRequest_readable _ _ _ rfl]
    rfl
  · rw [NewFromRequest_readable _ _ _ rfl]
    rfl
  · rw [NewFromRequest_readable _ _ _ rfl]
    rfl

/-- The witness of C14: the body `12345` read through a reader that ends with
`io.EOF`, with the cap 2. -/
theorem NewFromRequest_body_witness :
    (io.bytesReader [49, 50, 51, 52, 53]).final = .EOF ∧ (0 : Int) ≤ 2 ∧
    (NewFromRequest (UnixMilli time.UTC 0)
      ⟨"PUT", ⟨"/path1", "http://host1/path1"⟩, "host1", "192.0.2.1:1234",
        some [("a", ["b"])], io.bytesReader [49, 50, 51, 52, 53]⟩ 2).1.Body = [49, 50] :=
  ⟨rfl, by decide,
    ((NewFromRequest_body (UnixMilli time.UTC 0)
      ⟨"PUT", ⟨"/path1", "http://host1/path1"⟩, "host1", "192.0.2.1:1234",
        some [("a", ["b"])], io.bytesReader [49, 50, 51, 52, 53]⟩ 2 rfl (by decide)).2.1).trans
      (by decide)⟩

end capture

/-! ## Base64 there and back -/

namespace base64

open golang

theorem decodeMap_encodeChar : ∀ v, v < 64 → decodeMap (encodeChar v) = some v := by
  decide

theorem encodeChar_ne_special : ∀ v, v < 64 →
    encodeChar v ≠ '=' ∧ encodeChar v ≠ '\n' ∧ encodeChar v ≠ '\r' := by
  decide

theorem ofNat_eq (x : UInt8) (n : Nat) (h : n % 256 = x.toNat) : UInt8.ofNat n = x := by
  apply UInt8.eq_of_val_eq
  apply Fin.ext
  exact h

theorem quantumBytes_three (a b c : UInt8) :
    quantumBytes [a.toNat / 4, a.toNat % 4 * 16 + b.toNat / 16,
      b.toNat % 16 * 4 + c.toNat / 64, c.toNat % 64] 3 = [a, b, c] := by
  have ha : a.toNat < 256 := a.val.isLt
  have hb : b.toNat < 256 := b.val.isLt
  have hc : c.toNat < 256 := c.val.isLt
  simp only [quantumBytes, quantumValue, List.getD_cons_zero, List.getD_cons_succ, List.take]
  rw [ofNat_eq a _ (by omega), ofNat_eq b _ (by omega), ofNat_eq c _ (by omega)]

theorem quantumBytes_two (a b : UInt8) :
    quantumBytes [a.toNat / 4, a.toNat % 4 * 16 + b.toNat / 16, b.toNat % 16 * 4] 2 = [a, b] := by
  have ha : a.toNat < 256 := a.val.isLt
  have hb : b.toNat < 256 := b.val.isLt
  simp only [quantumBytes, quantumValue, List.getD_cons_zero, List.getD_cons_succ, List.take,
    List.getD_nil]
  rw [ofNat_eq a _ (by omega), ofNat_eq b _ (by omega)]

theorem quantumBytes_one (a : UInt8) :
    quantumBytes [a.toNat / 4, a.toNat % 4 * 16] 1 = [a] := by
  have ha : a.toNat < 256 := a.val.isLt
  simp only [quantumBytes, quantumValue, List.getD_cons_zero, List.getD_cons_succ, List.take,
    List.getD_nil]
  rw [ofNat_eq a _ (by omega)]

theorem decodeFrom_digit0 (v : Nat) (hv : v < 64) (t : List Char) :
    decodeFrom (encodeChar v :: t) [] = decodeFrom t [v] := by
  simp [decodeFrom, decodeMap_encodeChar v hv]

theorem decodeFrom_digit1 (v : Nat) (hv : v < 64) (t : List Char) (a : Nat) :
    decodeFrom (encodeChar v :: t) [a] = decodeFrom t [a, v] := by
  simp [decodeFrom, decodeMap_encodeChar v hv]

theorem decodeFrom_digit2 (v : Nat) (hv : v < 64) (t : List Char) (a b : Nat) :
    decodeFrom (encodeChar v :: t) [a, b] = decodeFrom t [a, b, v] := by
  simp [decodeFrom, decodeMap_encodeChar v hv]

theorem decodeFrom_digit3 (v : Nat) (hv : v < 64) (t : List Char) (a b c : Nat) :
    decodeFrom (encodeChar v :: t) [a, b, c] =
      match decodeFrom t [] with
      | .error e => .error e
      | .ok rest => .ok (quantumBytes [a, b, c, v] 3 ++ rest) := by
  simp only [decodeFrom, decodeMap_encodeChar v hv]
  cases decodeFrom t [] <;> rfl

theorem decodeMap_pad : decodeMap '=' = none := by decide

theorem decodeFrom_pad2 (a b : Nat) :
    decodeFrom ['=', '='] [a, b] = .ok (quantumBytes [a, b] 1) := by
  simp [decodeFrom, decodeMap_pad, skipNewlines]

theorem decodeFrom_pad1 (a b c : Nat) :
    decodeFrom ['='] [a, b, c] = .ok (quantumBytes [a, b, c] 2) := by
  simp [decodeFrom, decodeMap_pad, skipNewlines]

/-- Decoding what `encode` gives returns the bytes. -/
theorem decode_encode (src : List UInt8) : decodeFrom (encode src) [] = .ok src := by
  induction src using encode.induct with
  | case1 => rfl
  | case2 a =>
    have ha : a.toNat < 256 := a.val.isLt
    rw [encode, decodeFrom_digit0 _ (by omega), decodeFrom_digit1 _ (by omega),
      decodeFrom_pad2, quantumBytes_one]
  | case3 a b =>
    have ha : a.toNat < 256 := a.val.isLt
    have hb : b.toNat < 256 := b.val.isLt
    rw [encode, decodeFrom_digit0 _ (by omega), decodeFrom_digit1 _ (by omega),
      decodeFrom_digit2 _ (by omega), decodeFrom_pad1, quantumBytes_two]
  | case4 a b c rest ih =>
    have ha : a.toNat < 256 := a.val.isLt
    have hb : b.toNat < 256 := b.val.isLt
    have hc : c.toNat < 256 := c.val.isLt
    rw [encode, decodeFrom_digit0 _ (by omega), decodeFrom_digit1 _ (by omega),
      decodeFrom_digit2 _ (by omega), decodeFrom_digit3 _ (by omega), ih, quantumBytes_three]
    rfl

theorem decode_EncodeToString (src : List UInt8) : decode (EncodeToString src) = .ok src :=
  decode_encode src

end base64

/-! ## Handling a request -/

namespace os

theorem lookup_setFile_same (files : List (String × List UInt8)) (name : String)
    (content : List UInt8) : (setFile files name content).lookup name = some content := by
  induction files with
  | nil => simp [setFile, List.lookup]
  | cons f rest ih =>
    obtain ⟨n, c⟩ := f
    by_cases h : n = name
    · simp [setFile, h, List.lookup]
    · have h2 : (name == n) = false := by simpa using fun h3 => h h3.symm
      simp [setFile, h, List.lookup, h2, ih]

theorem lookup_setFile_other (files : List (String × List UInt8)) (name other : String)
    (content : List UInt8) (hne : other ≠ name) :
    (setFile files name content).lookup other = files.lookup other := by
  induction files with
  | nil =>
    have h2 : (other == name) = false := by simpa using hne
    simp [setFile, List.lookup, h2]
  | cons f rest ih =>
    obtain ⟨n, c⟩ := f
    by_cases h : n = name
    · subst h
      have h2 : (other == n) = false := by simpa using hne
      simp [setFile, List.lookup, h2]
    · cases h3 : (other == n) <;> simp [setFile, h, List.lookup, h3, ih]

end os

namespace capture

open golang time

/-- The steps of `SaveTo` on the file `name`. -/
theorem SaveTo_eq (r : CapturedRequest) (parentDir : String) (d : os.Disk) :
    r.SaveTo parentDir d =
      match d.createErrors.lookup (path.Join parentDir r.GetFileTitle) with
      | some err => (d, some err)
      | none =>
        match r.MarshalIndent " " " " with
        | .error err =>
          ({ d with files := (os.setFile d.files (path.Join parentDir r.GetFileTitle) []) },
            some err)
        | .ok data =>
          match d.writeErrors.lookup (path.Join parentDir r.GetFileTitle) with
          | some err =>
            ({ d with files := (os.setFile d.files (path.Join parentDir r.GetFileTitle) []) },
              some err)
          | none =>
            ({ d with files := (os.setFile
                (os.setFile d.files (path.Join parentDir r.GetFileTitle) [])
                (path.Join parentDir r.GetFileTitle)
                (((os.setFile d.files (path.Join parentDir r.GetFileTitle) []).lookup
                  (path.Join parentDir r.GetFileTitle)).getD [] ++ stringBytes data)) },
              d.closeErrors.lookup (path.Join parentDir r.GetFileTitle)) := by
  unfold CapturedRequest.SaveTo
  generalize path.Join parentDir r.GetFileTitle = name
  unfold os.Create CapturedRequest.Save
  generalize r.MarshalIndent " " " " = m
  cases hc : d.createErrors.lookup name with
  | some err => rfl
  | none =>
    cases m with
    | error err => rfl
    | ok data =>
      simp only [os.fileWriter, os.Close]
      cases hw : d.writeErrors.lookup name <;> simp [hw]

/-- What `SaveTo` leaves on the disk: only the file of the capture can change. -/
theorem SaveTo_other_files (r : CapturedRequest) (parentDir : String) (d : os.Disk)
    (other : String) (hne : other ≠ path.Join parentDir r.GetFileTitle) :
    (r.SaveTo parentDir d).1.files.lookup other = d.files.lookup other := by
  rw [SaveTo_eq]
  generalize path.Join parentDir r.GetFileTitle = name at hne ⊢
  generalize r.MarshalIndent " " " " = m
  cases d.createErrors.lookup name with
  | some err => rfl
  | none =>
    cases m with
    | error err => exact os.lookup_setFile_other _ _ _ _ hne
    | ok data =>
      cases d.writeErrors.lookup name with
      | some err => exact os.lookup_setFile_other _ _ _ _ hne
      | none =>
        simp only []
        rw [os.lookup_setFile_other _ _ _ _ hne, os.lookup_setFile_other _ _ _ _ hne]

/-- The file of the capture is there after `SaveTo` when `os.Create` does not
fail. -/
theorem SaveTo_creates (r : CapturedRequest) (parentDir : String) (d : os.Disk)
    (hc : d.createErrors.lookup (path.Join parentDir r.GetFileTitle) = none) :
    ((r.SaveTo parentDir d).1.files.lookup (path.Join parentDir r.GetFileTitle)).isSome = true := by
  rw [SaveTo_eq]
  generalize path.Join parentDir r.GetFileTitle = name at hc ⊢
  generalize r.MarshalIndent " " " " = m
  rw [hc]
  cases m with
  | error err => simp only [os.lookup_setFile_same, Option.isSome_some]
  | ok data =>
    cases d.writeErrors.lookup name with
    | some err => simp only [os.lookup_setFile_same, Option.isSome_some]
    | none => simp only [os.lookup_setFile_same, Option.isSome_some]

/-- The file of the capture holds the document after `SaveTo` when neither
`os.Create` nor `Write` fails. -/
theorem SaveTo_content (r : CapturedRequest) (parentDir : String) (d : os.Disk) (data : String)
    (hm : r.MarshalIndent " " " " = .ok data)
    (hc : d.createErrors.lookup (path.Join parentDir r.GetFileTitle) = none)
    (hw : d.writeErrors.lookup (path.Join parentDir r.GetFileTitle) = none) :
    (r.SaveTo parentDir d).1.files.lookup (path.Join parentDir r.GetFileTitle) =
      some (stringBytes data) := by
  rw [SaveTo_eq, hm]
  generalize path.Join parentDir r.GetFileTitle = name at hc hw ⊢
  rw [hc, hw]
  simp only [os.lookup_setFile_same, Option.getD_some, List.nil_append]

end capture
/-! ## The responses of the engine -/

namespace engine

open golang regexp

theorem frame_weaken (h1 h2 : Heap) (mutable : List Nat) (hf : Heap.frame h1 h2 []) :
    Heap.frame h1 h2 mutable :=
  ⟨hf.1, fun k hk _ => hf.2 k hk (List.not_mem_nil k)⟩

theorem frame_trans (h1 h2 h3 : Heap) (hf1 : Heap.frame h1 h2 []) (hf2 : Heap.frame h2 h3 []) :
    Heap.frame h1 h3 [] :=
  ⟨Nat.le_trans hf1.1 hf2.1, fun k hk hm =>
    (hf2.2 k (Nat.lt_of_lt_of_le hk hf1.1) hm).trans (hf1.2 k hk hm)⟩

theorem alloc_frame (h : Heap) (bs : List UInt8) : Heap.frame h (h.alloc bs).1 [] :=
  ⟨by simp [Heap.alloc], fun k hk _ => getD_alloc_old h.arrays bs k hk⟩

theorem appendToNil_frame (h : Heap) (b : Bytes) : Heap.frame h (appendToNil h b).1 [] := by
  cases b with
  | none => exact frame_refl h []
  | some s =>
    by_cases h0 : s.len = 0
    · simp only [appendToNil, h0, if_true]
      exact frame_refl h []
    · simp only [appendToNil, h0, if_false]
      exact alloc_frame h _

/-- Building a response allocates and changes no array of the heap. -/
theorem NewResponseFromConfig_frame (syntaxParse : String → Except GoError Expr) (h : Heap)
    (cfg : config.ResponseConfig) (h2 : Heap) (resp : Response)
    (hok : NewResponseFromConfig syntaxParse h cfg = .ok (h2, resp)) : Heap.frame h h2 [] := by
  rw [NewResponseFromConfig_eq] at hok
  have hbuild : ∀ (hb : Heap) (b : ResponseBuilder), Heap.frame hb (b.Build hb).1 [] := by
    intro hb b
    rw [Build_eq]
    exact appendToNil_frame hb b.body
  have key : ∀ (pat : Option Regexp),
      (match (if cfg.Body ≠ "" then
            match base64.decode cfg.Body with
            | .error e => .error e
            | .ok bs => .ok (appendToNil (h.alloc bs).1 (some (h.alloc bs).2))
          else .ok (h, none) : Except GoError (Heap × Bytes)) with
        | .error e => .error e
        | .ok hb => .ok (ResponseBuilder.Build hb.1
            { pathPattern := pat, methods := cfg.Methods, responseCode := cfg.ReturnCode,
              contentType := cfg.ContentType, body := hb.2, skipCapture := cfg.SkipCapture })) =
        (.ok (h2, resp) : Except GoError (Heap × Response)) →
      Heap.frame h h2 [] := by
    intro pat hk
    by_cases hb0 : cfg.Body = ""
    · simp only [hb0, ne_eq, not_true_eq_false, if_false] at hk
      injection hk with hk
      have h1 := hbuild h ⟨pat, cfg.Methods, cfg.ReturnCode, cfg.ContentType, none,
        cfg.SkipCapture⟩
      rw [hk] at h1
      exact h1
    · cases hd : base64.decode cfg.Body with
      | error e => simp [hb0, hd] at hk
      | ok bs =>
        simp only [hb0, ne_eq, not_false_eq_true, if_true, hd] at hk
        injection hk with hk
        have h1 := hbuild (appendToNil (h.alloc bs).1 (some (h.alloc bs).2)).1
          ⟨pat, cfg.Methods, cfg.ReturnCode, cfg.ContentType,
            (appendToNil (h.alloc bs).1 (some (h.alloc bs).2)).2, cfg.SkipCapture⟩
        rw [hk] at h1
        exact frame_trans _ _ _ (frame_trans _ _ _ (alloc_frame h bs)
          (appendToNil_frame _ _)) h1
  by_cases hp : cfg.PathPattern = ""
  · simp only [hp, ne_eq, not_true_eq_false, if_false] at hok
    exact key none (by simpa [hp] using hok)
  · cases hc : syntaxParse cfg.PathPattern with
    | error e => simp [hp, hc] at hok
    | ok prog =>
      simp only [hp, ne_eq, not_false_eq_true, if_true, hc] at hok
      exact key _ hok

end engine

namespace engine

open golang regexp

/-- What a response built from a rule serves, on every heap that keeps the arrays
of the heap it was built on: it matches as the rule says, has the code, the
content type and the skip-capture flag of the rule, and writes the base64
decoding of the body of the rule. -/
theorem NewResponseFromConfig_serves
    (syntaxParse : String → Except GoError Expr) (h : Heap)
    (cfg : config.ResponseConfig) (h2 : Heap) (resp : Response)
    (hok : NewResponseFromConfig syntaxParse h cfg = .ok (h2, resp))
    (h3 : Heap) (hf3 : Heap.frame h2 h3 []) :
    (∀ method path, resp.Match method path = true ↔
      ((cfg.Methods = [] ∨ method ∈ cfg.Methods) ∧
        (cfg.PathPattern = "" ∨
          ∃ prog, syntaxParse cfg.PathPattern = .ok prog ∧ FoundIn prog path))) ∧
    resp.ResponseCode = (if 0 < cfg.ReturnCode then cfg.ReturnCode else 200) ∧
    resp.ContentType = cfg.ContentType ∧
    resp.SkipCapture = cfg.SkipCapture ∧
    (∃ bs : List UInt8, (if cfg.Body = "" then bs = [] else base64.decode cfg.Body = .ok bs) ∧
      ∀ (σ : Type) (w : Writer σ) (s : σ) (buf : List UInt8),
        resp.WriteBody h3 w s = (if bs = [] then (s, none) else w.Write s bs) ∧
        resp.WriteBody h3 bufferWriter buf = (buf ++ bs, none)) := by
  rw [NewResponseFromConfig_eq] at hok
  -- the pattern step
  have hpat : ∃ pat : Option Regexp,
      (if cfg.PathPattern ≠ "" then
          match syntaxParse cfg.PathPattern with
          | .error e => .error e
          | .ok prog => .ok (some ⟨cfg.PathPattern, prog⟩)
        else .ok none : Except GoError (Option Regexp)) = .ok pat ∧
      (cfg.PathPattern = "" → pat = none) ∧
      (cfg.PathPattern ≠ "" →
        ∃ prog, syntaxParse cfg.PathPattern = .ok prog ∧ pat = some ⟨cfg.PathPattern, prog⟩) := by
    by_cases hp : cfg.PathPattern = ""
    · exact ⟨none, by simp [hp], fun _ => rfl, fun hn => absurd hp hn⟩
    · cases hc : syntaxParse cfg.PathPattern with
      | error e => simp [hp, hc] at hok
      | ok prog =>
        exact ⟨some ⟨cfg.PathPattern, prog⟩, by simp [hp], fun he => absurd he hp,
          fun _ => ⟨prog, rfl, rfl⟩⟩
  obtain ⟨pat, hpeq, hpat1, hpat2⟩ := hpat
  rw [hpeq] at hok
  simp only [] at hok
  -- the body step
  have hbody : ∃ (hb : Heap × Bytes) (bs : List UInt8),
      (if cfg.Body ≠ "" then
            match base64.decode cfg.Body with
            | .error e => .error e
            | .ok bs => .ok (appendToNil (h.alloc bs).1 (some (h.alloc bs).2))
          else .ok (h, none) : Except GoError (Heap × Bytes)) = .ok hb ∧
      (if cfg.Body = "" then bs = [] else base64.decode cfg.Body = .ok bs) ∧
      ∀ (b2 : ResponseBuilder), b2.body = hb.2 →
        ∀ (h4 : Heap), Heap.frame (b2.Build hb.1).1 h4 [] →
        ∀ (σ : Type) (w : Writer σ) (s : σ) (buf : List UInt8),
          (b2.Build hb.1).2.WriteBody h4 w s =
              (if bs = [] then (s, none) else w.Write s bs) ∧
          (b2.Build hb.1).2.WriteBody h4 bufferWriter buf = (buf ++ bs, none) := by
    by_cases hb0 : cfg.Body = ""
    · refine ⟨(h, none), [], by simp [hb0], by simp [hb0], ?_⟩
      intro b2 hb2 h4 _ σ w s buf
      simp only at hb2
      rw [Build_eq]
      simp [Response.WriteBody, responseImpl.WriteBody, hb2, appendToNil]
    · cases hd : base64.decode cfg.Body with
      | error e => simp [hb0, hd] at hok
      | ok bs =>
        refine ⟨appendToNil (h.alloc bs).1 (some (h.alloc bs).2), bs, by simp [hb0],
          by simp [hb0], ?_⟩
        intro b2 hb2 h4 hf4 σ w s buf
        have hcore := WriteBody_after_SetBody (h.alloc bs).1 ResponseBuilder.zero
          (some (h.alloc bs).2) (by intro sl hsl; cases hsl; exact alloc_valid h bs)
          (appendToNil (h.alloc bs).1 (some (h.alloc bs).2)).1 (frame_refl _ _)
          b2 hb2 h4 (frame_weaken _ _ _ hf4) w s buf
        rw [alloc_load] at hcore
        exact hcore
  obtain ⟨hb, bs, hbeq, hbs, hwrite⟩ := hbody
  rw [hbeq] at hok
  simp only [] at hok
  injection hok with hok
  have hw := hwrite ⟨pat, cfg.Methods, cfg.ReturnCode, cfg.ContentType, hb.2, cfg.SkipCapture⟩ rfl
  rw [hok] at hw
  simp only at hw
  refine ⟨?_, ?_, ?_, ?_, ⟨bs, hbs, hw h3 hf3⟩⟩
  · intro method path
    rw [Build_eq] at hok
    have hr := (Prod.mk.inj hok).2
    rw [← hr]
    simp only [Response.Match, responseImpl.Match, Bool.and_eq_true]
    rw [MatchMethods_buildMethods cfg.Methods _ rfl method]
    apply and_congr Iff.rfl
    by_cases hp : cfg.PathPattern = ""
    · simp [responseImpl.MatchPath, hpat1 hp, hp]
    · obtain ⟨prog, hprog, hpp⟩ := hpat2 hp
      simp only [responseImpl.MatchPath, hpp, Regexp.Match, hp, false_or, hprog]
      rw [search_iff_FoundIn]
      constructor
      · intro hf
        exact ⟨prog, rfl, hf⟩
      · rintro ⟨prog2, he, hf⟩
        injection he with he
        rw [he]
        exact hf
  · rw [Build_eq] at hok
    rw [← (Prod.mk.inj hok).2]
    rfl
  · rw [Build_eq] at hok
    rw [← (Prod.mk.inj hok).2]
    rfl
  · rw [Build_eq] at hok
    rw [← (Prod.mk.inj hok).2]
    rfl

end engine

namespace engine

open golang regexp

theorem NewResponseFromConfig_error_heap (syntaxParse : String → Except GoError Expr)
    (h1 h2 : Heap) (cfg : config.ResponseConfig) (err : GoError)
    (he : NewResponseFromConfig syntaxParse h1 cfg = .error err) :
    NewResponseFromConfig syntaxParse h2 cfg = .error err := by
  rw [NewResponseFromConfig_eq] at he ⊢
  by_cases hp : cfg.PathPattern = ""
  · by_cases hb : cfg.Body = ""
    · simp [hp, hb] at he
    · cases hd : base64.decode cfg.Body with
      | error e => simpa [hp, hb, hd] using he
      | ok bs => simp [hp, hb, hd] at he
  · cases hc : syntaxParse cfg.PathPattern with
    | error e => simpa [hp, hc] using he
    | ok prog =>
      by_cases hb : cfg.Body = ""
      · simp [hp, hb, hc] at he
      · cases hd : base64.decode cfg.Body with
        | error e => simpa [hp, hb, hc, hd] using he
        | ok bs => simp [hp, hb, hc, hd] at he

theorem NewResponseFromConfig_isOk_heap (syntaxParse : String → Except GoError Expr)
    (h1 h2 : Heap) (cfg : config.ResponseConfig) :
    (NewResponseFromConfig syntaxParse h1 cfg).isOk =
      (NewResponseFromConfig syntaxParse h2 cfg).isOk := by
  cases e1 : NewResponseFromConfig syntaxParse h1 cfg with
  | error err => rw [NewResponseFromConfig_error_heap syntaxParse h1 h2 cfg err e1]
  | ok r1 =>
    cases e2 : NewResponseFromConfig syntaxParse h2 cfg with
    | error err =>
      rw [NewResponseFromConfig_error_heap syntaxParse h2 h1 cfg err e2] at e1
      cases e1
    | ok r2 => rfl

/-- When a rule builds: its pattern is empty or parses, and its body is empty or
decodes. -/
theorem NewResponseFromConfig_isOk_iff (syntaxParse : String → Except GoError Expr)
    (h : Heap) (cfg : config.ResponseConfig) :
    (NewResponseFromConfig syntaxParse h cfg).isOk = true ↔
      ((cfg.PathPattern = "" ∨ ∃ prog, syntaxParse cfg.PathPattern = .ok prog) ∧
        (cfg.Body = "" ∨ ∃ bs, base64.decode cfg.Body = .ok bs)) := by
  rw [NewResponseFromConfig_eq]
  by_cases hp : cfg.PathPattern = ""
  · by_cases hb : cfg.Body = ""
    · simp [hp, hb, Except.isOk, Except.toBool]
    · cases hd : base64.decode cfg.Body <;> simp [hp, hb, hd, Except.isOk, Except.toBool]
  · cases hc : syntaxParse cfg.PathPattern with
    | error e => simp [hp, hc, Except.isOk, Except.toBool]
    | ok prog =>
      by_cases hb : cfg.Body = ""
      · simp [hp, hb, hc, Except.isOk, Except.toBool]
      · cases hd : base64.decode cfg.Body <;> simp [hp, hb, hc, hd, Except.isOk, Except.toBool]

/-- The loop of `initResponses`: the heap keeps its arrays, the responses of the
rules that build are added in the order of the rules, each built on some heap
whose arrays the final heap keeps, and each rule that does not build is logged
with its index. -/
theorem initResponsesLoop_serves (syntaxParse : String → Except GoError Expr)
    (rules : List config.ResponseConfig) (i : Nat) (rs : ResponseSet) (h : Heap)
    (log : zap.Logger) :
    Heap.frame h (initResponsesLoop syntaxParse rules i rs h log).2.1 [] ∧
    (∃ news : List Response,
      (initResponsesLoop syntaxParse rules i rs h log).1.responses = rs.responses ++ news ∧
      List.Forall₂ (fun cfg resp => ∃ h1 h2 : Heap,
          NewResponseFromConfig syntaxParse h1 cfg = .ok (h2, resp) ∧
          Heap.frame h2 (initResponsesLoop syntaxParse rules i rs h log).2.1 [])
        (rules.filter (fun cfg => (NewResponseFromConfig syntaxParse h cfg).isOk)) news) ∧
    (initResponsesLoop syntaxParse rules i rs h log).2.2 =
      log ++ (rules.enumFrom i).filterMap (fun q =>
        match NewResponseFromConfig syntaxParse h q.2 with
        | .ok _ => none
        | .error err => some ⟨.error, "Bad response definition.",
            [.int "index" (q.1 : Int), .error err]⟩) := by
  induction rules generalizing i rs h log with
  | nil =>
    exact ⟨frame_refl h [], ⟨[], by simp [initResponsesLoop], List.Forall₂.nil⟩,
      by simp [initResponsesLoop]⟩
  | cons cfg rest ih =>
    cases hn : NewResponseFromConfig syntaxParse h cfg with
    | error err =>
      obtain ⟨hfr, ⟨news, hresp, hall⟩, hlog⟩ := ih (i + 1) rs h
        (zap.Logger.Error log "Bad response definition." [.int "index" i, .error err])
      have hloop : initResponsesLoop syntaxParse (cfg :: rest) i rs h log =
          initResponsesLoop syntaxParse rest (i + 1) rs h
            (zap.Logger.Error log "Bad response definition." [.int "index" i, .error err]) := by
        simp only [initResponsesLoop, hn]
      rw [hloop]
      refine ⟨hfr, ⟨news, hresp, ?_⟩, ?_⟩
      · have hfilter : (cfg :: rest).filter
            (fun cfg => (NewResponseFromConfig syntaxParse h cfg).isOk) =
            rest.filter (fun cfg => (NewResponseFromConfig syntaxParse h cfg).isOk) := by
          simp [List.filter, hn, Except.isOk, Except.toBool]
        rw [hfilter]
        exact hall
      · rw [hlog, List.enumFrom_cons, List.filterMap_cons]
        simp [hn, zap.Logger.Error]
    | ok r =>
      obtain ⟨h2, resp⟩ := r
      obtain ⟨hfr, ⟨news, hresp, hall⟩, hlog⟩ := ih (i + 1) (rs.AddResponse resp) h2 log
      have hloop : initResponsesLoop syntaxParse (cfg :: rest) i rs h log =
          initResponsesLoop syntaxParse rest (i + 1) (rs.AddResponse resp) h2 log := by
        simp only [initResponsesLoop, hn]
      rw [hloop]
      have hf12 := NewResponseFromConfig_frame syntaxParse h cfg h2 resp hn
      refine ⟨frame_trans _ _ _ hf12 hfr, ⟨resp :: news, ?_, ?_⟩, ?_⟩
      · rw [hresp]
        simp [ResponseSet.AddResponse]
      · have hfilter : (cfg :: rest).filter
            (fun cfg => (NewResponseFromConfig syntaxParse h cfg).isOk) =
            cfg :: rest.filter (fun cfg => (NewResponseFromConfig syntaxParse h2 cfg).isOk) := by
          rw [List.filter_cons]
          simp only [hn, Except.isOk, Except.toBool, if_true]
          congr 1
          exact List.filter_congr
            (fun c _ => NewResponseFromConfig_isOk_heap syntaxParse h h2 c)
        rw [hfilter]
        exact List.Forall₂.cons ⟨h, h2, hn, hfr⟩ hall
      · rw [hlog, List.enumFrom_cons, List.filterMap_cons]
        simp only [hn]
        congr 1
        apply List.filterMap_congr
        intro q _
        cases e1 : NewResponseFromConfig syntaxParse h2 q.2 with
        | error err =>
          rw [NewResponseFromConfig_error_heap syntaxParse h2 h q.2 err e1]
        | ok r1 =>
          cases e2 : NewResponseFromConfig syntaxParse h q.2 with
          | error err =>
            rw [NewResponseFromConfig_error_heap syntaxParse h h2 q.2 err e2] at e1
            cases e1
          | ok r2 => rfl

end engine

namespace engine

open golang regexp

/-- C19: `initResponses` returns no error whatever the rules are and leaves the
configuration as it is. The responses of the engine afterwards are those it had,
followed by one response for each rule that builds (its pattern is empty or
parses and its body is empty or decodes), in the order of the configuration;
each of them is the response `NewResponseFromConfig` returns for its rule, and
on the heap that `initResponses` returns, which keeps every array of the heap it
started on, it matches as its rule says, has the code, the content
type and the skip-capture flag of its rule, and writes the decoded body of its
rule. Each rule that does not build adds no response and one error entry to the
log, with its index and the error. Of the two rules with the patterns `[` and
`^/a$` the second alone gives a response and the first is logged with index 0;
two rules that differ in the body alone give two responses that write `AAA` and
`BBB` in the order of the rules. -/
theorem initResponses_skips_bad_rules (syntaxParse : String → Except GoError Expr)
    (e : Engine) (h : Heap) (log : zap.Logger) :
    (e.initResponses syntaxParse h log).2.2.2 = none ∧
    (e.initResponses syntaxParse h log).1.Config = e.Config ∧
    Heap.frame h (e.initResponses syntaxParse h log).2.1 [] ∧
    (∃ news : List Response,
      (e.initResponses syntaxParse h log).1.Responses.responses =
        e.Responses.responses ++ news ∧
      List.Forall₂ (fun cfg resp =>
          (∃ h1 h2 : Heap, NewResponseFromConfig syntaxParse h1 cfg = .ok (h2, resp) ∧
            Heap.frame h2 (e.initResponses syntaxParse h log).2.1 []) ∧
          (∀ method path, resp.Match method path = true ↔
            ((cfg.Methods = [] ∨ method ∈ cfg.Methods) ∧
              (cfg.PathPattern = "" ∨
                ∃ prog, syntaxParse cfg.PathPattern = .ok prog ∧ FoundIn prog path))) ∧
          resp.ResponseCode = (if 0 < cfg.ReturnCode then cfg.ReturnCode else 200) ∧
          resp.ContentType = cfg.ContentType ∧
          resp.SkipCapture = cfg.SkipCapture ∧
          (∃ bs : List UInt8,
            (if cfg.Body = "" then bs = [] else base64.decode cfg.Body = .ok bs) ∧
            ∀ (σ : Type) (w : Writer σ) (s : σ) (buf : List UInt8),
              resp.WriteBody (e.initResponses syntaxParse h log).2.1 w s =
                (if bs = [] then (s, none) else w.Write s bs) ∧
              resp.WriteBody (e.initResponses syntaxParse h log).2.1 bufferWriter buf =
                (buf ++ bs, none)))
        (e.Config.Responses.filter
          (fun cfg => (NewResponseFromConfig syntaxParse h cfg).isOk)) news) ∧
    (e.initResponses syntaxParse h log).2.2.1 =
      log ++ (e.Config.Responses.enumFrom 0).filterMap (fun q =>
        match NewResponseFromConfig syntaxParse h q.2 with
        | .ok _ => none
        | .error err => some ⟨.error, "Bad response definition.",
            [.int "index" (q.1 : Int), .error err]⟩) ∧
    (∀ (h1 : Heap) (cfg : config.ResponseConfig),
      (NewResponseFromConfig syntaxParse h1 cfg).isOk = true ↔
        ((cfg.PathPattern = "" ∨ ∃ prog, syntaxParse cfg.PathPattern = .ok prog) ∧
          (cfg.Body = "" ∨ ∃ bs, base64.decode cfg.Body = .ok bs))) ∧
    ((Engine.initResponses fragmentParse
        ⟨ResponseSet.zero, ⟨"", "", 0, 0, 0,
          [⟨"[", [], "", "", false, 0⟩, ⟨"^/a$", [], "", "", false, 0⟩]⟩⟩ ⟨[]⟩ []).1.Responses =
      ⟨[((ResponseBuilder.zero.SetPathPattern (MustCompile fragmentParse "^/a$")).Build ⟨[]⟩).2]⟩ ∧
     (Engine.initResponses fragmentParse
        ⟨ResponseSet.zero, ⟨"", "", 0, 0, 0,
          [⟨"[", [], "", "", false, 0⟩, ⟨"^/a$", [], "", "", false, 0⟩]⟩⟩ ⟨[]⟩ []).2.2.1 =
      [⟨.error, "Bad response definition.",
        [.int "index" 0, .error (.regexpSyntaxError "missing closing ]")]⟩]) ∧
    ((Engine.initResponses fragmentParse
        ⟨ResponseSet.zero, ⟨"", "", 0, 0, 0,
          [⟨"", [], "", "QUFB", false, 0⟩, ⟨"", [], "", "QkJC", false, 0⟩]⟩⟩
        ⟨[]⟩ []).1.Responses.responses.map
        (fun resp => (resp.WriteBody
          (Engine.initResponses fragmentParse
            ⟨ResponseSet.zero, ⟨"", "", 0, 0, 0,
              [⟨"", [], "", "QUFB", false, 0⟩, ⟨"", [], "", "QkJC", false, 0⟩]⟩⟩
            ⟨[]⟩ []).2.1 bufferWriter []).1) =
      [stringBytes "AAA", stringBytes "BBB"] ∧
     (Engine.initResponses fragmentParse
        ⟨ResponseSet.zero, ⟨"", "", 0, 0, 0,
          [⟨"", [], "", "QkJC", false, 0⟩, ⟨"", [], "", "QUFB", false, 0⟩]⟩⟩
        ⟨[]⟩ []).1.Responses.responses.map
        (fun resp => (resp.WriteBody
          (Engine.initResponses fragmentParse
            ⟨ResponseSet.zero, ⟨"", "", 0, 0, 0,
              [⟨"", [], "", "QkJC", false, 0⟩, ⟨"", [], "", "QUFB", false, 0⟩]⟩⟩
            ⟨[]⟩ []).2.1 bufferWriter []).1) =
      [stringBytes "BBB", stringBytes "AAA"]) := by
  obtain ⟨hfr, ⟨news, hresp, hall⟩, hlog⟩ :=
    initResponsesLoop_serves syntaxParse e.Config.Responses 0 e.Responses h log
  refine ⟨rfl, rfl, hfr, ⟨news, hresp, ?_⟩, hlog,
    fun h1 cfg => NewResponseFromConfig_isOk_iff syntaxParse h1 cfg, by decide, by decide⟩
  refine List.Forall₂.imp ?_ hall
  rintro cfg resp ⟨h1, h2, hok, hf⟩
  exact ⟨⟨h1, h2, hok, hf⟩, NewResponseFromConfig_serves syntaxParse h1 cfg h2 resp hok _ hf⟩

end engine
/-! ## The document `Save` writes -/

namespace time

/-- The digits `trimZeros` keeps are the digits given without the zeros at their
end: putting zeros back gives the digits, and the last digit kept is not a zero. -/
theorem trimZeros_spec (l : List Char) :
    trimZeros l ++ List.replicate (l.length - (trimZeros l).length) '0' = l ∧
      (trimZeros l).getLast? ≠ some '0' := by
  have hsplit := List.takeWhile_append_dropWhile (fun c => decide (c = '0')) l.reverse
  have htake : List.takeWhile (fun c => decide (c = '0')) l.reverse =
      List.replicate (List.takeWhile (fun c => decide (c = '0')) l.reverse).length '0' := by
    rw [List.eq_replicate_iff]
    refine ⟨rfl, ?_⟩
    intro b hb
    simpa using List.mem_takeWhile_imp hb
  have hlen : l.length = (List.takeWhile (fun c => decide (c = '0')) l.reverse).length +
      (List.dropWhile (fun c => decide (c = '0')) l.reverse).length := by
    rw [← List.length_append, hsplit, List.length_reverse]
  constructor
  · have hl : l = (List.dropWhile (fun c => decide (c = '0')) l.reverse).reverse ++
        (List.takeWhile (fun c => decide (c = '0')) l.reverse).reverse := by
      rw [← List.reverse_append, hsplit, List.reverse_reverse]
    unfold trimZeros
    rw [List.length_reverse]
    have hk : l.length - (List.dropWhile (fun c => decide (c = '0')) l.reverse).length =
        (List.takeWhile (fun c => decide (c = '0')) l.reverse).length := by omega
    rw [hk]
    conv_rhs => rw [hl, htake, List.reverse_replicate]
  · unfold trimZeros
    rw [List.getLast?_reverse]
    have h := List.head?_dropWhile_not (fun c => decide (c = '0')) l.reverse
    intro h0
    rw [h0] at h
    simp at h

end time

namespace capture

open golang time

/-- What `Save` does: nothing is written when the time cannot be marshaled, and
otherwise the indented text of the object of the fields is written. -/
theorem Save_eq {σ : Type} (r : CapturedRequest) (writer : Writer σ) (s : σ) :
    r.Save writer s =
      match r.Timestamp.MarshalJSON with
      | .error err => (s, some err)
      | .ok ts =>
        writer.Write s (stringBytes (String.mk
          (json.render " " " " 0 (.object (r.jsonFields ts))))) := by
  unfold CapturedRequest.Save CapturedRequest.MarshalIndent
  cases r.Timestamp.MarshalJSON <;> rfl

/-- The text of the document: an opening brace, the fields each on a line of its
own after the prefix and the indent, and a closing brace after the prefix. The
fields are `host` and `remote` when they are not empty, then `url`, `Method`,
`timestamp` and `headers`, then `body` when it is not empty. -/
theorem render_jsonFields (r : CapturedRequest) (ts : String) :
    json.render " " " " 0 (.object (r.jsonFields ts)) =
      [Char.ofNat 123] ++ "\n  ".toList ++
        (if r.Host = "" then [] else "\"host\": ".toList ++ json.quote r.Host ++ ",\n  ".toList) ++
        (if r.Remote = "" then []
          else "\"remote\": ".toList ++ json.quote r.Remote ++ ",\n  ".toList) ++
        "\"url\": ".toList ++ json.quote r.URL ++
        ",\n  \"Method\": ".toList ++ json.quote r.Method ++
        ",\n  \"timestamp\": \"".toList ++ ts.toList ++
        "\",\n  \"headers\": ".toList ++ json.render " " " " 1 (json.stringsMap r.Headers) ++
        (if r.Body = [] then []
          else ",\n  \"body\": \"".toList ++ base64.encode r.Body ++ "\"".toList) ++
        "\n ".toList ++ [Char.ofNat 125] := by
  have hb : r.Body.length = 0 ↔ r.Body = [] := List.length_eq_zero
  have q1 : json.quote "host" = "\"host\"".toList := by decide
  have q2 : json.quote "remote" = "\"remote\"".toList := by decide
  have q3 : json.quote "url" = "\"url\"".toList := by decide
  have q4 : json.quote "Method" = "\"Method\"".toList := by decide
  have q5 : json.quote "timestamp" = "\"timestamp\"".toList := by decide
  have q6 : json.quote "headers" = "\"headers\"".toList := by decide
  have q7 : json.quote "body" = "\"body\"".toList := by decide
  have n1 : json.newline " " " " 1 = "\n  ".toList := by decide
  have n0 : json.newline " " " " 0 = "\n ".toList := by decide
  by_cases h1 : r.Host = "" <;> by_cases h2 : r.Remote = "" <;> by_cases h3 : r.Body = [] <;>
    simp [CapturedRequest.jsonFields, h1, h2, h3, hb, json.render, json.renderFields, q1, q2, q3,
      q4, q5, q6, q7, n1, n0, base64.EncodeToString, json.quoteChar]

end capture

namespace time

/-- The hours of a zone offset of less than a day are below 24. -/
theorem zone_hours_lt (offset : Int) (h1 : -86400 < offset) (h2 : offset < 86400) :
    (Int.tdiv offset 60).natAbs / 60 < 24 := by
  have h : (Int.tdiv offset 60).natAbs < 1440 := by
    rcases Int.le_total 0 offset with hpos | hneg
    · rw [Int.tdiv_eq_ediv hpos (by decide)]
      omega
    · have hn : Int.tdiv offset 60 = -(Int.tdiv (-offset) 60) := by
        rw [Int.neg_tdiv, neg_neg]
      rw [hn, Int.tdiv_eq_ediv (by omega) (by decide)]
      omega
  omega

end time

namespace base64

/-- The characters of the digits are those of the standard alphabet. -/
theorem encodeChar_alphabet : ∀ v, v < 64 →
    "ABCDEFGHIJKLMNOPQRSTUVWXYZabcdefghijklmnopqrstuvwxyz0123456789+/".toList[v]? =
      some (encodeChar v) := by
  decide

/-- The text has four characters for every three bytes, the last group padded. -/
theorem encode_length (src : List UInt8) : (encode src).length = 4 * ((src.length + 2) / 3) := by
  induction src using encode.induct with
  | case1 => rfl
  | case2 a => simp [encode]
  | case3 a b => simp [encode]
  | case4 a b c rest ih =>
    rw [encode]
    simp only [List.length_cons, ih]
    omega

/-- Every character of the text is a pad or a character of the alphabet. -/
theorem encodeChar_mem (v : Nat) :
    encodeChar v ∈
      "ABCDEFGHIJKLMNOPQRSTUVWXYZabcdefghijklmnopqrstuvwxyz0123456789+/".toList := by
  by_cases hv : v < 64
  · exact List.mem_iff_getElem?.2 ⟨v, encodeChar_alphabet v hv⟩
  · have h63 : encodeChar v = encodeChar 63 := by
      unfold encodeChar
      have h1 : ¬ v < 26 := by omega
      have h2 : ¬ v < 52 := by omega
      have h3 : ¬ v < 62 := by omega
      have h4 : ¬ v = 62 := by omega
      simp [h1, h2, h3, h4]
    rw [h63]
    decide

theorem encode_mem (src : List UInt8) : ∀ c ∈ encode src,
    c = '=' ∨
      c ∈ "ABCDEFGHIJKLMNOPQRSTUVWXYZabcdefghijklmnopqrstuvwxyz0123456789+/".toList := by
  induction src using encode.induct with
  | case1 => simp [encode]
  | case2 a =>
    intro c hc
    simp only [encode, List.mem_cons, List.mem_singleton, List.not_mem_nil, or_false] at hc
    rcases hc with hc | hc | hc | hc
    · exact Or.inr (hc ▸ encodeChar_mem _)
    · exact Or.inr (hc ▸ encodeChar_mem _)
    · exact Or.inl hc
    · exact Or.inl hc
  | case3 a b =>
    intro c hc
    simp only [encode, List.mem_cons, List.mem_singleton, List.not_mem_nil, or_false] at hc
    rcases hc with hc | hc | hc | hc
    · exact Or.inr (hc ▸ encodeChar_mem _)
    · exact Or.inr (hc ▸ encodeChar_mem _)
    · exact Or.inr (hc ▸ encodeChar_mem _)
    · exact Or.inl hc
  | case4 a b c0 rest ih =>
    intro c hc
    rw [encode] at hc
    simp only [List.mem_cons] at hc
    rcases hc with hc | hc | hc | hc | hc
    · exact Or.inr (hc ▸ encodeChar_mem _)
    · exact Or.inr (hc ▸ encodeChar_mem _)
    · exact Or.inr (hc ▸ encodeChar_mem _)
    · exact Or.inr (hc ▸ encodeChar_mem _)
    · exact ih c hc

end base64

namespace capture

open golang time

/-- The test `TestCapturedRequest_Save`: the request with the body `12345` and
the header `a`, captured and given the time of the test, is saved as the text
the test expects. -/
theorem TestCapturedRequest_Save :
    ({ (NewFromRequest (UnixMilli time.UTC 0)
          ⟨"PUT", ⟨"/path1", "http://host1/path1"⟩, "host1", "192.0.2.1:1234",
            some [("a", ["b"])], io.bytesReader (stringBytes "12345")⟩ 10000).1 with
        Timestamp := (UnixMilli time.UTC 12344310923).UTC } : CapturedRequest).Save
        bufferWriter [] =
      (stringBytes "\x7b\n  \"host\": \"host1\",\n  \"remote\": \"192.0.2.1:1234\",\n  \"url\": \"http://host1/path1\",\n  \"Method\": \"PUT\",\n  \"timestamp\": \"1970-05-23T20:58:30.923Z\",\n  \"headers\": \x7b\n   \"a\": [\n    \"b\"\n   ]\n  \x7d,\n  \"body\": \"MTIzNDU=\"\n \x7d",
        none) := by
  rfl

/-- C11: when the timestamp can be marshaled `Save` writes, in one `Write`, the
bytes of this text: an opening brace, then on lines of their own, each after two
spaces, the fields `"host"` and `"remote"` exactly when their values are not
empty, `"url"`, `"Method"`, `"timestamp"` and `"headers"` always, and `"body"`
exactly when the body is not empty, in this order, each key followed by a colon,
a space and the value, with commas between the fields, and a closing brace on a
line of its own after one space. When the timestamp cannot be marshaled nothing
is written and the error is returned. -/
theorem Save_document_keys {σ : Type} (r : CapturedRequest) (writer : Writer σ) (s : σ) :
    r.Save writer s =
      match r.Timestamp.MarshalJSON with
      | .error err => (s, some err)
      | .ok ts =>
        writer.Write s (stringBytes (String.mk
          ([Char.ofNat 123] ++ "\n  ".toList ++
            (if r.Host = "" then []
              else "\"host\": ".toList ++ json.quote r.Host ++ ",\n  ".toList) ++
            (if r.Remote = "" then []
              else "\"remote\": ".toList ++ json.quote r.Remote ++ ",\n  ".toList) ++
            "\"url\": ".toList ++ json.quote r.URL ++
            ",\n  \"Method\": ".toList ++ json.quote r.Method ++
            ",\n  \"timestamp\": \"".toList ++ ts.toList ++
            "\",\n  \"headers\": ".toList ++
            json.render " " " " 1 (json.stringsMap r.Headers) ++
            (if r.Body = [] then []
              else ",\n  \"body\": \"".toList ++ base64.encode r.Body ++ "\"".toList) ++
            "\n ".toList ++ [Char.ofNat 125]))) := by
  rw [Save_eq]
  cases r.Timestamp.MarshalJSON with
  | error err => rfl
  | ok ts =>
    simp only []
    rw [render_jsonFields]

/-- C12, as the code has it: for a timestamp with a year from 0 to 9999 and a
zone offset of less than 24 hours, `Save` writes the document with, as the value
of `timestamp`, the time in the layout RFC3339Nano in the location of the
timestamp: date, `T`, clock, then the fraction of the second, which is nothing
for the nanosecond 0 and otherwise a dot and the nine digits of the nanosecond
without the zeros at their end (so every digit below the millisecond that is not
a trailing zero is written), then the zone. The zone of a timestamp that
`NewFromRequest` sets is `Z`. -/
theorem Save_timestamp_RFC3339Nano {σ : Type} (r : CapturedRequest)
    (hy0 : 0 ≤ r.Timestamp.Date.1) (hy1 : r.Timestamp.Date.1 ≤ 9999)
    (hz0 : -86400 < r.Timestamp.loc.offset) (hz1 : r.Timestamp.loc.offset < 86400)
    (writer : Writer σ) (s : σ) :
    (∃ ts digits : List Char,
      r.Save writer s =
        writer.Write s (stringBytes (String.mk
          ([Char.ofNat 123] ++ "\n  ".toList ++
            (if r.Host = "" then []
              else "\"host\": ".toList ++ json.quote r.Host ++ ",\n  ".toList) ++
            (if r.Remote = "" then []
              else "\"remote\": ".toList ++ json.quote r.Remote ++ ",\n  ".toList) ++
            "\"url\": ".toList ++ json.quote r.URL ++
            ",\n  \"Method\": ".toList ++ json.quote r.Method ++
            ",\n  \"timestamp\": \"".toList ++ ts ++
            "\",\n  \"headers\": ".toList ++
            json.render " " " " 1 (json.stringsMap r.Headers) ++
            (if r.Body = [] then []
              else ",\n  \"body\": \"".toList ++ base64.encode r.Body ++ "\"".toList) ++
            "\n ".toList ++ [Char.ofNat 125]))) ∧
      ts =
        appendInt r.Timestamp.Date.1 4 ++ ['-'] ++ appendInt r.Timestamp.Date.2.1 2 ++ ['-'] ++
          appendInt r.Timestamp.Date.2.2 2 ++ ['T'] ++ appendInt r.Timestamp.Clock.1 2 ++
          [':'] ++ appendInt r.Timestamp.Clock.2.1 2 ++ [':'] ++
          appendInt r.Timestamp.Clock.2.2 2 ++
          (if r.Timestamp.nsec = 0 then [] else '.' :: digits) ++
          zoneText r.Timestamp.loc.offset ∧
      digits ++ List.replicate (9 - digits.length) '0' = fixedDigits 9 r.Timestamp.nsec ∧
      digits.getLast? ≠ some '0') ∧
    ∀ (now : Time) (request : http.Request) (maxBody : Int),
      zoneText (NewFromRequest now request maxBody).1.Timestamp.loc.offset = ['Z'] := by
  constructor
  · have hlt := r.Timestamp.nsec_lt
    have hz : zeroPad 9 r.Timestamp.nsec = fixedDigits 9 r.Timestamp.nsec := by
      unfold zeroPad
      rw [if_pos (by omega)]
    have hm : r.Timestamp.MarshalJSON = .ok (String.mk r.Timestamp.formatRFC3339Nano) := by
      have hzone := zone_hours_lt r.Timestamp.loc.offset hz0 hz1
      unfold Time.MarshalJSON
      rw [if_neg (by omega), if_neg (by omega)]
    refine ⟨r.Timestamp.formatRFC3339Nano, trimZeros (fixedDigits 9 r.Timestamp.nsec), ?_, ?_, ?_,
      (trimZeros_spec _).2⟩
    · rw [Save_eq, hm]
      simp only []
      rw [render_jsonFields]
      rfl
    · simp only [Time.formatRFC3339Nano, appendNano, hz]
    · have h1 := (trimZeros_spec (fixedDigits 9 r.Timestamp.nsec)).1
      rw [fixedDigits_length] at h1
      exact h1
  · intro now request maxBody
    by_cases hr : (io.ReadAll (io.LimitReader request.Body maxBody)).2 = none <;>
      simp [NewFromRequest, hr, CapturedRequest.zero, Time.zero, Time.UTC, time.UTC, zoneText]

/-- The amended C12 at the timestamp of the test, 12344310923 milliseconds after
the epoch in UTC: the value written is `1970-05-23T20:58:30.923Z`. -/
theorem Save_timestamp_RFC3339Nano_witness :
    (0 : Int) ≤ (UnixMilli time.UTC 12344310923).UTC.Date.1 ∧
    (UnixMilli time.UTC 12344310923).UTC.Date.1 ≤ 9999 ∧
    -86400 < (UnixMilli time.UTC 12344310923).UTC.loc.offset ∧
    (UnixMilli time.UTC 12344310923).UTC.loc.offset < 86400 ∧
    ({ CapturedRequest.zero with Timestamp := (UnixMilli time.UTC 12344310923).UTC } :
        CapturedRequest).Save bufferWriter [] =
      (stringBytes "\x7b\n  \"url\": \"\",\n  \"Method\": \"\",\n  \"timestamp\": \"1970-05-23T20:58:30.923Z\",\n  \"headers\": null\n \x7d",
        none) ∧
    zoneText (NewFromRequest (UnixMilli time.UTC 12344310923)
      ⟨"GET", ⟨"/", "/"⟩, "", "", none, io.bytesReader []⟩ 0).1.Timestamp.loc.offset = ['Z'] :=
  ⟨by decide, by decide, by decide, by decide, by rfl,
    (Save_timestamp_RFC3339Nano
      { CapturedRequest.zero with Timestamp := (UnixMilli time.UTC 12344310923).UTC }
      (by decide) (by decide) (by decide) (by decide) bufferWriter []).2
      (UnixMilli time.UTC 12344310923)
      ⟨"GET", ⟨"/", "/"⟩, "", "", none, io.bytesReader []⟩ 0⟩

/-- C12 refuted: a request captured 923000001 nanoseconds into a second is saved
with the timestamp `1970-05-23T20:58:30.923000001Z`, which has the digits below
the millisecond, and not with `1970-05-23T20:58:30.923Z`. -/
theorem Save_timestamp_keeps_nanoseconds :
    (NewFromRequest ⟨12344310, 923000001, by decide, time.UTC⟩
        ⟨"GET", ⟨"/", "/"⟩, "", "", none, io.bytesReader []⟩ 0).1.Timestamp.MarshalJSON =
        .ok "1970-05-23T20:58:30.923000001Z" ∧
      (NewFromRequest ⟨12344310, 923000001, by decide, time.UTC⟩
        ⟨"GET", ⟨"/", "/"⟩, "", "", none, io.bytesReader []⟩ 0).1.Save bufferWriter [] =
        (stringBytes "\x7b\n  \"url\": \"/\",\n  \"Method\": \"GET\",\n  \"timestamp\": \"1970-05-23T20:58:30.923000001Z\",\n  \"headers\": \x7b\x7d\n \x7d",
          none) ∧
      "1970-05-23T20:58:30.923000001Z" ≠ "1970-05-23T20:58:30.923Z" := by
  refine ⟨by rfl, by rfl, by decide⟩

/-- C13: in the bytes `Save` writes, the field `"body"` is there exactly when the
body is not empty, as the last field, and its value is, between quotes, the
standard base64 text of the body: four characters of the standard alphabet or
`=` for every three bytes, which `StdEncoding.DecodeString` decodes to the bytes
of the body. The body `12345` is written as `MTIzNDU=`. -/
theorem Save_body_base64 {σ : Type} (r : CapturedRequest) (writer : Writer σ) (s : σ) :
    (r.Save writer s =
      match r.Timestamp.MarshalJSON with
      | .error err => (s, some err)
      | .ok ts =>
        writer.Write s (stringBytes (String.mk
          ([Char.ofNat 123] ++ "\n  ".toList ++
            (if r.Host = "" then []
              else "\"host\": ".toList ++ json.quote r.Host ++ ",\n  ".toList) ++
            (if r.Remote = "" then []
              else "\"remote\": ".toList ++ json.quote r.Remote ++ ",\n  ".toList) ++
            "\"url\": ".toList ++ json.quote r.URL ++
            ",\n  \"Method\": ".toList ++ json.quote r.Method ++
            ",\n  \"timestamp\": \"".toList ++ ts.toList ++
            "\",\n  \"headers\": ".toList ++
            json.render " " " " 1 (json.stringsMap r.Headers) ++
            (if r.Body = [] then []
              else ",\n  \"body\": \"".toList ++ base64.encode r.Body ++ "\"".toList) ++
            "\n ".toList ++ [Char.ofNat 125])))) ∧
    base64.decode (String.mk (base64.encode r.Body)) = .ok r.Body ∧
    (base64.encode r.Body).length = 4 * ((r.Body.length + 2) / 3) ∧
    (∀ c ∈ base64.encode r.Body,
      c = '=' ∨ c ∈ "ABCDEFGHIJKLMNOPQRSTUVWXYZabcdefghijklmnopqrstuvwxyz0123456789+/".toList) ∧
    base64.encode (stringBytes "12345") = "MTIzNDU=".toList ∧
    (∀ (host remote url method : String) (headers : Option (List (String × List String))),
      CapturedRequest.Save
        ⟨host, remote, url, method, (UnixMilli time.UTC 12344310923).UTC, headers,
          stringBytes "12345"⟩ bufferWriter [] =
        (stringBytes (String.mk
          ([Char.ofNat 123] ++ "\n  ".toList ++
            (if host = "" then []
              else "\"host\": ".toList ++ json.quote host ++ ",\n  ".toList) ++
            (if remote = "" then []
              else "\"remote\": ".toList ++ json.quote remote ++ ",\n  ".toList) ++
            "\"url\": ".toList ++ json.quote url ++
            ",\n  \"Method\": ".toList ++ json.quote method ++
            ",\n  \"timestamp\": \"1970-05-23T20:58:30.923Z\"".toList ++
            ",\n  \"headers\": ".toList ++ json.render " " " " 1 (json.stringsMap headers) ++
            ",\n  \"body\": \"MTIzNDU=\"".toList ++ "\n ".toList ++ [Char.ofNat 125])),
          none)) := by
  refine ⟨?_, base64.decode_encode r.Body, base64.encode_length r.Body, ?_, by decide, ?_⟩
  · rw [Save_eq]
    cases r.Timestamp.MarshalJSON with
    | error err => rfl
    | ok ts =>
      simp only []
      rw [render_jsonFields]
  · exact base64.encode_mem r.Body
  · intro host remote url method headers
    rw [Save_eq]
    have hm : (UnixMilli time.UTC 12344310923).UTC.MarshalJSON =
        .ok "1970-05-23T20:58:30.923Z" := by rfl
    simp only [hm]
    rw [render_jsonFields]
    have hb : stringBytes "12345" ≠ [] := by decide
    have he : base64.encode (stringBytes "12345") = "MTIzNDU=".toList := by decide
    simp [hb, he, bufferWriter]

end capture

/-! ## Cleaning and joining paths -/

namespace path

/-- The examples of the documentation of `Clean` and cases of its tests. -/
theorem Clean_examples :
    Clean "a/c" = "a/c" ∧ Clean "a//c" = "a/c" ∧ Clean "a/c/." = "a/c" ∧
    Clean "a/c/b/.." = "a/c" ∧ Clean "/../a/c" = "/a/c" ∧
    Clean "/../a/b/../././/c" = "/a/c" ∧ Clean "" = "." ∧
    Clean "abc/def/../../.." = ".." ∧ Clean "/abc/def/../../.." = "/" ∧
    Clean "abc/def/../../../ghi/jkl/../../../mno" = "../../mno" ∧
    Clean "abc/" = "abc" ∧ Clean "/" = "/" ∧ Clean "." = "." := by
  decide

/-- The examples of the documentation of `Join` with two elements and cases of
its tests; a directory with a slash at its end, or the directory `.`, gives the
path Go gives. -/
theorem Join_examples :
    Join "a" "b" = "a/b" ∧ Join "a" "" = "a" ∧ Join "" "b" = "b" ∧ Join "" "" = "" ∧
    Join "/" "a" = "/a" ∧ Join "/" "" = "/" ∧ Join "a/" "b" = "a/b" ∧ Join "a/" "" = "a" ∧
    Join "a/b" "../../../xyz" = "../xyz" ∧
    Join "var/" "f" = "var/f" ∧ Join "." "f" = "f" ∧
    Join "var" "1970-05-23T205830.923000000.PUT" = "var/1970-05-23T205830.923000000.PUT" := by
  decide

end path
namespace engine

open golang regexp

/-- How `ServeHTTP` ends for the response writer is how `WriteResponse` ends for
the response that `Find` selects: the state it leaves, or its panic. -/
theorem ServeHTTP_state {σ : Type} (e : Engine) (w : World) (response : http.ResponseWriter σ)
    (s : σ) (request : http.Request) :
    (e.ServeHTTP w response s request).2 =
      (WriteResponse (e.Responses.Find request.Method request.URL.Path) w.heap response s).map
        Prod.fst := by
  unfold Engine.ServeHTTP
  simp only []
  split <;> split <;> (try split) <;> (try split) <;> simp_all [Outcome.map]

/-- The disk after `ServeHTTP`: as it was when the selected response skips the
capture, and otherwise as one call of `SaveTo` on the capture leaves it. -/
theorem ServeHTTP_disk {σ : Type} (e : Engine) (w : World) (response : http.ResponseWriter σ)
    (s : σ) (request : http.Request) :
    (e.ServeHTTP w response s request).1.disk =
      if (e.Responses.Find request.Method request.URL.Path).SkipCapture then w.disk
      else ((capture.NewFromRequest w.now request e.Config.MaxRequestSize).1.SaveTo
        e.Config.CaptureDir w.disk).1 := by
  have hne := capture.NewFromRequest_no_error w.now request e.Config.MaxRequestSize
  unfold Engine.ServeHTTP
  simp only []
  split <;> split <;> (try split) <;> (try split) <;> simp_all

end engine

namespace engine

open golang regexp

/-- No entry that `ServeHTTP` logs says that the request could not be captured:
`NewFromRequest` never returns an error. -/
theorem ServeHTTP_log_capture {σ : Type} (e : Engine) (w : World)
    (response : http.ResponseWriter σ) (s : σ) (request : http.Request) :
    ∀ entry ∈ (e.ServeHTTP w response s request).1.log,
      entry ∈ w.log ∨ entry.msg ≠ "Unable to capture the request." := by
  have hne := capture.NewFromRequest_no_error w.now request e.Config.MaxRequestSize
  unfold Engine.ServeHTTP
  simp only []
  intro entry
  split <;> split <;> (try split) <;> (try split) <;>
    simp_all [zap.Logger.Error, zap.Logger.Info] <;>
    (intro hentry; rcases hentry with hentry | hentry) <;>
    (try rcases hentry with hentry | hentry) <;>
    simp_all

end engine

namespace engine

open golang regexp

/-- C15, as the code has it: when the body of the request cannot be read (the
reader gives an error that is not `io.EOF` before the cap is reached), `ReadAll`
fails but `NewFromRequest` returns the zero capture and no error. `ServeHTTP`
therefore logs nothing about the capture and, unless the selected response skips
the capture, saves the zero capture; the response is sent as for any request:
`ServeHTTP` ends for the response writer as `WriteResponse` does. -/
theorem ServeHTTP_read_error_not_reported {σ : Type} (e : Engine) (w : World)
    (response : http.ResponseWriter σ) (s : σ) (request : http.Request)
    (hfinal : request.Body.final ≠ .EOF)
    (hlen : (request.Body.chunks.flatten.length : Int) < e.Config.MaxRequestSize) :
    (io.ReadAll (io.LimitReader request.Body e.Config.MaxRequestSize)).2 =
        some request.Body.final ∧
      capture.NewFromRequest w.now request e.Config.MaxRequestSize =
        (capture.CapturedRequest.zero, none) ∧
      (∀ entry ∈ (e.ServeHTTP w response s request).1.log,
        entry ∈ w.log ∨ entry.msg ≠ "Unable to capture the request.") ∧
      (e.ServeHTTP w response s request).1.disk =
        (if (e.Responses.Find request.Method request.URL.Path).SkipCapture then w.disk
        else (capture.CapturedRequest.zero.SaveTo e.Config.CaptureDir w.disk).1) ∧
      (e.ServeHTTP w response s request).2 =
        (WriteResponse (e.Responses.Find request.Method request.URL.Path) w.heap response
          s).map Prod.fst := by
  have hr : (io.ReadAll (io.LimitReader request.Body e.Config.MaxRequestSize)).2 =
      some request.Body.final := by
    rw [io.ReadAll_LimitReader, if_pos ⟨hlen, hfinal⟩]
  have hn : capture.NewFromRequest w.now request e.Config.MaxRequestSize =
      (capture.CapturedRequest.zero, none) := by
    simp [capture.NewFromRequest, hr]
  refine ⟨hr, hn, ServeHTTP_log_capture e w response s request, ?_,
    ServeHTTP_state e w response s request⟩
  rw [ServeHTTP_disk, hn]

/-- The witness of C15: a request whose body gives two bytes and then an error,
handled by an engine without rules that captures into `var`: the log stays
empty, and the file of the zero capture is written. -/
theorem ServeHTTP_read_error_not_reported_witness :
    (GoError.readError "connection reset") ≠ GoError.EOF ∧
      (([[49, 50]] : List (List UInt8)).flatten.length : Int) < 10 ∧
      (Engine.ServeHTTP ⟨ResponseSet.zero, ⟨":8080", "var", 10, 10, 10, []⟩⟩
        ⟨⟨[]⟩, ⟨[], [], [], []⟩, [], ⟨12344310, 923000000, by decide, time.UTC⟩⟩
        (http.recorder (fun _ => "")) http.NewRecorder
        ⟨"PUT", ⟨"/path1", "http://host1/path1"⟩, "host1", "192.0.2.1:1234",
          some [("a", ["b"])], ⟨[[49, 50]], .readError "connection reset"⟩⟩).1.disk =
        ⟨[("var/0001-01-01T000000.000000000.",
            stringBytes "\x7b\n  \"url\": \"\",\n  \"Method\": \"\",\n  \"timestamp\": \"0001-01-01T00:00:00Z\",\n  \"headers\": null\n \x7d")],
          [], [], []⟩ ∧
      (Engine.ServeHTTP ⟨ResponseSet.zero, ⟨":8080", "var", 10, 10, 10, []⟩⟩
        ⟨⟨[]⟩, ⟨[], [], [], []⟩, [], ⟨12344310, 923000000, by decide, time.UTC⟩⟩
        (http.recorder (fun _ => "")) http.NewRecorder
        ⟨"PUT", ⟨"/path1", "http://host1/path1"⟩, "host1", "192.0.2.1:1234",
          some [("a", ["b"])], ⟨[[49, 50]], .readError "connection reset"⟩⟩).1.log = [] :=
  ⟨by decide, by decide,
    ((ServeHTTP_read_error_not_reported ⟨ResponseSet.zero, ⟨":8080", "var", 10, 10, 10, []⟩⟩
        ⟨⟨[]⟩, ⟨[], [], [], []⟩, [], ⟨12344310, 923000000, by decide, time.UTC⟩⟩
        (http.recorder (fun _ => "")) http.NewRecorder
        ⟨"PUT", ⟨"/path1", "http://host1/path1"⟩, "host1", "192.0.2.1:1234",
          some [("a", ["b"])], ⟨[[49, 50]], .readError "connection reset"⟩⟩
        (by decide) (by decide)).2.2.2.1).trans (by rfl),
    by rfl⟩

/-- C16: for a request whose body can be read, the capture is the one of this
request; when the selected response skips the capture the disk stays as it was,
and otherwise the disk is what one call of `SaveTo` on the capture leaves: no
file but the one named by `GetFileTitle` in the capture directory changes, this
file is there when `os.Create` does not fail, and it holds the document when
`Write` does not fail either. -/
theorem ServeHTTP_capture_file {σ : Type} (e : Engine) (w : World)
    (response : http.ResponseWriter σ) (s : σ) (request : http.Request)
    (hread : request.Body.final = .EOF) :
    (capture.NewFromRequest w.now request e.Config.MaxRequestSize).1.Method = request.Method ∧
      (capture.NewFromRequest w.now request e.Config.MaxRequestSize).1.Timestamp = w.now.UTC ∧
      (capture.NewFromRequest w.now request e.Config.MaxRequestSize).1.Body =
        request.Body.chunks.flatten.take e.Config.MaxRequestSize.toNat ∧
      ((e.Responses.Find request.Method request.URL.Path).SkipCapture = true →
        (e.ServeHTTP w response s request).1.disk = w.disk) ∧
      ((e.Responses.Find request.Method request.URL.Path).SkipCapture = false →
        (e.ServeHTTP w response s request).1.disk =
          ((capture.NewFromRequest w.now request e.Config.MaxRequestSize).1.SaveTo
            e.Config.CaptureDir w.disk).1 ∧
        (∀ other : String,
          other ≠ path.Join e.Config.CaptureDir
            (capture.NewFromRequest w.now request e.Config.MaxRequestSize).1.GetFileTitle →
          (e.ServeHTTP w response s request).1.disk.files.lookup other =
            w.disk.files.lookup other) ∧
        (w.disk.createErrors.lookup (path.Join e.Config.CaptureDir
            (capture.NewFromRequest w.now request e.Config.MaxRequestSize).1.GetFileTitle) = none →
          ((e.ServeHTTP w response s request).1.disk.files.lookup
            (path.Join e.Config.CaptureDir
              (capture.NewFromRequest w.now request
                e.Config.MaxRequestSize).1.GetFileTitle)).isSome = true) ∧
        (∀ data : String,
          (capture.NewFromRequest w.now request e.Config.MaxRequestSize).1.MarshalIndent " " " " =
            .ok data →
          w.disk.createErrors.lookup (path.Join e.Config.CaptureDir
            (capture.NewFromRequest w.now request e.Config.MaxRequestSize).1.GetFileTitle) = none →
          w.disk.writeErrors.lookup (path.Join e.Config.CaptureDir
            (capture.NewFromRequest w.now request e.Config.MaxRequestSize).1.GetFileTitle) = none →
          (e.ServeHTTP w response s request).1.disk.files.lookup
            (path.Join e.Config.CaptureDir
              (capture.NewFromRequest w.now request e.Config.MaxRequestSize).1.GetFileTitle) =
            some (stringBytes data))) := by
  have hr : io.ReadAll (io.LimitReader request.Body e.Config.MaxRequestSize) =
      (request.Body.chunks.flatten.take e.Config.MaxRequestSize.toNat, none) := by
    rw [io.ReadAll_LimitReader]
    simp [hread]
  refine ⟨?_, ?_, ?_, ?_, ?_⟩
  · simp [capture.NewFromRequest, hr]
  · simp [capture.NewFromRequest, hr]
  · simp [capture.NewFromRequest, hr]
  · intro hskip
    rw [ServeHTTP_disk, if_pos hskip]
  · intro hskip
    have hd : (e.ServeHTTP w response s request).1.disk =
        ((capture.NewFromRequest w.now request e.Config.MaxRequestSize).1.SaveTo
          e.Config.CaptureDir w.disk).1 := by
      rw [ServeHTTP_disk, hskip]
      rfl
    refine ⟨hd, ?_, ?_, ?_⟩
    · intro other hne
      rw [hd]
      exact capture.SaveTo_other_files _ _ _ _ hne
    · intro hc
      rw [hd]
      exact capture.SaveTo_creates _ _ _ hc
    · intro data hm hc hw
      rw [hd]
      exact capture.SaveTo_content _ _ _ _ hm hc hw

/-- The witness of C16: the request of the tests, handled by an engine without
rules that captures into `var`, on an empty disk: one file, named by
`GetFileTitle`, is written in `var`. -/
theorem ServeHTTP_capture_file_witness :
    (io.bytesReader [49, 50, 51, 52, 53]).final = .EOF ∧
      (Engine.ServeHTTP ⟨ResponseSet.zero, ⟨":8080", "var", 10, 10, 10, []⟩⟩
        ⟨⟨[]⟩, ⟨[], [], [], []⟩, [], ⟨12344310, 923000000, by decide, time.UTC⟩⟩
        (http.recorder (fun _ => "")) http.NewRecorder
        ⟨"PUT", ⟨"/path1", "http://host1/path1"⟩, "host1", "192.0.2.1:1234",
          some [("a", ["b"])], io.bytesReader [49, 50, 51, 52, 53]⟩).1.disk =
        ⟨[("var/1970-05-23T205830.923000000.PUT",
            stringBytes "\x7b\n  \"host\": \"host1\",\n  \"remote\": \"192.0.2.1:1234\",\n  \"url\": \"http://host1/path1\",\n  \"Method\": \"PUT\",\n  \"timestamp\": \"1970-05-23T20:58:30.923Z\",\n  \"headers\": \x7b\n   \"a\": [\n    \"b\"\n   ]\n  \x7d,\n  \"body\": \"MTIzNDU=\"\n \x7d")],
          [], [], []⟩ :=
  ⟨rfl,
    (((ServeHTTP_capture_file ⟨ResponseSet.zero, ⟨":8080", "var", 10, 10, 10, []⟩⟩
        ⟨⟨[]⟩, ⟨[], [], [], []⟩, [], ⟨12344310, 923000000, by decide, time.UTC⟩⟩
        (http.recorder (fun _ => "")) http.NewRecorder
        ⟨"PUT", ⟨"/path1", "http://host1/path1"⟩, "host1", "192.0.2.1:1234",
          some [("a", ["b"])], io.bytesReader [49, 50, 51, 52, 53]⟩ rfl).2.2.2.2 rfl).1).trans
      (by rfl)⟩

/-- A rule with `skipCapture` set, matched by the request: no file is written and
the skip is logged. -/
theorem ServeHTTP_skip_example :
    (Engine.ServeHTTP
        ⟨⟨[((ResponseBuilder.zero.SkipCapture true).Build ⟨[]⟩).2]⟩,
          ⟨":8080", "var", 10, 10, 10, []⟩⟩
        ⟨⟨[]⟩, ⟨[], [], [], []⟩, [], ⟨12344310, 923000000, by decide, time.UTC⟩⟩
        (http.recorder (fun _ => "")) http.NewRecorder
        ⟨"PUT", ⟨"/path1", "http://host1/path1"⟩, "host1", "192.0.2.1:1234",
          some [("a", ["b"])], io.bytesReader [49, 50, 51, 52, 53]⟩).1 =
      ⟨⟨[]⟩, ⟨[], [], [], []⟩,
        [⟨.info, "Capture skipped.",
          [.string "URL" "http://host1/path1", .string "host" "host1",
           .string "remote" "192.0.2.1:1234"]⟩],
        ⟨12344310, 923000000, by decide, time.UTC⟩⟩ := by
  rfl

/-- A capture that cannot be created: the error is logged, the disk stays as it
was, and the recorder still shows the default response. -/
theorem ServeHTTP_persist_error_example :
    Engine.ServeHTTP ⟨ResponseSet.zero, ⟨":8080", "var", 10, 10, 10, []⟩⟩
        ⟨⟨[]⟩, ⟨[], [("var/1970-05-23T205830.923000000.PUT", .pathError "no such directory")],
          [], []⟩, [], ⟨12344310, 923000000, by decide, time.UTC⟩⟩
        (http.recorder (fun _ => "")) http.NewRecorder
        ⟨"PUT", ⟨"/path1", "http://host1/path1"⟩, "host1", "192.0.2.1:1234",
          some [("a", ["b"])], io.bytesReader [49, 50, 51, 52, 53]⟩ =
      (⟨⟨[]⟩, ⟨[], [("var/1970-05-23T205830.923000000.PUT", .pathError "no such directory")],
          [], []⟩,
        [⟨.error, "Unable to save the captured request.",
          [.error (.pathError "no such directory")]⟩],
        ⟨12344310, 923000000, by decide, time.UTC⟩⟩,
       .returns ⟨200, true, [("Content-Type", ["application/json"])],
         stringBytes "\x7b\x7d"⟩) := by
  rfl

/-- C17: what `ServeHTTP` sends is what `WriteResponse` sends for the response
that `Find` selects for the method and the path, on the heap of the bodies (and
it panics when `WriteResponse` does): it is the same for any other disk, log,
time, host, remote address, headers and body of the request, so whether the
capture succeeds, is skipped or fails. The disk after `ServeHTTP` is the same for
any other response writer, whether its calls fail, panic or succeed: it is the
disk as it was when the response skips the capture, and otherwise what `SaveTo`
leaves. -/
theorem ServeHTTP_response_capture_independent {σ τ : Type} (e : Engine) (w : World)
    (response : http.ResponseWriter σ) (s : σ) (request : http.Request)
    (disk2 : os.Disk) (log2 : zap.Logger) (now2 : time.Time)
    (host2 remote2 text2 : String) (header2 : Option (List (String × List String)))
    (body2 : io.Reader) (response2 : http.ResponseWriter τ) (t : τ) :
    (e.ServeHTTP w response s request).2 =
        (WriteResponse (e.Responses.Find request.Method request.URL.Path) w.heap response
          s).map Prod.fst ∧
      (e.ServeHTTP ⟨w.heap, disk2, log2, now2⟩ response s
          ⟨request.Method, ⟨request.URL.Path, text2⟩, host2, remote2, header2, body2⟩).2 =
        (e.ServeHTTP w response s request).2 ∧
      (e.ServeHTTP w response2 t request).1.disk = (e.ServeHTTP w response s request).1.disk ∧
      (e.ServeHTTP w response s request).1.disk =
        (if (e.Responses.Find request.Method request.URL.Path).SkipCapture then w.disk
        else ((capture.NewFromRequest w.now request e.Config.MaxRequestSize).1.SaveTo
          e.Config.CaptureDir w.disk).1) := by
  refine ⟨ServeHTTP_state e w response s request, ?_, ?_, ServeHTTP_disk e w response s request⟩
  · rw [ServeHTTP_state, ServeHTTP_state]
  · rw [ServeHTTP_disk, ServeHTTP_disk]

end engine
/-! ## The file title tells the instant and the method -/

namespace time

/-- A digit character tells its digit. -/
theorem digitChar_inj (a b : Nat) (h : digitChar a = digitChar b) : a % 10 = b % 10 := by
  have ha : a % 10 < 10 := Nat.mod_lt a (by decide)
  have hb : b % 10 < 10 := Nat.mod_lt b (by decide)
  unfold digitChar at h
  generalize a % 10 = x at h ha
  generalize b % 10 = y at h hb
  have key : ∀ x, x < 10 → ∀ y, y < 10 → Char.ofNat (48 + x) = Char.ofNat (48 + y) → x = y := by
    decide
  exact key x ha y hb h

/-- The digits of fixed width tell the number up to the power of ten. -/
theorem fixedDigits_inj (width a b : Nat) (h : fixedDigits width a = fixedDigits width b) :
    a % 10 ^ width = b % 10 ^ width := by
  induction width generalizing a b with
  | zero => simp [Nat.mod_one]
  | succ w ih =>
    simp only [fixedDigits] at h
    have hlen : (fixedDigits w (a / 10)).length = (fixedDigits w (b / 10)).length := by
      rw [fixedDigits_length, fixedDigits_length]
    obtain ⟨h1, h2⟩ := List.append_inj h hlen
    have hd := digitChar_inj a b (by simpa using h2)
    have hq := ih (a / 10) (b / 10) h1
    rw [pow_succ', Nat.mod_mul, Nat.mod_mul, hd, hq]

/-- A number from 0 to below `n` is told by its digits. -/
theorem toNat_mod_inj (x y : Int) (n : Nat) (hx0 : 0 ≤ x) (hx1 : x < n) (hy0 : 0 ≤ y)
    (hy1 : y < n) (h : x.toNat % n = y.toNat % n) : x = y := by
  have hx : x.toNat < n := by omega
  have hy : y.toNat < n := by omega
  rw [Nat.mod_eq_of_lt hx, Nat.mod_eq_of_lt hy] at h
  omega

/-- The day and the clock tell the second. -/
theorem sec_of_day_clock (s t : Int) (hday : s / 86400 = t / 86400)
    (hH : s % 86400 / 3600 = t % 86400 / 3600)
    (hI : s % 86400 % 3600 / 60 = t % 86400 % 3600 / 60)
    (hS : s % 86400 % 60 = t % 86400 % 60) : s = t := by
  omega

end time

namespace capture

open time

/-- The characters of the file title for a year from 0 to 9999: 28 characters of
fixed widths, then the method. -/
theorem GetFileTitle_toList (r : CapturedRequest)
    (h0 : 0 ≤ r.Timestamp.UTC.Date.1) (h1 : r.Timestamp.UTC.Date.1 ≤ 9999) :
    r.GetFileTitle.toList =
      fixedDigits 4 (absDate (r.Timestamp.sec / 86400)).1.toNat ++
        '-' :: fixedDigits 2 (absDate (r.Timestamp.sec / 86400)).2.1.toNat ++
        '-' :: fixedDigits 2 (absDate (r.Timestamp.sec / 86400)).2.2.toNat ++
        'T' :: fixedDigits 2 (r.Timestamp.sec % 86400 / 3600).toNat ++
        fixedDigits 2 (r.Timestamp.sec % 86400 % 3600 / 60).toNat ++
        fixedDigits 2 (r.Timestamp.sec % 86400 % 60).toNat ++
        '.' :: fixedDigits 9 r.Timestamp.nsec ++ '.' :: r.Method.toList := by
  have hwall : r.Timestamp.UTC.wallSeconds = r.Timestamp.sec := by
    simp [Time.wallSeconds, Time.UTC, time.UTC]
  have hdate : r.Timestamp.UTC.Date = absDate (r.Timestamp.sec / 86400) := by
    simp only [Time.Date, hwall]
  rw [hdate] at h0 h1
  obtain ⟨m1, m2, d1, d2, -⟩ := absDate_spec (r.Timestamp.sec / 86400)
  generalize absDate (r.Timestamp.sec / 86400) = date at m1 m2 d1 d2 h0 h1 hdate ⊢
  obtain ⟨year, month, day⟩ := date
  simp only at m1 m2 d1 d2 h0 h1
  have hd31 : day ≤ 31 := by
    have : daysInMonth year month ≤ 31 := by
      unfold daysInMonth
      split
      · split <;> omega
      · split <;> omega
    omega
  have hnsec : zeroPad 9 r.Timestamp.nsec = fixedDigits 9 r.Timestamp.nsec := by
    have hlt := r.Timestamp.nsec_lt
    simp [zeroPad, hlt]
  simp only [CapturedRequest.GetFileTitle, Time.Format, fileTitleLayout, List.flatMap_cons,
    List.flatMap_nil, Time.formatChunk, hdate, Time.Clock, hwall,
    sprintf09d, Time.Nanosecond, Int.toNat_ofNat, hnsec]
  rw [appendInt_of_nonneg year 4 h0 (by norm_num; omega),
    appendInt_of_nonneg month 2 (by omega) (by norm_num; omega),
    appendInt_of_nonneg day 2 (by omega) (by norm_num; omega),
    appendInt_of_nonneg _ 2 (by omega) (by norm_num; omega),
    appendInt_of_nonneg _ 2 (by omega) (by norm_num; omega),
    appendInt_of_nonneg _ 2 (by omega) (by norm_num; omega)]
  simp [String.append, List.append_assoc]

end capture

namespace capture

open time

/-- C21: for two captured requests whose timestamps have a UTC year from 0 to
9999, the file titles are equal exactly when the methods are equal and the
timestamps are the same instant to the nanosecond: `GetFileTitle` is injective
on the UTC instant and the method, so two requests get the same file name only
when they have the same method and the same nanosecond. -/
theorem GetFileTitle_injective (r q : CapturedRequest)
    (hr0 : 0 ≤ r.Timestamp.UTC.Date.1) (hr1 : r.Timestamp.UTC.Date.1 ≤ 9999)
    (hq0 : 0 ≤ q.Timestamp.UTC.Date.1) (hq1 : q.Timestamp.UTC.Date.1 ≤ 9999) :
    r.GetFileTitle = q.GetFileTitle ↔
      (r.Method = q.Method ∧ r.Timestamp.sec = q.Timestamp.sec ∧
        r.Timestamp.nsec = q.Timestamp.nsec) := by
  constructor
  · intro htitle
    have h := congrArg String.toList htitle
    rw [GetFileTitle_toList r hr0 hr1, GetFileTitle_toList q hq0 hq1] at h
    have hwr : r.Timestamp.UTC.wallSeconds = r.Timestamp.sec := by
      simp [Time.wallSeconds, Time.UTC, time.UTC]
    have hwq : q.Timestamp.UTC.wallSeconds = q.Timestamp.sec := by
      simp [Time.wallSeconds, Time.UTC, time.UTC]
    simp only [Time.Date, hwr, hwq] at hr0 hr1 hq0 hq1
    obtain ⟨rm1, rm2, rd1, rd2, rnum⟩ := absDate_spec (r.Timestamp.sec / 86400)
    obtain ⟨qm1, qm2, qd1, qd2, qnum⟩ := absDate_spec (q.Timestamp.sec / 86400)
    have hrn := r.Timestamp.nsec_lt
    have hqn := q.Timestamp.nsec_lt
    generalize absDate (r.Timestamp.sec / 86400) = rdate at h hr0 hr1 rm1 rm2 rd1 rd2 rnum
    generalize absDate (q.Timestamp.sec / 86400) = qdate at h hq0 hq1 qm1 qm2 qd1 qd2 qnum
    obtain ⟨ry, rm, rd⟩ := rdate
    obtain ⟨qy, qm, qd⟩ := qdate
    simp only at h hr0 hr1 hq0 hq1 rm1 rm2 rd1 rd2 rnum qm1 qm2 qd1 qd2 qnum
    have hd31 : ∀ y m : Int, daysInMonth y m ≤ 31 := by
      intro y m
      unfold daysInMonth
      split
      · split <;> omega
      · split <;> omega
    have hrd := hd31 ry rm
    have hqd := hd31 qy qm
    simp only [List.append_assoc, List.cons_append] at h
    obtain ⟨hY, h⟩ := List.append_inj h (by rw [fixedDigits_length, fixedDigits_length])
    simp only [List.cons_append, List.cons.injEq, true_and] at h
    obtain ⟨hM, h⟩ := List.append_inj h (by rw [fixedDigits_length, fixedDigits_length])
    simp only [List.cons_append, List.cons.injEq, true_and] at h
    obtain ⟨hD, h⟩ := List.append_inj h (by rw [fixedDigits_length, fixedDigits_length])
    simp only [List.cons_append, List.cons.injEq, true_and] at h
    obtain ⟨hH, h⟩ := List.append_inj h (by rw [fixedDigits_length, fixedDigits_length])
    obtain ⟨hI, h⟩ := List.append_inj h (by rw [fixedDigits_length, fixedDigits_length])
    obtain ⟨hS, h⟩ := List.append_inj h (by rw [fixedDigits_length, fixedDigits_length])
    simp only [List.cons_append, List.cons.injEq, true_and] at h
    obtain ⟨hN, h⟩ := List.append_inj h (by rw [fixedDigits_length, fixedDigits_length])
    simp only [List.cons.injEq, true_and] at h
    have hy : ry = qy :=
      toNat_mod_inj ry qy (10 ^ 4) hr0 (by norm_num; omega) hq0 (by norm_num; omega)
        (fixedDigits_inj _ _ _ hY)
    have hm : rm = qm :=
      toNat_mod_inj rm qm (10 ^ 2) (by omega) (by norm_num; omega) (by omega)
        (by norm_num; omega) (fixedDigits_inj _ _ _ hM)
    have hd : rd = qd :=
      toNat_mod_inj rd qd (10 ^ 2) (by omega) (by norm_num; omega) (by omega)
        (by norm_num; omega) (fixedDigits_inj _ _ _ hD)
    have hH := toNat_mod_inj _ _ (10 ^ 2) (by omega) (by norm_num; omega) (by omega)
      (by norm_num; omega) (fixedDigits_inj _ _ _ hH)
    have hI := toNat_mod_inj _ _ (10 ^ 2) (by omega) (by norm_num; omega) (by omega)
      (by norm_num; omega) (fixedDigits_inj _ _ _ hI)
    have hS := toNat_mod_inj _ _ (10 ^ 2) (by omega) (by norm_num; omega) (by omega)
      (by norm_num; omega) (fixedDigits_inj _ _ _ hS)
    have hN : r.Timestamp.nsec = q.Timestamp.nsec := by
      have e := fixedDigits_inj _ _ _ hN
      rw [Nat.mod_eq_of_lt (by norm_num; omega), Nat.mod_eq_of_lt (by norm_num; omega)] at e
      exact e
    have hday : r.Timestamp.sec / 86400 = q.Timestamp.sec / 86400 := by
      rw [← rnum, ← qnum, hy, hm, hd]
    exact ⟨String.ext h, sec_of_day_clock _ _ hday hH hI hS, hN⟩
  · rintro ⟨hm, hs, hn⟩
    exact GetFileTitle_congr q r hm hs hn

/-- The witness of C21: two captures of the same instant with the method PUT,
one in UTC and one an hour east of it, with different hosts and bodies, have the
same file title. -/
theorem GetFileTitle_injective_witness :
    CapturedRequest.GetFileTitle
        ⟨"host1", "", "/a", "PUT", ⟨12344310, 923000001, by decide, time.UTC⟩, none, []⟩ =
      CapturedRequest.GetFileTitle
        ⟨"host2", "192.0.2.1:1234", "/b", "PUT",
          ⟨12344310, 923000001, by decide, ⟨"CET", 3600⟩⟩, some [], [49]⟩ ∧
    ("PUT" = "PUT" ∧ (12344310 : Int) = 12344310 ∧ 923000001 = 923000001) :=
  ⟨by rfl,
    (GetFileTitle_injective
      ⟨"host1", "", "/a", "PUT", ⟨12344310, 923000001, by decide, time.UTC⟩, none, []⟩
      ⟨"host2", "192.0.2.1:1234", "/b", "PUT",
        ⟨12344310, 923000001, by decide, ⟨"CET", 3600⟩⟩, some [], [49]⟩
      (by decide) (by decide) (by decide) (by decide)).1 (by rfl)⟩

end capture
